import Mathlib

/-!
# Transparent interceptor `proxy` of `src/jscode/main.js`

A shallow embedding of the function `proxy(obj, objname, type)` and of the two
handler factories nested in it (`getMethodHandler`, `getObjhandler`), together
with the part of the ECMAScript object model the handlers run on.

## The model

* The heap is a list of cells: ordinary objects (own properties in creation
  order, `[[Prototype]]`, `[[Extensible]]`, optional `[[Call]]` and
  `[[Construct]]`), Proxy exotic objects, and the handler records that the two
  factories create. An address is a position in the list.
* The essential internal methods of ordinary objects follow ECMA-262 section
  10.1, those of Proxy objects section 10.5, with the invariant checks the
  language performs on the result of a trap. A Proxy looks a trap up in its
  handler record: a `methodhandler` record has `apply` and `construct`, a
  `handler` record has `get`, `set`, `has`, `deleteProperty`, `defineProperty`,
  `getPrototypeOf`, `setPrototypeOf`, `preventExtensions` and `isExtensible`; an
  operation without trap goes to the target.
* The traps are the functions of `main.js`, under their names, in the
  namespaces `methodhandler` and `handler`; they call the `Reflect` functions
  of the namespace `Reflect`.
* The bodies of user functions, getters and setters are given by a table
  `FunTable` of arbitrary heap-passing functions.
* Recursion through prototype chains and proxy targets is cut by a nesting
  budget: `methods Φ (n + 1)` runs one layer of an internal method and uses
  `methods Φ n` for every internal method it calls. Without budget, or on a
  dangling address, an operation has no completion (`Outcome.abort`).

## What is abstracted

Numbers are integers (no `NaN`, no signed zero). The argument array handed to
the `apply` and `construct` traps and the descriptor object handed to the
`defineProperty` trap are passed as the list and the descriptor record they
were made from: `CreateArrayFromList` followed by `CreateListFromArrayLike`,
and `FromPropertyDescriptor` followed by `ToPropertyDescriptor`, give them back.
The intrinsic `Object.prototype` is a fixed address of the heap, and the
globals `Proxy`, `Reflect` and `Object` are the intrinsic ones. Labels are
strings. Every object is an ordinary object or one of the proxies of
`main.js`.
-/

namespace JsProxy

/-! ## Values, properties, heap cells -/

abbrev Ref := Nat
abbrev FuncId := Nat

/-- Property keys are strings or symbols. -/
inductive PropKey where
  | str (s : String)
  | sym (id : Nat)
  deriving DecidableEq, Repr

/-- ECMAScript language values. -/
inductive Val where
  | undefined
  | null
  | bool (b : Bool)
  | num (n : Int)
  | str (s : String)
  | sym (id : Nat)
  | obj (r : Ref)
  deriving DecidableEq, Repr

/-- Own property of an ordinary object: a fully populated descriptor. -/
inductive Slot where
  | data (value : Val) (writable enumerable configurable : Bool)
  | accessor (get set : Val) (enumerable configurable : Bool)
  deriving DecidableEq, Repr

/-- Property descriptor with optional fields. -/
structure Desc where
  value : Option Val := none
  writable : Option Bool := none
  get : Option Val := none
  set : Option Val := none
  enumerable : Option Bool := none
  configurable : Option Bool := none
  deriving DecidableEq, Repr

/-- Ordinary object (function objects carry a `[[Call]]` body id). -/
structure Ordinary where
  props : List (PropKey × Slot)
  proto : Option Ref
  extensible : Bool
  call : Option FuncId
  ctor : Bool
  deriving DecidableEq, Repr

/-- The two handler records of `main.js`.
`method WatchName target_obj` is what `getMethodHandler` returns (traps `apply`
and `construct`, field `target_obj`); `object WatchName` is what
`getObjhandler` returns (nine traps closed over `WatchName`). -/
inductive Handler where
  | method (WatchName : String) (target_obj : Val)
  | object (WatchName : String)
  deriving DecidableEq, Repr

/-- Heap cells. A proxy records whether its target was callable / a constructor
when it was created (`ProxyCreate`). -/
inductive Obj where
  | ordinary (o : Ordinary)
  | proxy (target : Ref) (handler : Ref) (callable ctor : Bool)
  | handler (hd : Handler)
  deriving DecidableEq, Repr

/-- The heap: cells addressed by position, and the address of the intrinsic
`Object.prototype`. -/
structure Heap where
  objs : List Obj
  objectPrototype : Ref
  deriving DecidableEq, Repr

/-- Thrown completions: a `TypeError` raised by the language, or a value thrown
by user code. -/
inductive Err where
  | typeError
  | thrown (v : Val)
  deriving DecidableEq, Repr

/-- Result of running an operation from a heap: normal completion, throw
completion, or no completion (`abort`: depth budget exhausted, dangling
address, or user code that does not return). -/
inductive Outcome (α : Type) where
  | ret (a : α) (h : Heap)
  | throw (e : Err) (h : Heap)
  | abort
  deriving DecidableEq, Repr

/-- Heap-passing computations. -/
def JS (α : Type) : Type := Heap → Outcome α

namespace JS

def pure {α : Type} (a : α) : JS α := fun h => .ret a h

def bind {α β : Type} (x : JS α) (f : α → JS β) : JS β := fun h =>
  match x h with
  | .ret a h1 => f a h1
  | .throw e h1 => .throw e h1
  | .abort => .abort

def throwTypeError {α : Type} : JS α := fun h => .throw .typeError h

def abort {α : Type} : JS α := fun _ => .abort

end JS

instance : Monad JS where
  pure := JS.pure
  bind := JS.bind

namespace Heap

def lookup (h : Heap) (r : Ref) : Option Obj := h.objs[r]?

def alloc (h : Heap) (o : Obj) : Ref × Heap :=
  (h.objs.length, { h with objs := h.objs ++ [o] })

def update (h : Heap) (r : Ref) (o : Obj) : Heap :=
  { h with objs := h.objs.set r o }

end Heap

/-- Read the cell at an address; a dangling address gives no completion. -/
def getCell (r : Ref) : JS Obj := fun h =>
  match h.lookup r with
  | some o => .ret o h
  | none => .abort

/-- Allocate a new cell and return its address. -/
def allocCell (o : Obj) : JS Ref := fun h => .ret (h.alloc o).1 (h.alloc o).2

/-- Overwrite a cell. -/
def putCell (r : Ref) (o : Obj) : JS Unit := fun h => .ret () (h.update r o)

/-- Bodies of user functions: `call f thisArg args` and
`construct f args newTarget`. A constructor returns an object. -/
structure FunTable where
  call : FuncId → Val → List Val → JS Val
  construct : FuncId → List Val → Ref → JS Ref

/-! ## Abstract operations of the language -/

/-- `ToBoolean`. -/
def toBoolean : Val → Bool
  | .undefined => false
  | .null => false
  | .bool b => b
  | .num n => n != 0
  | .str s => s != ""
  | .sym _ => true
  | .obj _ => true

/-- `IsCallable` of a cell. -/
def Obj.isCallable : Obj → Bool
  | .ordinary o => o.call.isSome
  | .proxy _ _ c _ => c
  | .handler _ => false

/-- `IsConstructor` of a cell. -/
def Obj.isConstructor : Obj → Bool
  | .ordinary o => o.ctor
  | .proxy _ _ _ c => c
  | .handler _ => false

/-- `IsCallable` of a value. -/
def isCallable (v : Val) : JS Bool := fun h =>
  match v with
  | .obj r =>
    match h.lookup r with
    | some o => .ret o.isCallable h
    | none => .abort
  | _ => .ret false h

/-- `IsConstructor` of an address. -/
def isConstructor (r : Ref) : JS Bool := fun h =>
  match h.lookup r with
  | some o => .ret o.isConstructor h
  | none => .abort

/-! ## Ordinary objects: own properties -/

namespace Slot

def enumerable : Slot → Bool
  | .data _ _ e _ => e
  | .accessor _ _ e _ => e

def configurable : Slot → Bool
  | .data _ _ _ c => c
  | .accessor _ _ _ c => c

def isAccessor : Slot → Bool
  | .data _ _ _ _ => false
  | .accessor _ _ _ _ => true

end Slot

namespace Desc

/-- `IsAccessorDescriptor`. -/
def isAccessor (d : Desc) : Bool := d.get.isSome || d.set.isSome

/-- `IsDataDescriptor`. -/
def isData (d : Desc) : Bool := d.value.isSome || d.writable.isSome

/-- A descriptor without any field. -/
def isEmpty (d : Desc) : Bool :=
  !d.isAccessor && !d.isData && d.enumerable.isNone && d.configurable.isNone

end Desc

/-- Steps 3.a to 3.e of `ValidateAndApplyPropertyDescriptor`: the changes a
non-configurable current property refuses. -/
def refusedByNonConfigurable (d : Desc) : Slot → Bool
  | .data v w e _ =>
    d.configurable == some true
    || (d.enumerable.isSome && d.enumerable != some e)
    || d.isAccessor
    || (!w && (d.writable == some true || (d.value.isSome && d.value != some v)))
  | .accessor g s e _ =>
    d.configurable == some true
    || (d.enumerable.isSome && d.enumerable != some e)
    || (d.isData && !d.isAccessor)
    || (d.get.isSome && d.get != some g)
    || (d.set.isSome && d.set != some s)

/-- Step 4 of `ValidateAndApplyPropertyDescriptor`: the property after the
descriptor is applied to an existing one. -/
def applyDesc (d : Desc) : Slot → Slot
  | .data v w e c =>
    if d.isAccessor then
      .accessor (d.get.getD .undefined) (d.set.getD .undefined)
        (d.enumerable.getD e) (d.configurable.getD c)
    else
      .data (d.value.getD v) (d.writable.getD w) (d.enumerable.getD e) (d.configurable.getD c)
  | .accessor g s e c =>
    if d.isData then
      .data (d.value.getD .undefined) (d.writable.getD false)
        (d.enumerable.getD e) (d.configurable.getD c)
    else
      .accessor (d.get.getD g) (d.set.getD s) (d.enumerable.getD e) (d.configurable.getD c)

/-- `ValidateAndApplyPropertyDescriptor(O, P, extensible, Desc, current)`:
`none` when the definition is refused, otherwise the property to store. -/
def validateAndApply (extensible : Bool) (d : Desc) : Option Slot → Option Slot
  | none =>
    if !extensible then none
    else if d.isAccessor then
      some (.accessor (d.get.getD .undefined) (d.set.getD .undefined)
        (d.enumerable.getD false) (d.configurable.getD false))
    else
      some (.data (d.value.getD .undefined) (d.writable.getD false)
        (d.enumerable.getD false) (d.configurable.getD false))
  | some cur =>
    if d.isEmpty then some cur
    else if !cur.configurable && refusedByNonConfigurable d cur then none
    else some (applyDesc d cur)

/-- `IsCompatiblePropertyDescriptor(Extensible, Desc, Current)`. -/
def isCompatiblePropertyDescriptor (extensible : Bool) (d : Desc) (current : Option Slot) : Bool :=
  (validateAndApply extensible d current).isSome

/-- Replace the property stored under `k`, keeping its position, or append it. -/
def setProp : List (PropKey × Slot) → PropKey → Slot → List (PropKey × Slot)
  | [], k, s => [(k, s)]
  | (k1, s1) :: ps, k, s => if k1 = k then (k, s) :: ps else (k1, s1) :: setProp ps k s

/-- Remove the property stored under `k`. -/
def removeProp (ps : List (PropKey × Slot)) (k : PropKey) : List (PropKey × Slot) :=
  ps.filter (fun p => p.1 != k)

/-- Canonical array index of a string key, if it is one. -/
def arrayIndex (s : String) : Option Nat :=
  match s.toNat? with
  | some n => if toString n = s ∧ n < 4294967295 then some n else none
  | none => none

/-- `OrdinaryOwnPropertyKeys`: array indices ascending, then the other strings
in creation order, then symbols in creation order. -/
def ordinaryOwnPropertyKeys (ps : List (PropKey × Slot)) : List PropKey :=
  let idx := ps.filterMap (fun p =>
    match p.1 with
    | .str s => (arrayIndex s).map (fun n => (n, p.1))
    | .sym _ => none)
  let strs := ps.filterMap (fun p =>
    match p.1 with
    | .str s => if (arrayIndex s).isSome then none else some p.1
    | .sym _ => none)
  let syms := ps.filterMap (fun p =>
    match p.1 with
    | .str _ => none
    | .sym _ => some p.1)
  ((idx.insertionSort (fun a b => a.1 ≤ b.1)).map (fun p => p.2)) ++ strs ++ syms

namespace Ordinary

/-- Own property lookup of an ordinary object. -/
def getOwn (o : Ordinary) (k : PropKey) : Option Slot := o.props.lookup k

end Ordinary

/-- True when `O` occurs on the chain of ordinary objects starting at `p`
(the loop of `OrdinarySetPrototypeOf`); the walk stops at a proxy. -/
def protoChainHits (h : Heap) (O : Ref) : Nat → Option Ref → Option Bool
  | 0, _ => none
  | _ + 1, none => some false
  | n + 1, some p =>
    if p = O then some true
    else
      match h.lookup p with
      | some (.ordinary o) => protoChainHits h O n o.proto
      | some _ => some false
      | none => none

/-! ## Internal methods, one layer at a time -/

/-- The essential internal methods, as available to one layer for its nested
calls. -/
structure Methods where
  getPrototypeOf : Ref → JS (Option Ref)
  setPrototypeOf : Ref → Option Ref → JS Bool
  isExtensible : Ref → JS Bool
  preventExtensions : Ref → JS Bool
  getOwnProperty : Ref → PropKey → JS (Option Slot)
  defineOwnProperty : Ref → PropKey → Desc → JS Bool
  hasProperty : Ref → PropKey → JS Bool
  get : Ref → PropKey → Val → JS Val
  set : Ref → PropKey → Val → Val → JS Bool
  delete : Ref → PropKey → JS Bool
  ownPropertyKeys : Ref → JS (List PropKey)
  call : Ref → Val → List Val → JS Val
  construct : Ref → List Val → Ref → JS Ref
  instanceofObject : Val → JS Bool

/-- The layer below the first: nothing completes. -/
def Methods.none : Methods where
  getPrototypeOf := fun _ => JS.abort
  setPrototypeOf := fun _ _ => JS.abort
  isExtensible := fun _ => JS.abort
  preventExtensions := fun _ => JS.abort
  getOwnProperty := fun _ _ => JS.abort
  defineOwnProperty := fun _ _ _ => JS.abort
  hasProperty := fun _ _ => JS.abort
  get := fun _ _ _ => JS.abort
  set := fun _ _ _ _ => JS.abort
  delete := fun _ _ => JS.abort
  ownPropertyKeys := fun _ => JS.abort
  call := fun _ _ _ => JS.abort
  construct := fun _ _ _ => JS.abort
  instanceofObject := fun _ => JS.abort

/-! ### Ordinary objects -/

/-- `OrdinaryGetPrototypeOf`. -/
def ordinaryGetPrototypeOf (o : Ordinary) : JS (Option Ref) := pure o.proto

/-- `OrdinarySetPrototypeOf`. -/
def ordinarySetPrototypeOf (r : Ref) (o : Ordinary) (v : Option Ref) : JS Bool := fun h =>
  if v = o.proto then .ret true h
  else if !o.extensible then .ret false h
  else
    match protoChainHits h r (h.objs.length + 1) v with
    | some true => .ret false h
    | some false => .ret true (h.update r (.ordinary { o with proto := v }))
    | none => .abort

/-- `OrdinaryIsExtensible`. -/
def ordinaryIsExtensible (o : Ordinary) : JS Bool := pure o.extensible

/-- `OrdinaryPreventExtensions`. -/
def ordinaryPreventExtensions (r : Ref) (o : Ordinary) : JS Bool := do
  putCell r (.ordinary { o with extensible := false })
  pure true

/-- `OrdinaryGetOwnProperty`. -/
def ordinaryGetOwnProperty (o : Ordinary) (k : PropKey) : JS (Option Slot) := pure (o.getOwn k)

/-- `OrdinaryDefineOwnProperty`. -/
def ordinaryDefineOwnProperty (r : Ref) (o : Ordinary) (k : PropKey) (d : Desc) : JS Bool :=
  match validateAndApply o.extensible d (o.getOwn k) with
  | some s => do
    putCell r (.ordinary { o with props := setProp o.props k s })
    pure true
  | none => pure false

/-- `OrdinaryHasProperty`. -/
def ordinaryHasProperty (m : Methods) (o : Ordinary) (k : PropKey) : JS Bool :=
  match o.getOwn k with
  | some _ => pure true
  | none =>
    match o.proto with
    | some parent => m.hasProperty parent k
    | none => pure false

/-- `OrdinaryGet`. -/
def ordinaryGet (m : Methods) (o : Ordinary) (k : PropKey) (receiver : Val) : JS Val :=
  match o.getOwn k with
  | none =>
    match o.proto with
    | some parent => m.get parent k receiver
    | none => pure .undefined
  | some (.data v _ _ _) => pure v
  | some (.accessor getter _ _ _) =>
    match getter with
    | .obj g => m.call g receiver []
    | _ => pure .undefined

/-- Second half of `OrdinarySetWithOwnDescriptor`: the own (or defaulted)
descriptor is a writable data descriptor, the value lands on the receiver. -/
def setOnReceiver (m : Methods) (k : PropKey) (v : Val) (receiver : Val) : JS Bool :=
  match receiver with
  | .obj rc => do
    let existing ← m.getOwnProperty rc k
    match existing with
    | some (.accessor _ _ _ _) => pure false
    | some (.data _ w _ _) =>
      if w then m.defineOwnProperty rc k { value := some v } else pure false
    | none =>
      m.defineOwnProperty rc k
        { value := some v, writable := some true, enumerable := some true,
          configurable := some true }
  | _ => pure false

/-- `OrdinarySet`. -/
def ordinarySet (m : Methods) (o : Ordinary) (k : PropKey) (v : Val) (receiver : Val) : JS Bool :=
  match o.getOwn k with
  | none =>
    match o.proto with
    | some parent => m.set parent k v receiver
    | none => setOnReceiver m k v receiver
  | some (.data _ w _ _) => if w then setOnReceiver m k v receiver else pure false
  | some (.accessor _ setter _ _) =>
    match setter with
    | .obj st => do
      let _ ← m.call st receiver [v]
      pure true
    | _ => pure false

/-- `OrdinaryDelete`. -/
def ordinaryDelete (r : Ref) (o : Ordinary) (k : PropKey) : JS Bool :=
  match o.getOwn k with
  | none => pure true
  | some s =>
    if s.configurable then do
      putCell r (.ordinary { o with props := removeProp o.props k })
      pure true
    else pure false

/-- `[[Call]]` of an ordinary object. -/
def ordinaryCall (Φ : FunTable) (o : Ordinary) (thisArg : Val) (args : List Val) : JS Val :=
  match o.call with
  | some f => Φ.call f thisArg args
  | none => JS.throwTypeError

/-- `[[Construct]]` of an ordinary object. -/
def ordinaryConstruct (Φ : FunTable) (o : Ordinary) (args : List Val) (newTarget : Ref) :
    JS Ref :=
  match o.call, o.ctor with
  | some f, true => Φ.construct f args newTarget
  | _, _ => JS.throwTypeError

/-! ### The `Reflect` functions the traps use -/

namespace Reflect

/-- `Reflect.apply(target, thisArgument, argumentsList)`. -/
def apply (m : Methods) (target : Ref) (thisArg : Val) (argArray : List Val) : JS Val := do
  let c ← isCallable (.obj target)
  if c then m.call target thisArg argArray else JS.throwTypeError

/-- `Reflect.construct(target, argumentsList, newTarget)`. -/
def construct (m : Methods) (target : Ref) (argArray : List Val) (newTarget : Ref) : JS Ref := do
  let c ← isConstructor target
  if c then do
    let c2 ← isConstructor newTarget
    if c2 then m.construct target argArray newTarget else JS.throwTypeError
  else JS.throwTypeError

/-- `Reflect.set(target, propertyKey, V, receiver)`. -/
def set (m : Methods) (target : Ref) (propKey : PropKey) (value receiver : Val) : JS Bool :=
  m.set target propKey value receiver

/-- `Reflect.has(target, propertyKey)`. -/
def has (m : Methods) (target : Ref) (propKey : PropKey) : JS Bool :=
  m.hasProperty target propKey

/-- `Reflect.deleteProperty(target, propertyKey)`. -/
def deleteProperty (m : Methods) (target : Ref) (propKey : PropKey) : JS Bool :=
  m.delete target propKey

/-- `Reflect.defineProperty(target, propertyKey, attributes)`; `ToPropertyDescriptor`
refuses attributes that mix accessor and data fields. -/
def defineProperty (m : Methods) (target : Ref) (propKey : PropKey) (attributes : Desc) :
    JS Bool :=
  if attributes.isAccessor && attributes.isData then JS.throwTypeError
  else m.defineOwnProperty target propKey attributes

/-- `Reflect.getPrototypeOf(target)`. -/
def getPrototypeOf (m : Methods) (target : Ref) : JS (Option Ref) :=
  m.getPrototypeOf target

/-- `Reflect.setPrototypeOf(target, proto)`. -/
def setPrototypeOf (m : Methods) (target : Ref) (proto : Option Ref) : JS Bool :=
  m.setPrototypeOf target proto

/-- `Reflect.preventExtensions(target)`. -/
def preventExtensions (m : Methods) (target : Ref) : JS Bool :=
  m.preventExtensions target

/-- `Reflect.isExtensible(target)`. -/
def isExtensible (m : Methods) (target : Ref) : JS Bool :=
  m.isExtensible target

end Reflect

/-! ### `main.js`: handler factories, traps, `proxy` -/

/-- `getMethodHandler(WatchName, target_obj)`: builds the record `methodhandler`
and stores `target_obj` in it. -/
def getMethodHandler (WatchName : String) (target_obj : Val) : JS Ref :=
  allocCell (.handler (.method WatchName target_obj))

/-- `getObjhandler(WatchName)`: builds the record `handler`. -/
def getObjhandler (WatchName : String) : JS Ref :=
  allocCell (.handler (.object WatchName))

/-- `new Proxy(target, handler)` (`ProxyCreate`): the target must be an object. -/
def newProxy (target : Val) (handler : Ref) : JS Ref :=
  match target with
  | .obj t => do
    let c ← getCell t
    allocCell (.proxy t handler c.isCallable c.isConstructor)
  | _ => JS.throwTypeError

/-- `typeof result === "function"`. -/
def typeofFunction (result : Val) : JS Bool := isCallable result

/-- The template literal `${WatchName}.${propKey}`: `ToString` of a symbol
throws a `TypeError`. -/
def childName (WatchName : String) (propKey : PropKey) : JS String :=
  match propKey with
  | .str s => pure (WatchName ++ "." ++ s)
  | .sym _ => JS.throwTypeError

/-- `result instanceof Object`, one step of `OrdinaryHasInstance` per layer. -/
def instanceofObjectStep (m : Methods) (v : Val) : JS Bool :=
  match v with
  | .obj r => do
    let p ← m.getPrototypeOf r
    match p with
    | none => pure false
    | some q => fun h =>
      if q = h.objectPrototype then .ret true h else m.instanceofObject (.obj q) h
  | _ => pure false

namespace methodhandler

/-- Trap `apply(target, thisArg, argArray)` of `methodhandler`; `this.target_obj`
is the field of the handler record the trap is called on. -/
def apply (m : Methods) (target_obj : Val) (target : Ref) (thisArg : Val)
    (argArray : List Val) : JS Val :=
  Reflect.apply m target (if toBoolean target_obj then target_obj else thisArg) argArray

/-- Trap `construct(target, argArray, newTarget)` of `methodhandler`. -/
def construct (m : Methods) (target : Ref) (argArray : List Val) (newTarget : Ref) : JS Ref :=
  Reflect.construct m target argArray newTarget

end methodhandler

namespace handler

/-- Trap `get(target, propKey, receiver)` of `handler`. -/
def get (m : Methods) (WatchName : String) (target : Ref) (propKey : PropKey)
    (_receiver : Val) : JS Val := do
  let result ← m.get target propKey (.obj target)
  let isObject ← m.instanceofObject result
  if isObject then do
    let isFunction ← typeofFunction result
    if isFunction then do
      let hd ← getMethodHandler WatchName (.obj target)
      let p ← newProxy result hd
      pure (.obj p)
    else do
      let name ← childName WatchName propKey
      let hd ← getObjhandler name
      let p ← newProxy result hd
      pure (.obj p)
  else pure result

/-- Trap `set(target, propKey, value, receiver)`. -/
def set (m : Methods) (target : Ref) (propKey : PropKey) (value receiver : Val) : JS Bool :=
  Reflect.set m target propKey value receiver

/-- Trap `has(target, propKey)`. -/
def has (m : Methods) (target : Ref) (propKey : PropKey) : JS Bool :=
  Reflect.has m target propKey

/-- Trap `deleteProperty(target, propKey)`. -/
def deleteProperty (m : Methods) (target : Ref) (propKey : PropKey) : JS Bool :=
  Reflect.deleteProperty m target propKey

/-- Trap `defineProperty(target, propKey, attributes)`. -/
def defineProperty (m : Methods) (target : Ref) (propKey : PropKey) (attributes : Desc) :
    JS Bool :=
  Reflect.defineProperty m target propKey attributes

/-- Trap `getPrototypeOf(target)`. -/
def getPrototypeOf (m : Methods) (target : Ref) : JS (Option Ref) :=
  Reflect.getPrototypeOf m target

/-- Trap `setPrototypeOf(target, proto)`. -/
def setPrototypeOf (m : Methods) (target : Ref) (proto : Option Ref) : JS Bool :=
  Reflect.setPrototypeOf m target proto

/-- Trap `preventExtensions(target)`. -/
def preventExtensions (m : Methods) (target : Ref) : JS Bool :=
  Reflect.preventExtensions m target

/-- Trap `isExtensible(target)`. -/
def isExtensible (m : Methods) (target : Ref) : JS Bool :=
  Reflect.isExtensible m target

end handler

/-- `proxy(obj, objname, type)`. -/
def proxy (obj : Val) (objname : String) (type : Val) : JS Ref :=
  if type = .str "method" then do
    let hd ← getMethodHandler objname obj
    newProxy obj hd
  else do
    let hd ← getObjhandler objname
    newProxy obj hd

/-! ### Proxy exotic objects: trap lookup and invariant checks

A `methodhandler` record has the traps `apply` and `construct` only, a
`handler` record has the nine object traps only; an operation whose trap is
missing is forwarded to the target's internal method. -/

/-- Proxy `[[GetPrototypeOf]]`. -/
def proxyGetPrototypeOf (m : Methods) (hd : Handler) (target : Ref) : JS (Option Ref) :=
  match hd with
  | .method _ _ => m.getPrototypeOf target
  | .object _ => do
    let handlerProto ← handler.getPrototypeOf m target
    let extensibleTarget ← m.isExtensible target
    if extensibleTarget then pure handlerProto
    else do
      let targetProto ← m.getPrototypeOf target
      if handlerProto = targetProto then pure handlerProto else JS.throwTypeError

/-- Proxy `[[SetPrototypeOf]]`. -/
def proxySetPrototypeOf (m : Methods) (hd : Handler) (target : Ref) (v : Option Ref) : JS Bool :=
  match hd with
  | .method _ _ => m.setPrototypeOf target v
  | .object _ => do
    let booleanTrapResult ← handler.setPrototypeOf m target v
    if booleanTrapResult then do
      let extensibleTarget ← m.isExtensible target
      if extensibleTarget then pure true
      else do
        let targetProto ← m.getPrototypeOf target
        if v = targetProto then pure true else JS.throwTypeError
    else pure false

/-- Proxy `[[IsExtensible]]`. -/
def proxyIsExtensible (m : Methods) (hd : Handler) (target : Ref) : JS Bool :=
  match hd with
  | .method _ _ => m.isExtensible target
  | .object _ => do
    let booleanTrapResult ← handler.isExtensible m target
    let targetResult ← m.isExtensible target
    if booleanTrapResult = targetResult then pure booleanTrapResult else JS.throwTypeError

/-- Proxy `[[PreventExtensions]]`. -/
def proxyPreventExtensions (m : Methods) (hd : Handler) (target : Ref) : JS Bool :=
  match hd with
  | .method _ _ => m.preventExtensions target
  | .object _ => do
    let booleanTrapResult ← handler.preventExtensions m target
    if booleanTrapResult then do
      let extensibleTarget ← m.isExtensible target
      if extensibleTarget then JS.throwTypeError else pure true
    else pure false

/-- Proxy `[[GetOwnProperty]]`: neither record has a `getOwnPropertyDescriptor`
trap. -/
def proxyGetOwnProperty (m : Methods) (_hd : Handler) (target : Ref) (k : PropKey) :
    JS (Option Slot) :=
  m.getOwnProperty target k

/-- The checks of Proxy `[[DefineOwnProperty]]` after the trap reported success. -/
def defineInvariant (d : Desc) (targetDesc : Option Slot) (extensibleTarget : Bool) : JS Bool :=
  match targetDesc with
  | none =>
    if !extensibleTarget then JS.throwTypeError
    else if d.configurable == some false then JS.throwTypeError
    else pure true
  | some cur =>
    if !isCompatiblePropertyDescriptor extensibleTarget d (some cur) then JS.throwTypeError
    else if d.configurable == some false && cur.configurable then JS.throwTypeError
    else
      match cur with
      | .data _ w _ c =>
        if !c && w && d.writable == some false then JS.throwTypeError else pure true
      | .accessor _ _ _ _ => pure true

/-- Proxy `[[DefineOwnProperty]]`. -/
def proxyDefineOwnProperty (m : Methods) (hd : Handler) (target : Ref) (k : PropKey)
    (d : Desc) : JS Bool :=
  match hd with
  | .method _ _ => m.defineOwnProperty target k d
  | .object _ => do
    let booleanTrapResult ← handler.defineProperty m target k d
    if booleanTrapResult then do
      let targetDesc ← m.getOwnProperty target k
      let extensibleTarget ← m.isExtensible target
      defineInvariant d targetDesc extensibleTarget
    else pure false

/-- Proxy `[[HasProperty]]`. -/
def proxyHasProperty (m : Methods) (hd : Handler) (target : Ref) (k : PropKey) : JS Bool :=
  match hd with
  | .method _ _ => m.hasProperty target k
  | .object _ => do
    let booleanTrapResult ← handler.has m target k
    if booleanTrapResult then pure true
    else do
      let targetDesc ← m.getOwnProperty target k
      match targetDesc with
      | none => pure false
      | some cur =>
        if !cur.configurable then JS.throwTypeError
        else do
          let extensibleTarget ← m.isExtensible target
          if extensibleTarget then pure false else JS.throwTypeError

/-- The check of Proxy `[[Get]]` on the value the trap returned. -/
def getInvariant (trapResult : Val) : Option Slot → JS Val
  | some (.data v w _ c) =>
    if !c && !w && trapResult != v then JS.throwTypeError else pure trapResult
  | some (.accessor g _ _ c) =>
    if !c && g == .undefined && trapResult != .undefined then JS.throwTypeError
    else pure trapResult
  | none => pure trapResult

/-- Proxy `[[Get]]`. -/
def proxyGet (m : Methods) (hd : Handler) (target : Ref) (k : PropKey) (receiver : Val) :
    JS Val :=
  match hd with
  | .method _ _ => m.get target k receiver
  | .object WatchName => do
    let trapResult ← handler.get m WatchName target k receiver
    let targetDesc ← m.getOwnProperty target k
    getInvariant trapResult targetDesc

/-- The check of Proxy `[[Set]]` after the trap reported success. -/
def setInvariant (v : Val) : Option Slot → JS Bool
  | some (.data cur w _ c) => if !c && !w && v != cur then JS.throwTypeError else pure true
  | some (.accessor _ st _ c) => if !c && st == .undefined then JS.throwTypeError else pure true
  | none => pure true

/-- Proxy `[[Set]]`. -/
def proxySet (m : Methods) (hd : Handler) (target : Ref) (k : PropKey) (v receiver : Val) :
    JS Bool :=
  match hd with
  | .method _ _ => m.set target k v receiver
  | .object _ => do
    let booleanTrapResult ← handler.set m target k v receiver
    if booleanTrapResult then do
      let targetDesc ← m.getOwnProperty target k
      setInvariant v targetDesc
    else pure false

/-- Proxy `[[Delete]]`. -/
def proxyDelete (m : Methods) (hd : Handler) (target : Ref) (k : PropKey) : JS Bool :=
  match hd with
  | .method _ _ => m.delete target k
  | .object _ => do
    let booleanTrapResult ← handler.deleteProperty m target k
    if booleanTrapResult then do
      let targetDesc ← m.getOwnProperty target k
      match targetDesc with
      | none => pure true
      | some cur =>
        if !cur.configurable then JS.throwTypeError
        else do
          let extensibleTarget ← m.isExtensible target
          if extensibleTarget then pure true else JS.throwTypeError
    else pure false

/-- Proxy `[[OwnPropertyKeys]]`: neither record has an `ownKeys` trap. -/
def proxyOwnPropertyKeys (m : Methods) (_hd : Handler) (target : Ref) : JS (List PropKey) :=
  m.ownPropertyKeys target

/-- Proxy `[[Call]]`. -/
def proxyCall (m : Methods) (hd : Handler) (target : Ref) (thisArg : Val) (args : List Val) :
    JS Val :=
  match hd with
  | .method _ target_obj => methodhandler.apply m target_obj target thisArg args
  | .object _ => m.call target thisArg args

/-- Proxy `[[Construct]]`. -/
def proxyConstruct (m : Methods) (hd : Handler) (target : Ref) (args : List Val)
    (newTarget : Ref) : JS Ref :=
  match hd with
  | .method _ _ => methodhandler.construct m target args newTarget
  | .object _ => m.construct target args newTarget

/-! ### One layer, and the layers stacked -/

/-- Run the internal method of the cell at `r`: the ordinary one, or the
proxy one with the proxy's handler record and target. -/
def dispatch {α : Type} (r : Ref) (ord : Ordinary → JS α)
    (prx : Handler → Ref → Bool → Bool → JS α) : JS α := fun h =>
  match h.lookup r with
  | some (.ordinary o) => ord o h
  | some (.proxy t hd c k) =>
    match h.lookup hd with
    | some (.handler x) => prx x t c k h
    | _ => .abort
  | _ => .abort

/-- One layer of internal methods over the layer `m`. -/
def Methods.next (Φ : FunTable) (m : Methods) : Methods where
  getPrototypeOf := fun r =>
    dispatch r ordinaryGetPrototypeOf (fun x t _ _ => proxyGetPrototypeOf m x t)
  setPrototypeOf := fun r v =>
    dispatch r (fun o => ordinarySetPrototypeOf r o v) (fun x t _ _ => proxySetPrototypeOf m x t v)
  isExtensible := fun r =>
    dispatch r ordinaryIsExtensible (fun x t _ _ => proxyIsExtensible m x t)
  preventExtensions := fun r =>
    dispatch r (ordinaryPreventExtensions r) (fun x t _ _ => proxyPreventExtensions m x t)
  getOwnProperty := fun r k =>
    dispatch r (fun o => ordinaryGetOwnProperty o k) (fun x t _ _ => proxyGetOwnProperty m x t k)
  defineOwnProperty := fun r k d =>
    dispatch r (fun o => ordinaryDefineOwnProperty r o k d)
      (fun x t _ _ => proxyDefineOwnProperty m x t k d)
  hasProperty := fun r k =>
    dispatch r (fun o => ordinaryHasProperty m o k) (fun x t _ _ => proxyHasProperty m x t k)
  get := fun r k receiver =>
    dispatch r (fun o => ordinaryGet m o k receiver) (fun x t _ _ => proxyGet m x t k receiver)
  set := fun r k v receiver =>
    dispatch r (fun o => ordinarySet m o k v receiver)
      (fun x t _ _ => proxySet m x t k v receiver)
  delete := fun r k =>
    dispatch r (fun o => ordinaryDelete r o k) (fun x t _ _ => proxyDelete m x t k)
  ownPropertyKeys := fun r =>
    dispatch r (fun o => pure (ordinaryOwnPropertyKeys o.props))
      (fun x t _ _ => proxyOwnPropertyKeys m x t)
  call := fun r thisArg args =>
    dispatch r (fun o => ordinaryCall Φ o thisArg args)
      (fun x t c _ => if c then proxyCall m x t thisArg args else JS.throwTypeError)
  construct := fun r args newTarget =>
    dispatch r (fun o => ordinaryConstruct Φ o args newTarget)
      (fun x t _ c => if c then proxyConstruct m x t args newTarget else JS.throwTypeError)
  instanceofObject := instanceofObjectStep m

/-- The internal methods with nesting budget `n`. -/
def methods (Φ : FunTable) : Nat → Methods
  | 0 => Methods.none
  | n + 1 => Methods.next Φ (methods Φ n)

/-! ## Notions used in the statements -/

/-- The heap after one allocation. -/
def Heap.push (h : Heap) (o : Obj) : Heap := { h with objs := h.objs ++ [o] }

/-- A completion without its heap. -/
inductive Completion (α : Type) where
  | value (a : α)
  | error (e : Err)
  | none
  deriving DecidableEq, Repr

/-- Forget the heap of an outcome. -/
def Outcome.completion {α : Type} : Outcome α → Completion α
  | .ret a _ => .value a
  | .throw e _ => .error e
  | .abort => .none

/-- The cell at `r` after an operation completed. -/
def Outcome.cellAfter {α : Type} (x : Outcome α) (r : Ref) : Option Obj :=
  match x with
  | .ret _ h => h.lookup r
  | .throw _ h => h.lookup r
  | .abort => none

/-- A read-only, non-configurable own data property: the one kind of property
whose stored value Proxy `[[Get]]` insists on getting back from the trap. -/
def Slot.frozenData : Slot → Bool
  | .data _ w _ c => !w && !c
  | .accessor _ _ _ _ => false

/-- The own property `k` of `o` is a read-only, non-configurable data property. -/
def Ordinary.hasFrozenData (o : Ordinary) (k : PropKey) : Bool :=
  match o.getOwn k with
  | some s => s.frozenData
  | none => false

/-- The own property `k` of `o` pins a value other than `v`: a read-only
non-configurable data property holding another value, or a non-configurable
accessor without getter while `v` is not `undefined`. These are the two cases
in which Proxy `[[Get]]` rejects `v` as the result of the trap. -/
def Ordinary.pinsOtherThan (o : Ordinary) (k : PropKey) (v : Val) : Bool :=
  match o.getOwn k with
  | some (.data w wr _ c) => !c && !wr && v != w
  | some (.accessor g _ _ c) => !c && g == .undefined && v != .undefined
  | none => false

/-- The expression `P[k].call(R, ...args)`: read the property through `P`, then
call what was read with receiver `R`. -/
def readThenCall (m : Methods) (P : Ref) (k : PropKey) (R : Val) (args : List Val) : JS Val := do
  let q ← m.get P k (.obj P)
  match q with
  | .obj Q => m.call Q R args
  | _ => JS.throwTypeError

/-- The assignment `O[k] = v`: `O.[[Set]](k, v, O)`. -/
def assign (m : Methods) (O : Ref) (k : PropKey) (v : Val) : JS Bool :=
  m.set O k v (.obj O)

/-- `Object.defineProperty(O, k, attributes)` up to its return value:
`ToPropertyDescriptor`, then `DefinePropertyOrThrow`. -/
def objectDefineProperty (m : Methods) (O : Ref) (k : PropKey) (attributes : Desc) : JS Unit :=
  if attributes.isAccessor && attributes.isData then JS.throwTypeError
  else do
    let ok ← m.defineOwnProperty O k attributes
    if ok then pure () else JS.throwTypeError

/-- A computation that completes with the heap it started from. -/
def JS.KeepsHeap {α : Type} (x : JS α) : Prop :=
  ∀ h : Heap, (∀ a h1, x h = .ret a h1 → h1 = h) ∧ (∀ e h1, x h = .throw e h1 → h1 = h)

/-- The querying internal methods of a layer complete with the heap they
started from. -/
structure Methods.QueriesKeepHeap (m : Methods) : Prop where
  getPrototypeOf : ∀ r, (m.getPrototypeOf r).KeepsHeap
  isExtensible : ∀ r, (m.isExtensible r).KeepsHeap
  getOwnProperty : ∀ r k, (m.getOwnProperty r k).KeepsHeap
  hasProperty : ∀ r k, (m.hasProperty r k).KeepsHeap
  ownPropertyKeys : ∀ r, (m.ownPropertyKeys r).KeepsHeap
  instanceofObject : ∀ v, (m.instanceofObject v).KeepsHeap

/-- The heap `h1` has every cell of `h` unchanged (and maybe more cells). -/
def Heap.Extends (h h1 : Heap) : Prop :=
  h1.objectPrototype = h.objectPrototype ∧ ∀ r x, h.lookup r = some x → h1.lookup r = some x

/-- A computation whose normal result does not depend on cells added to the
heap. -/
def JS.Stable {α : Type} (x : JS α) : Prop :=
  ∀ (h h1 : Heap) (a : α), h.Extends h1 → x h = .ret a h → x h1 = .ret a h1

/-- The querying internal methods whose results do not depend on cells added
to the heap. -/
structure Methods.QueriesStable (m : Methods) : Prop where
  getPrototypeOf : ∀ r, (m.getPrototypeOf r).Stable
  isExtensible : ∀ r, (m.isExtensible r).Stable
  getOwnProperty : ∀ r k, (m.getOwnProperty r k).Stable
  instanceofObject : ∀ v, (m.instanceofObject v).Stable

/-- Read transparency of the proxy `P` with respect to its target `O` in the
heap `h`: primitive property values, own keys, prototype, `in` and
extensibility are the same through `P` as on `O`. -/
def ReadTransparent (Φ : FunTable) (n : Nat) (h : Heap) (P O : Ref) : Prop :=
  (∀ (k : PropKey) (v : Val), (∀ r, v ≠ .obj r) →
    (methods Φ (n + 1)).get O k (.obj O) h = .ret v h →
    (methods Φ (n + 2)).get P k (.obj P) h = .ret v h) ∧
  (methods Φ (n + 2)).ownPropertyKeys P h = (methods Φ (n + 1)).ownPropertyKeys O h ∧
  (methods Φ (n + 2)).getPrototypeOf P h = (methods Φ (n + 1)).getPrototypeOf O h ∧
  (∀ k : PropKey,
    (methods Φ (n + 2)).hasProperty P k h = (methods Φ (n + 1)).hasProperty O k h) ∧
  (methods Φ (n + 2)).isExtensible P h = (methods Φ (n + 1)).isExtensible O h

/-- Every field present in the descriptor `d` is the corresponding attribute of
the property `s`, and `d` has no field of the other kind. -/
def Desc.agrees (d : Desc) : Slot → Prop
  | .data v w e c =>
    d.get = none ∧ d.set = none ∧ (∀ x, d.value = some x → x = v) ∧
      (∀ x, d.writable = some x → x = w) ∧ (∀ x, d.enumerable = some x → x = e) ∧
      (∀ x, d.configurable = some x → x = c)
  | .accessor g s e c =>
    d.value = none ∧ d.writable = none ∧ (∀ x, d.get = some x → x = g) ∧
      (∀ x, d.set = some x → x = s) ∧ (∀ x, d.enumerable = some x → x = e) ∧
      (∀ x, d.configurable = some x → x = c)

/-- Where an assignment to `k` ends on the chain of ordinary objects that starts
at `o`: `some true` on a writable data property or past the end of the chain
(the value then lands on the receiver), `some false` on a read-only data
property; `none` when the chain meets an accessor property or a proxy, or is
longer than the given bound. -/
def dataChain (h : Heap) (k : PropKey) : Nat → Ordinary → Option Bool
  | 0, o =>
    match o.getOwn k with
    | some (.data _ w _ _) => some w
    | some (.accessor _ _ _ _) => none
    | none =>
      match o.proto with
      | none => some true
      | some _ => none
  | d + 1, o =>
    match o.getOwn k with
    | some (.data _ w _ _) => some w
    | some (.accessor _ _ _ _) => none
    | none =>
      match o.proto with
      | none => some true
      | some parent =>
        match h.lookup parent with
        | some (.ordinary po) => dataChain h k d po
        | _ => none

/-- The second half of `OrdinarySet` when the receiver is the ordinary object
`o` at `O`. -/
def landOnOrdinary (O : Ref) (o : Ordinary) (k : PropKey) (v : Val) : JS Bool :=
  match o.getOwn k with
  | some (.accessor _ _ _ _) => pure false
  | some (.data _ w _ _) =>
    if w then ordinaryDefineOwnProperty O o k { value := some v } else pure false
  | none =>
    ordinaryDefineOwnProperty O o k
      { value := some v, writable := some true, enumerable := some true,
        configurable := some true }

/-- Every cell of `h` is unchanged in the heap the outcome ends in; nothing is
said of an operation without completion. -/
def Outcome.Preserves {α : Type} (x : Outcome α) (h : Heap) : Prop :=
  match x with
  | .ret _ h1 => h.Extends h1
  | .throw _ h1 => h.Extends h1
  | .abort => True

/-- The object at `r` and the objects on its prototype chain (at most `d` links
long) are ordinary objects all of whose own properties are data properties. -/
def dataOnlyChain (h : Heap) : Nat → Ref → Bool
  | 0, r =>
    match h.lookup r with
    | some (.ordinary o) => o.props.all (fun p => !p.2.isAccessor) && o.proto.isNone
    | _ => false
  | d + 1, r =>
    match h.lookup r with
    | some (.ordinary o) =>
      o.props.all (fun p => !p.2.isAccessor) &&
        (match o.proto with
         | none => true
         | some parent => dataOnlyChain h d parent)
    | _ => false

/-! ## Forgetting labels -/

/-- A handler record with its `WatchName` blanked. -/
def Handler.eraseLabel : Handler → Handler
  | .method _ target_obj => .method "" target_obj
  | .object _ => .object ""

/-- A cell with the `WatchName` of a handler record blanked. -/
def Obj.eraseLabel : Obj → Obj
  | .handler x => .handler x.eraseLabel
  | .ordinary o => .ordinary o
  | .proxy t hd c k => .proxy t hd c k

/-- The heap with every `WatchName` blanked: everything but the labels. -/
def Heap.eraseLabels (h : Heap) : Heap := { h with objs := h.objs.map Obj.eraseLabel }

/-- An outcome with the labels of its heap blanked. -/
def Outcome.eraseLabels {α : Type} : Outcome α → Outcome α
  | .ret a h => .ret a h.eraseLabels
  | .throw e h => .throw e h.eraseLabels
  | .abort => .abort

/-- The computations `x` and `y` do the same up to labels: from heaps that differ
in labels only they give the same completion and heaps that differ in labels
only. -/
def JS.LabelRel {α : Type} (x y : JS α) : Prop :=
  ∀ h1 h2 : Heap, h1.eraseLabels = h2.eraseLabels →
    (x h1).eraseLabels = (y h2).eraseLabels

/-- A computation that does not look at labels. -/
def JS.LabelBlind {α : Type} (x : JS α) : Prop := x.LabelRel x

/-- User code cannot reach a handler record, so its bodies do not look at
labels. -/
structure FunTable.LabelBlind (Φ : FunTable) : Prop where
  call : ∀ f thisArg args, (Φ.call f thisArg args).LabelBlind
  construct : ∀ f args newTarget, (Φ.construct f args newTarget).LabelBlind

/-- A layer of internal methods none of which looks at labels. -/
structure Methods.LabelBlind (m : Methods) : Prop where
  getPrototypeOf : ∀ r, (m.getPrototypeOf r).LabelBlind
  setPrototypeOf : ∀ r v, (m.setPrototypeOf r v).LabelBlind
  isExtensible : ∀ r, (m.isExtensible r).LabelBlind
  preventExtensions : ∀ r, (m.preventExtensions r).LabelBlind
  getOwnProperty : ∀ r k, (m.getOwnProperty r k).LabelBlind
  defineOwnProperty : ∀ r k d, (m.defineOwnProperty r k d).LabelBlind
  hasProperty : ∀ r k, (m.hasProperty r k).LabelBlind
  get : ∀ r k recv, (m.get r k recv).LabelBlind
  set : ∀ r k v recv, (m.set r k v recv).LabelBlind
  delete : ∀ r k, (m.delete r k).LabelBlind
  ownPropertyKeys : ∀ r, (m.ownPropertyKeys r).LabelBlind
  call : ∀ r thisArg args, (m.call r thisArg args).LabelBlind
  construct : ∀ r args newTarget, (m.construct r args newTarget).LabelBlind
  instanceofObject : ∀ v, (m.instanceofObject v).LabelBlind

/-! ## Handler records installed in proxies -/

/-- A handler record whose `target_obj`, when it has the field, is an object. -/
def Handler.bound : Handler → Bool
  | .method _ (.obj _) => true
  | .method _ _ => false
  | .object _ => true

/-- Every Proxy of the heap has a handler record, and the `target_obj` of every
`methodhandler` record installed in a Proxy is an object. -/
def Heap.Bound (h : Heap) : Prop :=
  ∀ P t hd c k, h.lookup P = some (.proxy t hd c k) →
    ∃ x, h.lookup hd = some (.handler x) ∧ x.bound = true

/-- The same, as a check that can be evaluated. -/
def Heap.boundCheck (h : Heap) : Bool :=
  h.objs.all fun cell =>
    match cell with
    | .proxy _ hd _ _ =>
      match h.lookup hd with
      | some (.handler x) => x.bound
      | _ => false
    | _ => true

/-- The heap an outcome ends in satisfies `Heap.Bound`. -/
def Outcome.Bound {α : Type} (x : Outcome α) : Prop :=
  match x with
  | .ret _ h => h.Bound
  | .throw _ h => h.Bound
  | .abort => True

/-- A computation that keeps `Heap.Bound`. -/
def JS.KeepsBound {α : Type} (x : JS α) : Prop := ∀ h : Heap, h.Bound → (x h).Bound

/-- User code creates proxies through `proxy` only (it cannot build a Proxy
cell over a handler record of its own in this heap), so its bodies keep
`Heap.Bound`. -/
structure FunTable.KeepsBound (Φ : FunTable) : Prop where
  call : ∀ f thisArg args, (Φ.call f thisArg args).KeepsBound
  construct : ∀ f args newTarget, (Φ.construct f args newTarget).KeepsBound

/-- A layer of internal methods all of which keep `Heap.Bound`. -/
structure Methods.KeepsBound (m : Methods) : Prop where
  getPrototypeOf : ∀ r, (m.getPrototypeOf r).KeepsBound
  setPrototypeOf : ∀ r v, (m.setPrototypeOf r v).KeepsBound
  isExtensible : ∀ r, (m.isExtensible r).KeepsBound
  preventExtensions : ∀ r, (m.preventExtensions r).KeepsBound
  getOwnProperty : ∀ r k, (m.getOwnProperty r k).KeepsBound
  defineOwnProperty : ∀ r k d, (m.defineOwnProperty r k d).KeepsBound
  hasProperty : ∀ r k, (m.hasProperty r k).KeepsBound
  get : ∀ r k recv, (m.get r k recv).KeepsBound
  set : ∀ r k v recv, (m.set r k v recv).KeepsBound
  delete : ∀ r k, (m.delete r k).KeepsBound
  ownPropertyKeys : ∀ r, (m.ownPropertyKeys r).KeepsBound
  call : ∀ r thisArg args, (m.call r thisArg args).KeepsBound
  construct : ∀ r args newTarget, (m.construct r args newTarget).KeepsBound
  instanceofObject : ∀ v, (m.instanceofObject v).KeepsBound

/-! ## Paths of keys -/

/-- The expression `v.k1...kn`: the keys are read one after another, each on
the object the previous read returned, with that object as receiver. A read on
`undefined` or `null` is a `TypeError`; reads on other primitives are outside
the model. -/
def readPath (m : Methods) : List String → Val → JS Val
  | [], v => pure v
  | k :: ks, .obj r => do
    let x ← m.get r (.str k) (.obj r)
    readPath m ks x
  | _ :: _, .undefined => JS.throwTypeError
  | _ :: _, .null => JS.throwTypeError
  | _ :: _, _ => JS.abort

/-- The expression `P.k1...kn[f].call(R, ...args)`. -/
def callAlongPath (m : Methods) (P : Ref) (ks : List String) (f : PropKey) (R : Val)
    (args : List Val) : JS Val := do
  let v ← readPath m ks (.obj P)
  match v with
  | .obj Q => readThenCall m Q f R args
  | .undefined => JS.throwTypeError
  | .null => JS.throwTypeError
  | _ => JS.abort

/-- The keys `k1...kn` lead from the ordinary object at `O` to the object at
`C` through objects the `get` trap wraps: at each step the object read from is
ordinary, the key is not a read-only non-configurable own data property of it,
and the value read (in this heap and in every heap with more cells) is an
ordinary non-callable object that is `instanceof Object`. -/
def WrappablePath (Φ : FunTable) (n : Nat) (h : Heap) : Ref → List String → Ref → Prop
  | O, [], C => O = C
  | O, k :: ks, C =>
    ∃ (o : Ordinary) (C1 : Ref) (c1 : Ordinary),
      h.lookup O = some (.ordinary o) ∧
      h.lookup C1 = some (.ordinary c1) ∧ c1.call = none ∧
      (∀ h1, h.Extends h1 →
        (methods Φ (n + 1)).get O (.str k) (.obj O) h1 = .ret (.obj C1) h1) ∧
      (methods Φ (n + 1)).instanceofObject (.obj C1) h = .ret true h ∧
      o.hasFrozenData (.str k) = false ∧
      WrappablePath Φ n h C1 ks C

/-! ## Sequences of operations on wrapped references -/

/-- An operand of an operation: a literal value, or the value an earlier
operation of the sequence returned. -/
inductive Operand where
  | lit (v : Val)
  | res (i : Nat)
  deriving DecidableEq, Repr

/-- One operation of a sequence; the object operand must evaluate to an
object. -/
inductive Op where
  | get (o : Operand) (k : PropKey)
  | set (o : Operand) (k : PropKey) (v : Operand)
  | has (o : Operand) (k : PropKey)
  | delete (o : Operand) (k : PropKey)
  | define (o : Operand) (k : PropKey) (d : Desc)
  | getPrototypeOf (o : Operand)
  | isExtensible (o : Operand)
  | preventExtensions (o : Operand)
  | call (f thisArg : Operand) (args : List Operand)
  | construct (f : Operand) (args : List Operand)

/-- The value of an operand, given the completions of the earlier operations. -/
def Operand.eval (rs : List (Completion Val)) : Operand → Val
  | .lit v => v
  | .res i =>
    match rs[i]? with
    | some (.value v) => v
    | _ => .undefined

/-- Run an operation on an object operand; a primitive operand is a
`TypeError`. -/
def onObject (v : Val) (f : Ref → JS Val) : JS Val :=
  match v with
  | .obj r => f r
  | _ => JS.throwTypeError

/-- One operation: `o[k]`, `o[k] = v`, `k in o`, `delete o[k]`,
`Object.defineProperty(o, k, d)`, `Object.getPrototypeOf(o)`,
`Object.isExtensible(o)`, `Reflect.preventExtensions(o)`, `f.apply(thisArg, args)`
and `new f(...args)`. -/
def step (m : Methods) (rs : List (Completion Val)) : Op → JS Val
  | .get o k => onObject (o.eval rs) fun r => m.get r k (.obj r)
  | .set o k v => onObject (o.eval rs) fun r => do
    let b ← assign m r k (v.eval rs)
    pure (.bool b)
  | .has o k => onObject (o.eval rs) fun r => do
    let b ← m.hasProperty r k
    pure (.bool b)
  | .delete o k => onObject (o.eval rs) fun r => do
    let b ← m.delete r k
    pure (.bool b)
  | .define o k d => onObject (o.eval rs) fun r => do
    objectDefineProperty m r k d
    pure (.obj r)
  | .getPrototypeOf o => onObject (o.eval rs) fun r => do
    let p ← m.getPrototypeOf r
    match p with
    | some q => pure (.obj q)
    | none => pure .null
  | .isExtensible o => onObject (o.eval rs) fun r => do
    let b ← m.isExtensible r
    pure (.bool b)
  | .preventExtensions o => onObject (o.eval rs) fun r => do
    let b ← m.preventExtensions r
    pure (.bool b)
  | .call f thisArg args => onObject (f.eval rs) fun r =>
    m.call r (thisArg.eval rs) (args.map (Operand.eval rs))
  | .construct f args => onObject (f.eval rs) fun r => do
    let q ← m.construct r (args.map (Operand.eval rs)) r
    pure (.obj q)

/-- Run a sequence of operations, each in the heap the previous one left,
recording every completion; a thrown error is recorded and the sequence goes
on. -/
def runOps (m : Methods) : List Op → List (Completion Val) → Heap → List (Completion Val) × Heap
  | [], rs, h => (rs, h)
  | op :: ops, rs, h =>
    match step m rs op h with
    | .ret v h1 => runOps m ops (rs ++ [.value v]) h1
    | .throw e h1 => runOps m ops (rs ++ [.error e]) h1
    | .abort => (rs ++ [.none], h)

/-- Wrap `obj` with `proxy(obj, label, kind)` and run a sequence of operations
in which result `0` is the proxy. -/
def session (Φ : FunTable) (n : Nat) (obj : Val) (label : String) (kind : Val) (ops : List Op)
    (h : Heap) : List (Completion Val) × Heap :=
  match proxy obj label kind h with
  | .ret P h1 => runOps (methods Φ n) ops [.value (.obj P)] h1
  | .throw e h1 => ([.error e], h1)
  | .abort => ([.none], h)

/-! ## Concrete pages

The page of the end-to-end scenario,
`O = { greet: function () { return this.name }, name: "orig" }`, and variants of it. -/

/-- A table without any function body. -/
def noFun : FunTable where
  call := fun _ _ _ => JS.abort
  construct := fun _ _ _ => JS.abort

/-- Function body `0` is `function () { return this.name }`; constructor body `0`
returns the object at address `4`. -/
def thisName : FunTable where
  call := fun _ thisArg _ =>
    match thisArg with
    | .obj r => (methods noFun 3).get r (.str "name") thisArg
    | _ => JS.throwTypeError
  construct := fun _ _ _ => pure 4

/-- `Object.prototype`. -/
def recObjectPrototype : Ordinary :=
  { props := [], proto := none, extensible := true, call := none, ctor := false }

/-- `Function.prototype`. -/
def recFunctionPrototype : Ordinary :=
  { props := [], proto := some 0, extensible := true, call := none, ctor := false }

/-- The function `greet`, with its own `name` property. -/
def recGreet : Ordinary :=
  { props := [(.str "name", .data (.str "greet") false false true)],
    proto := some 1, extensible := true, call := some 0, ctor := true }

/-- The object `O`. -/
def recO : Ordinary :=
  { props := [(.str "greet", .data (.obj 2) true true true),
              (.str "name", .data (.str "orig") true true true)],
    proto := some 0, extensible := true, call := none, ctor := false }

/-- The object `{ name: "fake" }`. -/
def recFake : Ordinary :=
  { props := [(.str "name", .data (.str "fake") true true true)],
    proto := some 0, extensible := true, call := none, ctor := false }

/-- Addresses: `0` `Object.prototype`, `1` `Function.prototype`, `2` `greet`,
`3` `O`, `4` `{ name: "fake" }`. -/
def demoHeap : Heap :=
  { objs := [.ordinary recObjectPrototype, .ordinary recFunctionPrototype, .ordinary recGreet,
             .ordinary recO, .ordinary recFake],
    objectPrototype := 0 }

/-- The heap `demoHeap` after `proxy(O, "root", "object")`: handler record at `5`,
proxy at `6`. -/
def demoWrapped : Heap :=
  (demoHeap.push (.handler (.object "root"))).push (.proxy 3 5 false false)

/-- The heap `demoHeap` after `proxy(O.greet, "greet", "method")`: handler record
at `5`, proxy at `6`. -/
def demoMethodWrapped : Heap :=
  (demoHeap.push (.handler (.method "greet" (.obj 2)))).push (.proxy 2 5 true true)

/-- `O` after `Object.freeze(O)`: every own property read-only and
non-configurable. -/
def recFrozenO : Ordinary :=
  { props := [(.str "greet", .data (.obj 2) false true false),
              (.str "name", .data (.str "orig") false true false)],
    proto := some 0, extensible := false, call := none, ctor := false }

/-- The page of `demoHeap` with `O` frozen. -/
def frozenHeap : Heap :=
  { objs := [.ordinary recObjectPrototype, .ordinary recFunctionPrototype, .ordinary recGreet,
             .ordinary recFrozenO, .ordinary recFake],
    objectPrototype := 0 }

/-- The function `greet` after `Object.setPrototypeOf(greet, null)`. -/
def recBareGreet : Ordinary :=
  { props := [(.str "name", .data (.str "greet") false false true)],
    proto := none, extensible := true, call := some 0, ctor := true }

/-- The page of `demoHeap` where `greet` has a null prototype. -/
def bareHeap : Heap :=
  { objs := [.ordinary recObjectPrototype, .ordinary recFunctionPrototype,
             .ordinary recBareGreet, .ordinary recO, .ordinary recFake],
    objectPrototype := 0 }

/-- The object `{ x: 1 }`. -/
def recChild : Ordinary :=
  { props := [(.str "x", .data (.num 1) true true true)],
    proto := some 0, extensible := true, call := none, ctor := false }

/-- The object `{ a: child }`, `child` at address `1`. -/
def recParent : Ordinary :=
  { props := [(.str "a", .data (.obj 1) true true true)],
    proto := some 0, extensible := true, call := none, ctor := false }

/-- Addresses: `0` `Object.prototype`, `1` `child = { x: 1 }`, `2` `O = { a: child }`. -/
def nestedHeap : Heap :=
  { objs := [.ordinary recObjectPrototype, .ordinary recChild, .ordinary recParent],
    objectPrototype := 0 }

/-- The heap `nestedHeap` after `proxy(O, "root", "object")`: handler record at
`3`, proxy at `4`. -/
def nestedWrapped : Heap :=
  (nestedHeap.push (.handler (.object "root"))).push (.proxy 2 3 false false)

/-- The object `child` made with `Object.create(null)`. -/
def recBareChild : Ordinary :=
  { props := [(.str "x", .data (.num 1) true true true)],
    proto := none, extensible := true, call := none, ctor := false }

/-- The page of `nestedHeap` where `child` has a null prototype. -/
def nullProtoHeap : Heap :=
  { objs := [.ordinary recObjectPrototype, .ordinary recBareChild, .ordinary recParent],
    objectPrototype := 0 }

/-- `O = Object.freeze({ a: child })`. -/
def recFrozenParent : Ordinary :=
  { props := [(.str "a", .data (.obj 1) false true false)],
    proto := some 0, extensible := false, call := none, ctor := false }

/-- The page of `nestedHeap` with `O` frozen. -/
def frozenNestedHeap : Heap :=
  { objs := [.ordinary recObjectPrototype, .ordinary recChild, .ordinary recFrozenParent],
    objectPrototype := 0 }

/-- `O = { [s]: child }` for a symbol `s`. -/
def recSymbolParent : Ordinary :=
  { props := [(.sym 0, .data (.obj 1) true true true)],
    proto := some 0, extensible := true, call := none, ctor := false }

/-- The page of `nestedHeap` where `child` is stored under a symbol key. -/
def symbolHeap : Heap :=
  { objs := [.ordinary recObjectPrototype, .ordinary recChild, .ordinary recSymbolParent],
    objectPrototype := 0 }

/-- Function body `0` is a setter that accepts only the object at address `3`
as `this` (as a native accessor does) and throws a `TypeError` otherwise;
function body `1` is `function (v) { this.seen = this }`. -/
def setterTable : FunTable where
  call := fun f thisArg _ =>
    match f with
    | 0 => if thisArg = .obj 3 then pure .undefined else JS.throwTypeError
    | _ =>
      match thisArg with
      | .obj r => do
        let _ ← (methods noFun 6).set r (.str "seen") thisArg thisArg
        pure .undefined
      | _ => JS.throwTypeError
  construct := fun _ _ _ => JS.abort

/-- A setter function with body `0`. -/
def recBrandSetter : Ordinary :=
  { props := [], proto := some 0, extensible := true, call := some 0, ctor := false }

/-- A setter function with body `1`. -/
def recSelfSetter : Ordinary :=
  { props := [], proto := some 0, extensible := true, call := some 1, ctor := false }

/-- The object `O` with accessor properties `x` (setter at `1`) and `y` (setter
at `2`). -/
def recWithSetters : Ordinary :=
  { props := [(.str "x", .accessor .undefined (.obj 1) true true),
              (.str "y", .accessor .undefined (.obj 2) true true)],
    proto := some 0, extensible := true, call := none, ctor := false }

/-- Addresses: `0` `Object.prototype`, `1` and `2` the setters, `3` `O`; then the
handler record `4` and the proxy `5` of `proxy(O, "root", "object")`. -/
def setterWrapped : Heap :=
  { objs := [.ordinary recObjectPrototype, .ordinary recBrandSetter, .ordinary recSelfSetter,
             .ordinary recWithSetters, .handler (.object "root"), .proxy 3 4 false false],
    objectPrototype := 0 }

/-- The object `inner = { greet, name: "inner" }`, `greet` at address `2`. -/
def recInner : Ordinary :=
  { props := [(.str "greet", .data (.obj 2) true true true),
              (.str "name", .data (.str "inner") true true true)],
    proto := some 0, extensible := true, call := none, ctor := false }

/-- The object `mid = { b: inner }`, `inner` at address `3`. -/
def recMid : Ordinary :=
  { props := [(.str "b", .data (.obj 3) true true true)],
    proto := some 0, extensible := true, call := none, ctor := false }

/-- The object `O = { a: mid, name: "outer" }`, `mid` at address `4`. -/
def recOuter : Ordinary :=
  { props := [(.str "a", .data (.obj 4) true true true),
              (.str "name", .data (.str "outer") true true true)],
    proto := some 0, extensible := true, call := none, ctor := false }

/-- Addresses: `0` `Object.prototype`, `1` `Function.prototype`, `2` `greet`,
`3` `inner`, `4` `mid`, `5` `O`, `6` `{ name: "fake" }`. -/
def deepHeap : Heap :=
  { objs := [.ordinary recObjectPrototype, .ordinary recFunctionPrototype, .ordinary recGreet,
             .ordinary recInner, .ordinary recMid, .ordinary recOuter, .ordinary recFake],
    objectPrototype := 0 }

/-- The heap `deepHeap` after `proxy(O, "root", "object")`: handler record at `7`,
proxy at `8`. -/
def deepWrapped : Heap :=
  (deepHeap.push (.handler (.object "root"))).push (.proxy 5 7 false false)

/-- The object `inner` made with `Object.create(null)`. -/
def recBareInner : Ordinary :=
  { props := [(.str "greet", .data (.obj 2) true true true),
              (.str "name", .data (.str "inner") true true true)],
    proto := none, extensible := true, call := none, ctor := false }

/-- The page of `deepHeap` where `inner` has a null prototype. -/
def deepBareHeap : Heap :=
  { objs := [.ordinary recObjectPrototype, .ordinary recFunctionPrototype, .ordinary recGreet,
             .ordinary recBareInner, .ordinary recMid, .ordinary recOuter, .ordinary recFake],
    objectPrototype := 0 }

/-- The object `mid` after `Object.freeze(mid)`. -/
def recFrozenMid : Ordinary :=
  { props := [(.str "b", .data (.obj 3) false true false)],
    proto := some 0, extensible := false, call := none, ctor := false }

/-- The page of `deepHeap` with `mid` frozen. -/
def deepFrozenHeap : Heap :=
  { objs := [.ordinary recObjectPrototype, .ordinary recFunctionPrototype, .ordinary recGreet,
             .ordinary recInner, .ordinary recFrozenMid, .ordinary recOuter, .ordinary recFake],
    objectPrototype := 0 }

/-! # Theorems -/

/-! ## Basic facts about the heap monad -/

theorem bind_run {α β : Type} (x : JS α) (f : α → JS β) (h : Heap) :
    (x >>= f) h =
      match x h with
      | .ret a h1 => f a h1
      | .throw e h1 => .throw e h1
      | .abort => .abort := rfl

theorem pure_run {α : Type} (a : α) (h : Heap) : (pure a : JS α) h = .ret a h := rfl

theorem bind_ret {α β : Type} (x : JS α) (f : α → JS β) (h h1 : Heap) (a : α)
    (hx : x h = .ret a h1) : (x >>= f) h = f a h1 := by
  rw [bind_run, hx]

theorem bind_throw {α β : Type} (x : JS α) (f : α → JS β) (h h1 : Heap) (e : Err)
    (hx : x h = .throw e h1) : (x >>= f) h = .throw e h1 := by
  rw [bind_run, hx]

theorem bind_abort {α β : Type} (x : JS α) (f : α → JS β) (h : Heap)
    (hx : x h = .abort) : (x >>= f) h = .abort := by
  rw [bind_run, hx]

theorem allocCell_run (o : Obj) (h : Heap) : allocCell o h = .ret h.objs.length (h.push o) := rfl

theorem lookup_push_lt (h : Heap) (o : Obj) (r : Ref) (hr : r < h.objs.length) :
    (h.push o).lookup r = h.lookup r := by
  simp [Heap.push, Heap.lookup, List.getElem?_append_left hr]

theorem lookup_push_eq (h : Heap) (o : Obj) : (h.push o).lookup h.objs.length = some o := by
  simp [Heap.push, Heap.lookup]

theorem lookup_lt (h : Heap) (r : Ref) (o : Obj) (hl : h.lookup r = some o) :
    r < h.objs.length := by
  simp only [Heap.lookup] at hl
  exact (List.getElem?_eq_some_iff.mp hl).1

theorem lookup_push_of_some (h : Heap) (c o : Obj) (r : Ref) (hl : h.lookup r = some o) :
    (h.push c).lookup r = some o := by
  rw [lookup_push_lt h c r (lookup_lt h r o hl), hl]

theorem length_push (h : Heap) (o : Obj) : (h.push o).objs.length = h.objs.length + 1 := by
  simp [Heap.push]

theorem dispatch_ordinary {α : Type} (r : Ref) (ord : Ordinary → JS α)
    (prx : Handler → Ref → Bool → Bool → JS α) (h : Heap) (o : Ordinary)
    (hl : h.lookup r = some (.ordinary o)) : dispatch r ord prx h = ord o h := by
  simp [dispatch, hl]

theorem dispatch_proxy {α : Type} (r : Ref) (ord : Ordinary → JS α)
    (prx : Handler → Ref → Bool → Bool → JS α) (h : Heap) (t hd : Ref) (c k : Bool) (x : Handler)
    (hl : h.lookup r = some (.proxy t hd c k)) (hh : h.lookup hd = some (.handler x)) :
    dispatch r ord prx h = prx x t c k h := by
  simp [dispatch, hl, hh]

/-- What `proxy` returns on an object target: two new cells, the handler record
and the Proxy object. -/
theorem proxy_run (t : Ref) (label : String) (kind : Val) (h : Heap) (c : Obj)
    (hl : h.lookup t = some c) :
    proxy (.obj t) label kind h =
      .ret (h.objs.length + 1)
        ((h.push (.handler (if kind = .str "method" then .method label (.obj t)
            else .object label))).push
          (.proxy t h.objs.length c.isCallable c.isConstructor)) := by
  have hl2 : ∀ x, (h.push x).lookup t = some c := fun x => lookup_push_of_some h x c t hl
  unfold proxy
  split <;>
    simp [getMethodHandler, getObjhandler, newProxy, bind_run, allocCell_run, getCell, hl2,
      length_push]

/-! ## Calls and constructions through a method proxy -/

theorem call_proxy_method (Φ : FunTable) (n : Nat) (h : Heap) (Q F hd : Ref) (k : Bool)
    (L : String) (tobj R : Val) (args : List Val)
    (hQ : h.lookup Q = some (.proxy F hd true k))
    (hH : h.lookup hd = some (.handler (.method L tobj))) :
    (methods Φ (n + 1)).call Q R args h =
      Reflect.apply (methods Φ n) F (if toBoolean tobj then tobj else R) args h := by
  simp only [methods, Methods.next]
  rw [dispatch_proxy Q _ _ h F hd true k _ hQ hH]
  simp [proxyCall, methodhandler.apply]

theorem reflect_apply_ordinary (Φ : FunTable) (n : Nat) (h : Heap) (F : Ref) (o : Ordinary)
    (f : FuncId) (thisArg : Val) (args : List Val)
    (hF : h.lookup F = some (.ordinary o)) (hf : o.call = some f) :
    Reflect.apply (methods Φ (n + 1)) F thisArg args h = Φ.call f thisArg args h := by
  simp only [Reflect.apply, bind_run, isCallable, hF, Obj.isCallable, hf, Option.isSome_some,
    if_true, methods, Methods.next]
  rw [dispatch_ordinary F _ _ h o hF]
  simp [ordinaryCall, hf]

theorem call_ordinary (Φ : FunTable) (n : Nat) (h : Heap) (F : Ref) (o : Ordinary)
    (f : FuncId) (thisArg : Val) (args : List Val)
    (hF : h.lookup F = some (.ordinary o)) (hf : o.call = some f) :
    (methods Φ (n + 1)).call F thisArg args h = Φ.call f thisArg args h := by
  simp only [methods, Methods.next]
  rw [dispatch_ordinary F _ _ h o hF]
  simp [ordinaryCall, hf]

theorem construct_proxy_method (Φ : FunTable) (n : Nat) (h : Heap) (Q F hd T : Ref) (c : Bool)
    (L : String) (tobj : Val) (args : List Val)
    (hQ : h.lookup Q = some (.proxy F hd c true))
    (hH : h.lookup hd = some (.handler (.method L tobj))) :
    (methods Φ (n + 1)).construct Q args T h = Reflect.construct (methods Φ n) F args T h := by
  simp only [methods, Methods.next]
  rw [dispatch_proxy Q _ _ h F hd c true _ hQ hH]
  simp [proxyConstruct, methodhandler.construct]

/-! ## The `get` trap -/

/-- The two cells a wrapping read appends to the heap. -/
theorem handler_get_function (m : Methods) (L : String) (O F : Ref) (k : PropKey) (recv : Val)
    (h h1 h2 : Heap) (fc : Obj)
    (hget : m.get O k (.obj O) h = .ret (.obj F) h1)
    (hinst : m.instanceofObject (.obj F) h1 = .ret true h2)
    (hF : h2.lookup F = some fc) (hcall : fc.isCallable = true) :
    handler.get m L O k recv h =
      .ret (.obj (h2.objs.length + 1))
        ((h2.push (.handler (.method L (.obj O)))).push
          (.proxy F h2.objs.length true fc.isConstructor)) := by
  have hF2 : ∀ x, (h2.push x).lookup F = some fc := fun x => lookup_push_of_some h2 x fc F hF
  simp [handler.get, bind_run, hget, hinst, typeofFunction, isCallable, hF, hcall,
    getMethodHandler, allocCell_run, newProxy, getCell, hF2, length_push, pure_run]

theorem handler_get_object (m : Methods) (L : String) (O F : Ref) (s : String) (recv : Val)
    (h h1 h2 : Heap) (fc : Obj)
    (hget : m.get O (.str s) (.obj O) h = .ret (.obj F) h1)
    (hinst : m.instanceofObject (.obj F) h1 = .ret true h2)
    (hF : h2.lookup F = some fc) (hcall : fc.isCallable = false) :
    handler.get m L O (.str s) recv h =
      .ret (.obj (h2.objs.length + 1))
        ((h2.push (.handler (.object (L ++ "." ++ s)))).push
          (.proxy F h2.objs.length false fc.isConstructor)) := by
  have hF2 : ∀ x, (h2.push x).lookup F = some fc := fun x => lookup_push_of_some h2 x fc F hF
  simp [handler.get, bind_run, hget, hinst, typeofFunction, isCallable, hF, hcall,
    getObjhandler, childName, allocCell_run, newProxy, getCell, hF2, length_push, pure_run]

theorem handler_get_symbol_object (m : Methods) (L : String) (O F : Ref) (id : Nat) (recv : Val)
    (h h1 h2 : Heap) (fc : Obj)
    (hget : m.get O (.sym id) (.obj O) h = .ret (.obj F) h1)
    (hinst : m.instanceofObject (.obj F) h1 = .ret true h2)
    (hF : h2.lookup F = some fc) (hcall : fc.isCallable = false) :
    handler.get m L O (.sym id) recv h = .throw .typeError h2 := by
  simp [handler.get, bind_run, hget, hinst, typeofFunction, isCallable, hF, hcall,
    childName, JS.throwTypeError]

theorem handler_get_raw (m : Methods) (L : String) (O : Ref) (k : PropKey) (recv v : Val)
    (h h1 h2 : Heap)
    (hget : m.get O k (.obj O) h = .ret v h1)
    (hinst : m.instanceofObject v h1 = .ret false h2) :
    handler.get m L O k recv h = .ret v h2 := by
  simp [handler.get, bind_run, hget, hinst, pure_run]

theorem handler_get_throw (m : Methods) (L : String) (O : Ref) (k : PropKey) (recv : Val)
    (h h1 : Heap) (e : Err)
    (hget : m.get O k (.obj O) h = .throw e h1) :
    handler.get m L O k recv h = .throw e h1 := by
  simp [handler.get, bind_run, hget]

theorem handler_get_abort (m : Methods) (L : String) (O : Ref) (k : PropKey) (recv : Val)
    (h : Heap)
    (hget : m.get O k (.obj O) h = .abort) :
    handler.get m L O k recv h = .abort := by
  simp [handler.get, bind_run, hget]

/-- `instanceof Object` is false on a primitive, at every layer above the first. -/
theorem instanceof_primitive (Φ : FunTable) (n : Nat) (v : Val) (h : Heap)
    (hv : ∀ r, v ≠ .obj r) : (methods Φ (n + 1)).instanceofObject v h = .ret false h := by
  cases v <;> simp_all [methods, Methods.next, instanceofObjectStep, pure_run]

theorem getOwnProperty_ordinary (Φ : FunTable) (n : Nat) (h : Heap) (O : Ref) (o : Ordinary)
    (k : PropKey) (hO : h.lookup O = some (.ordinary o)) :
    (methods Φ (n + 1)).getOwnProperty O k h = .ret (o.getOwn k) h := by
  simp only [methods, Methods.next]
  rw [dispatch_ordinary O _ _ h o hO]
  rfl

theorem get_proxy_object (Φ : FunTable) (n : Nat) (h : Heap) (P O hd : Ref) (c kk : Bool)
    (L : String) (k : PropKey) (recv : Val)
    (hP : h.lookup P = some (.proxy O hd c kk))
    (hH : h.lookup hd = some (.handler (.object L))) :
    (methods Φ (n + 1)).get P k recv h =
      (handler.get (methods Φ n) L O k recv >>= fun trapResult =>
        (methods Φ n).getOwnProperty O k >>= fun targetDesc =>
          getInvariant trapResult targetDesc) h := by
  simp only [methods, Methods.next]
  rw [dispatch_proxy P _ _ h O hd c kk _ hP hH]
  rfl

theorem get_ordinary (Φ : FunTable) (n : Nat) (h : Heap) (O : Ref) (o : Ordinary)
    (k : PropKey) (recv : Val) (hO : h.lookup O = some (.ordinary o)) :
    (methods Φ (n + 1)).get O k recv h = ordinaryGet (methods Φ n) o k recv h := by
  simp only [methods, Methods.next]
  rw [dispatch_ordinary O _ _ h o hO]

/-- Reading a function-valued property through an object proxy. -/
theorem read_function_through_proxy (Φ : FunTable) (n : Nat) (h : Heap) (P O hd F : Ref)
    (c kk : Bool) (L : String) (k : PropKey) (recv : Val) (o : Ordinary) (fc : Obj)
    (hP : h.lookup P = some (.proxy O hd c kk))
    (hH : h.lookup hd = some (.handler (.object L)))
    (hO : h.lookup O = some (.ordinary o))
    (hget : (methods Φ (n + 1)).get O k (.obj O) h = .ret (.obj F) h)
    (hinst : (methods Φ (n + 1)).instanceofObject (.obj F) h = .ret true h)
    (hF : h.lookup F = some fc) (hcall : fc.isCallable = true)
    (hfro : o.hasFrozenData k = false) :
    (methods Φ (n + 2)).get P k recv h =
      .ret (.obj (h.objs.length + 1))
        ((h.push (.handler (.method L (.obj O)))).push
          (.proxy F h.objs.length true fc.isConstructor)) := by
  rw [get_proxy_object Φ (n + 1) h P O hd c kk L k recv hP hH]
  rw [bind_ret _ _ _ _ _ (handler_get_function _ L O F k recv h h h fc hget hinst hF hcall)]
  have hO2 : ((h.push (.handler (.method L (.obj O)))).push
      (.proxy F h.objs.length true fc.isConstructor)).lookup O = some (.ordinary o) :=
    lookup_push_of_some _ _ _ _ (lookup_push_of_some _ _ _ _ hO)
  rw [bind_ret _ _ _ _ _ (getOwnProperty_ordinary Φ n _ O o k hO2)]
  rw [get_ordinary Φ n h O o k _ hO] at hget
  simp only [Ordinary.hasFrozenData] at hfro
  cases hown : o.getOwn k with
  | none => rfl
  | some sl =>
    cases sl with
    | data v w e cf =>
      cases w <;> cases cf <;> simp_all [getInvariant, pure_run, Slot.frozenData]
    | accessor g s e cf =>
      cases g <;> simp_all [getInvariant, pure_run, ordinaryGet]

/-! ## What `proxy` leaves in the heap -/

theorem lookup_push_push_handler (h : Heap) (x y : Obj) :
    ((h.push x).push y).lookup h.objs.length = some x := by
  rw [lookup_push_lt (h.push x) y h.objs.length (by simp [length_push]), lookup_push_eq]

theorem lookup_push_push_proxy (h : Heap) (x y : Obj) :
    ((h.push x).push y).lookup (h.objs.length + 1) = some y := by
  have := lookup_push_eq (h.push x) y
  rwa [length_push] at this

theorem lookup_push_push_of_some (h : Heap) (x y o : Obj) (r : Ref)
    (hl : h.lookup r = some o) : ((h.push x).push y).lookup r = some o :=
  lookup_push_of_some _ _ _ _ (lookup_push_of_some _ _ _ _ hl)

theorem lookup_ge_none (h : Heap) (r : Ref) (hr : h.objs.length ≤ r) : h.lookup r = none := by
  simp only [Heap.lookup]
  exact List.getElem?_eq_none_iff.mpr hr

/-- After `proxy(O, L, kind)` with `kind` other than `"method"`: the proxy cell,
its handler record, and the old cells. -/
theorem proxy_object_cells (O : Ref) (L : String) (kind : Val) (h0 h : Heap) (P : Ref) (c : Obj)
    (hk : kind ≠ .str "method")
    (hO : h0.lookup O = some c)
    (hw : proxy (.obj O) L kind h0 = .ret P h) :
    h.lookup P = some (.proxy O h0.objs.length c.isCallable c.isConstructor) ∧
      h.lookup h0.objs.length = some (.handler (.object L)) ∧
      (∀ r x, h0.lookup r = some x → h.lookup r = some x) ∧
      h0.lookup P = none ∧ h.objs.length = h0.objs.length + 2 := by
  rw [proxy_run O L kind h0 c hO] at hw
  injection hw with h1 h2
  subst h1 h2
  simp only [hk, if_false]
  refine ⟨lookup_push_push_proxy _ _ _, lookup_push_push_handler _ _ _, ?_, ?_, ?_⟩
  · intro r x hr
    exact lookup_push_push_of_some _ _ _ _ _ hr
  · exact lookup_ge_none _ _ (by omega)
  · simp [length_push]

/-- After `proxy(F, L, "method")`. -/
theorem proxy_method_cells (F : Ref) (L : String) (h0 h : Heap) (P : Ref) (c : Obj)
    (hF : h0.lookup F = some c)
    (hw : proxy (.obj F) L (.str "method") h0 = .ret P h) :
    h.lookup P = some (.proxy F h0.objs.length c.isCallable c.isConstructor) ∧
      h.lookup h0.objs.length = some (.handler (.method L (.obj F))) ∧
      (∀ r x, h0.lookup r = some x → h.lookup r = some x) ∧
      h0.lookup P = none := by
  rw [proxy_run F L (.str "method") h0 c hF] at hw
  injection hw with h1 h2
  subst h1 h2
  simp only [if_true]
  refine ⟨lookup_push_push_proxy _ _ _, lookup_push_push_handler _ _ _, ?_, ?_⟩
  · intro r x hr
    exact lookup_push_push_of_some _ _ _ _ _ hr
  · exact lookup_ge_none _ _ (by omega)

/-! ## C1 -/

/-- C1, as amended. Let `P = proxy(O, label, "object")` for an ordinary object `O`,
and let `O[k]` be an ordinary function `F` with `F instanceof Object`, where `k`
is not a read-only non-configurable own data property of `O`. Then reading
`P[k]` returns a new method proxy `Q` over `F` whose handler record holds
`target_obj = O`, and calling `Q` with any receiver `R` and any arguments runs
the body of `F` with `this = O` and returns exactly what `F.apply(O, args)`
returns. -/
theorem receiver_override_through_read (Φ : FunTable) (n : Nat) (h0 h : Heap) (P O F : Ref)
    (label k : String) (o fo : Ordinary) (f : FuncId)
    (hO : h0.lookup O = some (.ordinary o))
    (hwrap : proxy (.obj O) label (.str "object") h0 = .ret P h)
    (hget : (methods Φ (n + 1)).get O (.str k) (.obj O) h = .ret (.obj F) h)
    (hF : h.lookup F = some (.ordinary fo)) (hf : fo.call = some f)
    (hinst : (methods Φ (n + 1)).instanceofObject (.obj F) h = .ret true h)
    (hfro : o.hasFrozenData (.str k) = false) :
    ∃ Q hd h1,
      (methods Φ (n + 2)).get P (.str k) (.obj P) h = .ret (.obj Q) h1 ∧
      h.lookup Q = none ∧
      h1.lookup Q = some (.proxy F hd true fo.ctor) ∧
      h1.lookup hd = some (.handler (.method label (.obj O))) ∧
      (∀ r x, h.lookup r = some x → h1.lookup r = some x) ∧
      ∀ (R : Val) (args : List Val) (j : Nat),
        (methods Φ (j + 2)).call Q R args h1 = Φ.call f (.obj O) args h1 ∧
        (methods Φ (j + 2)).call Q R args h1 = (methods Φ (j + 1)).call F (.obj O) args h1 := by
  obtain ⟨hP, hH, hold, -, -⟩ :=
    proxy_object_cells O label (.str "object") h0 h P _ (by decide) hO hwrap
  have hO1 : h.lookup O = some (.ordinary o) := hold O _ hO
  have hcall : (Obj.ordinary fo).isCallable = true := by simp [Obj.isCallable, hf]
  refine ⟨h.objs.length + 1, h.objs.length, _,
    read_function_through_proxy Φ n h P O _ F _ _ label (.str k) (.obj P) o (.ordinary fo)
      hP hH hO1 hget hinst hF hcall hfro,
    lookup_ge_none _ _ (by omega), lookup_push_push_proxy _ _ _, lookup_push_push_handler _ _ _,
    fun r x hr => lookup_push_push_of_some _ _ _ _ _ hr, ?_⟩
  intro R args j
  have hF1 := lookup_push_push_of_some h (.handler (.method label (.obj O)))
    (.proxy F h.objs.length true (Obj.ordinary fo).isConstructor) _ F hF
  have e1 := call_proxy_method Φ (j + 1) _ (h.objs.length + 1) F h.objs.length
    (Obj.ordinary fo).isConstructor label (.obj O) R args (lookup_push_push_proxy _ _ _)
    (lookup_push_push_handler _ _ _)
  rw [reflect_apply_ordinary Φ j _ F fo f _ args hF1 hf] at e1
  simp only [toBoolean, if_true] at e1
  exact ⟨e1, by rw [e1, call_ordinary Φ j _ F fo f _ args hF1 hf]⟩

/-- Witness for C1 on the page `O = { greet, name: "orig" }`,
`P = proxy(O, "root", "object")`; and `P.greet.call({ name: "fake" })` is `"orig"`. -/
theorem receiver_override_through_read_witness :
    (∃ Q hd h1,
      (methods thisName 4).get 6 (.str "greet") (.obj 6) demoWrapped = .ret (.obj Q) h1 ∧
      demoWrapped.lookup Q = none ∧
      h1.lookup Q = some (.proxy 2 hd true recGreet.ctor) ∧
      h1.lookup hd = some (.handler (.method "root" (.obj 3))) ∧
      (∀ r x, demoWrapped.lookup r = some x → h1.lookup r = some x) ∧
      ∀ (R : Val) (args : List Val) (j : Nat),
        (methods thisName (j + 2)).call Q R args h1 = thisName.call 0 (.obj 3) args h1 ∧
        (methods thisName (j + 2)).call Q R args h1 =
          (methods thisName (j + 1)).call 2 (.obj 3) args h1) ∧
    (readThenCall (methods thisName 4) 6 (.str "greet") (.obj 4) [] demoWrapped).completion
      = .value (.str "orig") :=
  ⟨receiver_override_through_read thisName 2 demoHeap demoWrapped 6 3 2 "root" "greet"
    recO recGreet 0 rfl rfl rfl rfl rfl rfl rfl, rfl⟩

/-- Counterexample to C1 as stated. (1) `O` frozen: `O.greet` is the ordinary
function `greet`, yet reading `P.greet` throws a `TypeError`. (2) `greet` with a
null prototype: `P.greet.call(fake)` runs `greet` with `this = fake` and returns
`"fake"`, while `greet.apply(O)` returns `"orig"`. -/
theorem receiver_override_unrestricted_fails :
    ((methods thisName 3).get 3 (.str "greet") (.obj 3) frozenHeap = .ret (.obj 2) frozenHeap ∧
      ((proxy (.obj 3) "root" (.str "object") >>= fun P =>
          (methods thisName 4).get P (.str "greet") (.obj P)) frozenHeap).completion
        = .error .typeError) ∧
    ((methods thisName 3).get 3 (.str "greet") (.obj 3) bareHeap = .ret (.obj 2) bareHeap ∧
      ((proxy (.obj 3) "root" (.str "object") >>= fun P =>
          readThenCall (methods thisName 4) P (.str "greet") (.obj 4) []) bareHeap).completion
        = .value (.str "fake") ∧
      ((methods thisName 4).call 2 (.obj 3) [] bareHeap).completion = .value (.str "orig")) := by
  refine ⟨⟨rfl, rfl⟩, rfl, rfl, rfl⟩

/-! ## C2 -/

/-- Calling the result of `proxy(F, label, "method")`: the handler record holds
`target_obj = F`, so the body of `F` runs with `this = F`, whatever the receiver. -/
theorem direct_method_wrap_call (Φ : FunTable) (n : Nat) (h0 h : Heap) (Q F : Ref)
    (label : String) (fo : Ordinary) (f : FuncId) (R : Val) (args : List Val)
    (hF : h0.lookup F = some (.ordinary fo)) (hf : fo.call = some f)
    (hwrap : proxy (.obj F) label (.str "method") h0 = .ret Q h) :
    (methods Φ (n + 2)).call Q R args h = Φ.call f (.obj F) args h := by
  obtain ⟨hQ, hH, hold, -⟩ := proxy_method_cells F label h0 h Q _ hF hwrap
  have hc : (Obj.ordinary fo).isCallable = true := by simp [Obj.isCallable, hf]
  rw [hc] at hQ
  rw [call_proxy_method Φ (n + 1) h Q F _ _ label (.obj F) R args hQ hH,
    reflect_apply_ordinary Φ n h F fo f _ args (hold F _ hF) hf]
  simp [toBoolean]

/-- C2, the code at the failing input. With `O = { greet: function () { return
this.name }, name: "orig" }` and `Q = proxy(O.greet, "greet", "method")`,
`Q.call({ name: "fake" })` returns `"greet"`, the `name` of the function itself:
the body ran with `this = greet`. `greet.apply(O)` returns `"orig"`, and
`greet.apply(greet)` returns `"greet"`. -/
theorem direct_method_wrap_runs_with_function_as_receiver :
    (proxy (.obj 2) "greet" (.str "method") >>= fun Q =>
        (methods thisName 4).call Q (.obj 4) []) demoHeap
      = .ret (.str "greet") demoMethodWrapped ∧
    (methods thisName 4).call 2 (.obj 3) [] demoMethodWrapped
      = .ret (.str "orig") demoMethodWrapped ∧
    (methods thisName 4).call 2 (.obj 2) [] demoMethodWrapped
      = .ret (.str "greet") demoMethodWrapped := by
  refine ⟨rfl, rfl, rfl⟩

/-! ## C3 -/

/-- C3. Constructing through a method proxy `Q` of `F`, with arguments `args` and
new-target `T`, is `Reflect.construct(F, args, T)`: (1) for every proxy cell over
`F` with a `methodhandler` record, whatever its `target_obj`; (2) for
`Q = proxy(F, label, "method")`; (3) for `Q` read as a function-valued property
`k` of an object proxy. -/
theorem construct_forwarded (Φ : FunTable) (n : Nat) (F T : Ref) (args : List Val) (fc : Obj) :
    (∀ (h : Heap) (Q hd : Ref) (c : Bool) (L : String) (tobj : Val),
      h.lookup Q = some (.proxy F hd c fc.isConstructor) →
      h.lookup hd = some (.handler (.method L tobj)) →
      h.lookup F = some fc →
      (methods Φ (n + 1)).construct Q args T h = Reflect.construct (methods Φ n) F args T h) ∧
    (∀ (h0 h : Heap) (Q : Ref) (label : String),
      h0.lookup F = some fc →
      proxy (.obj F) label (.str "method") h0 = .ret Q h →
      (methods Φ (n + 1)).construct Q args T h = Reflect.construct (methods Φ n) F args T h) ∧
    (∀ (j : Nat) (h : Heap) (P O hd : Ref) (c kk : Bool) (L : String) (k : PropKey) (o : Ordinary),
      h.lookup P = some (.proxy O hd c kk) →
      h.lookup hd = some (.handler (.object L)) →
      h.lookup O = some (.ordinary o) →
      (methods Φ (j + 1)).get O k (.obj O) h = .ret (.obj F) h →
      (methods Φ (j + 1)).instanceofObject (.obj F) h = .ret true h →
      h.lookup F = some fc → fc.isCallable = true →
      o.hasFrozenData k = false →
      ∃ Q h1, (methods Φ (j + 2)).get P k (.obj P) h = .ret (.obj Q) h1 ∧
        (methods Φ (n + 1)).construct Q args T h1
          = Reflect.construct (methods Φ n) F args T h1) := by
  have cell : ∀ (h : Heap) (Q hd : Ref) (c : Bool) (L : String) (tobj : Val),
      h.lookup Q = some (.proxy F hd c fc.isConstructor) →
      h.lookup hd = some (.handler (.method L tobj)) →
      h.lookup F = some fc →
      (methods Φ (n + 1)).construct Q args T h
        = Reflect.construct (methods Φ n) F args T h := by
    intro h Q hd c L tobj hQ hH hF
    cases hk : fc.isConstructor with
    | true =>
      rw [hk] at hQ
      exact construct_proxy_method Φ n h Q F hd T c L tobj args hQ hH
    | false =>
      rw [hk] at hQ
      simp only [methods, Methods.next]
      rw [dispatch_proxy Q _ _ h F hd c false _ hQ hH]
      simp [Reflect.construct, bind_run, isConstructor, hF, hk]
  refine ⟨cell, ?_, ?_⟩
  · intro h0 h Q label hF hw
    obtain ⟨hQ, hH, hold, -⟩ := proxy_method_cells F label h0 h Q _ hF hw
    exact cell h Q _ _ label _ hQ hH (hold F _ hF)
  · intro j h P O hd c kk L k o hP hH hO hget hinst hF hcall hfro
    refine ⟨_, _, read_function_through_proxy Φ j h P O hd F c kk L k (.obj P) o fc
      hP hH hO hget hinst hF hcall hfro, ?_⟩
    exact cell _ _ _ _ L _ (lookup_push_push_proxy _ _ _) (lookup_push_push_handler _ _ _)
      (lookup_push_push_of_some _ _ _ _ _ hF)

/-- Witness for C3: `new` through `proxy(greet, "greet", "method")`. -/
theorem construct_forwarded_witness :
    (methods thisName 4).construct 6 [] 2 demoMethodWrapped
      = Reflect.construct (methods thisName 3) 2 [] 2 demoMethodWrapped ∧
    Reflect.construct (methods thisName 3) 2 [] 2 demoMethodWrapped
      = .ret 4 demoMethodWrapped :=
  ⟨(construct_forwarded thisName 3 2 2 [] (.ordinary recGreet)).2.1
    demoHeap demoMethodWrapped 6 "greet" rfl rfl, rfl⟩

/-! ## C9 -/

/-- C9. For every `kind` other than the string `"method"`, `proxy(obj, label, kind)`
is `proxy(obj, label, "object")`: it builds the record of `getObjhandler(label)`
and wraps `obj` with it; with `kind = "method"` it builds the record of
`getMethodHandler(label, obj)`. On an object target the handler cell of the
result is the object record in the first case and the method record in the
second. -/
theorem proxy_kind_default (obj : Val) (label : String) (kind : Val)
    (hk : kind ≠ .str "method") :
    proxy obj label kind = proxy obj label (.str "object") ∧
    proxy obj label kind = (getObjhandler label >>= fun hd => newProxy obj hd) ∧
    proxy obj label (.str "method")
      = (getMethodHandler label obj >>= fun hd => newProxy obj hd) ∧
    ∀ (t : Ref) (c : Obj) (h : Heap), obj = .obj t → h.lookup t = some c →
      proxy obj label kind h =
        .ret (h.objs.length + 1)
          ((h.push (.handler (.object label))).push
            (.proxy t h.objs.length c.isCallable c.isConstructor)) ∧
      proxy obj label (.str "method") h =
        .ret (h.objs.length + 1)
          ((h.push (.handler (.method label obj))).push
            (.proxy t h.objs.length c.isCallable c.isConstructor)) := by
  refine ⟨?_, ?_, ?_, ?_⟩
  · simp [proxy, hk]
  · simp [proxy, hk]
  · simp [proxy]
  · intro t c h ht hl
    subst ht
    rw [proxy_run t label kind h c hl, proxy_run t label (.str "method") h c hl]
    simp [hk]

/-- Witness for C9: `kind = undefined`. -/
theorem proxy_kind_default_witness :
    proxy (.obj 3) "root" .undefined = proxy (.obj 3) "root" (.str "object") ∧
    proxy (.obj 3) "root" .undefined demoHeap = .ret 6 demoWrapped :=
  ⟨(proxy_kind_default (.obj 3) "root" .undefined (by decide)).1,
    ((proxy_kind_default (.obj 3) "root" .undefined (by decide)).2.2.2 3 (.ordinary recO)
      demoHeap rfl rfl).1⟩

/-! ## Queries leave the heap as it is -/

theorem keepsHeap_pure {α : Type} (a : α) : (pure a : JS α).KeepsHeap := by
  intro h
  constructor
  · intro b h1 hx
    rw [pure_run] at hx
    injection hx with _ h2
    exact h2.symm
  · intro e h1 hx
    rw [pure_run] at hx
    cases hx

theorem keepsHeap_throw {α : Type} : (JS.throwTypeError : JS α).KeepsHeap := by
  intro h
  constructor
  · intro b h1 hx
    cases hx
  · intro e h1 hx
    simp only [JS.throwTypeError] at hx
    injection hx with _ h2
    exact h2.symm

theorem keepsHeap_abort {α : Type} : (JS.abort : JS α).KeepsHeap := by
  intro h
  constructor
  · intro b h1 hx
    cases hx
  · intro e h1 hx
    cases hx

theorem keepsHeap_bind {α β : Type} (x : JS α) (f : α → JS β)
    (hx : x.KeepsHeap) (hf : ∀ a, (f a).KeepsHeap) : (x >>= f).KeepsHeap := by
  intro h
  rw [bind_run]
  cases hr : x h with
  | ret a h1 =>
    have e1 : h1 = h := (hx h).1 a h1 hr
    subst e1
    exact hf a h1
  | throw e h1 =>
    have e1 : h1 = h := (hx h).2 e h1 hr
    subst e1
    constructor
    · intro b h2 hy
      cases hy
    · intro e2 h2 hy
      injection hy with _ h3
      exact h3.symm
  | abort =>
    constructor
    · intro b h2 hy
      cases hy
    · intro e2 h2 hy
      cases hy

theorem keepsHeap_ite {α : Type} (c : Prop) [Decidable c] (x y : JS α)
    (hx : x.KeepsHeap) (hy : y.KeepsHeap) : (if c then x else y).KeepsHeap := by
  split
  · exact hx
  · exact hy

theorem keepsHeap_dispatch {α : Type} (r : Ref) (ord : Ordinary → JS α)
    (prx : Handler → Ref → Bool → Bool → JS α)
    (ho : ∀ o, (ord o).KeepsHeap) (hp : ∀ x t c k, (prx x t c k).KeepsHeap) :
    (dispatch r ord prx).KeepsHeap := by
  intro h
  unfold dispatch
  cases h.lookup r with
  | none => exact keepsHeap_abort h
  | some cell =>
    cases cell with
    | ordinary o => exact ho o h
    | handler x => exact keepsHeap_abort h
    | proxy t hd c k =>
      simp only
      cases h.lookup hd with
      | none => exact keepsHeap_abort h
      | some cell2 =>
        cases cell2 with
        | ordinary o => exact keepsHeap_abort h
        | proxy _ _ _ _ => exact keepsHeap_abort h
        | handler x => exact hp x t c k h

theorem queriesKeepHeap_none : Methods.none.QueriesKeepHeap :=
  ⟨fun _ => keepsHeap_abort, fun _ => keepsHeap_abort, fun _ _ => keepsHeap_abort,
    fun _ _ => keepsHeap_abort, fun _ => keepsHeap_abort, fun _ => keepsHeap_abort⟩

theorem queriesKeepHeap_next (Φ : FunTable) (m : Methods) (hm : m.QueriesKeepHeap) :
    (Methods.next Φ m).QueriesKeepHeap := by
  constructor
  · intro r
    apply keepsHeap_dispatch
    · intro o
      exact keepsHeap_pure _
    · intro x t _ _
      cases x with
      | method L tobj => exact hm.getPrototypeOf t
      | object L =>
        refine keepsHeap_bind _ _ (hm.getPrototypeOf t) (fun a => ?_)
        refine keepsHeap_bind _ _ (hm.isExtensible t) (fun b => ?_)
        refine keepsHeap_ite _ _ _ (keepsHeap_pure _) ?_
        refine keepsHeap_bind _ _ (hm.getPrototypeOf t) (fun c => ?_)
        exact keepsHeap_ite _ _ _ (keepsHeap_pure _) keepsHeap_throw
  · intro r
    apply keepsHeap_dispatch
    · intro o
      exact keepsHeap_pure _
    · intro x t _ _
      cases x with
      | method L tobj => exact hm.isExtensible t
      | object L =>
        refine keepsHeap_bind _ _ (hm.isExtensible t) (fun a => ?_)
        refine keepsHeap_bind _ _ (hm.isExtensible t) (fun b => ?_)
        exact keepsHeap_ite _ _ _ (keepsHeap_pure _) keepsHeap_throw
  · intro r k
    apply keepsHeap_dispatch
    · intro o
      exact keepsHeap_pure _
    · intro x t _ _
      exact hm.getOwnProperty t k
  · intro r k
    apply keepsHeap_dispatch
    · intro o
      unfold ordinaryHasProperty
      cases o.getOwn k with
      | some s => exact keepsHeap_pure _
      | none =>
        cases o.proto with
        | some parent => exact hm.hasProperty parent k
        | none => exact keepsHeap_pure _
    · intro x t _ _
      cases x with
      | method L tobj => exact hm.hasProperty t k
      | object L =>
        refine keepsHeap_bind _ _ (hm.hasProperty t k) (fun a => ?_)
        refine keepsHeap_ite _ _ _ (keepsHeap_pure _) ?_
        refine keepsHeap_bind _ _ (hm.getOwnProperty t k) (fun d => ?_)
        cases d with
        | none => exact keepsHeap_pure _
        | some cur =>
          refine keepsHeap_ite _ _ _ keepsHeap_throw ?_
          refine keepsHeap_bind _ _ (hm.isExtensible t) (fun b => ?_)
          exact keepsHeap_ite _ _ _ (keepsHeap_pure _) keepsHeap_throw
  · intro r
    apply keepsHeap_dispatch
    · intro o
      exact keepsHeap_pure _
    · intro x t _ _
      exact hm.ownPropertyKeys t
  · intro v
    show (instanceofObjectStep m v).KeepsHeap
    unfold instanceofObjectStep
    cases v with
    | obj r =>
      refine keepsHeap_bind _ _ (hm.getPrototypeOf r) (fun p => ?_)
      cases p with
      | none => exact keepsHeap_pure _
      | some q =>
        intro h
        simp only
        split
        · exact keepsHeap_pure true h
        · exact hm.instanceofObject (.obj q) h
    | _ => exact keepsHeap_pure _

theorem queriesKeepHeap (Φ : FunTable) (n : Nat) : (methods Φ n).QueriesKeepHeap := by
  induction n with
  | zero => exact queriesKeepHeap_none
  | succ n ih => exact queriesKeepHeap_next Φ _ ih

/-! ## Reading through an object proxy -/

theorem hasProperty_ordinary (Φ : FunTable) (n : Nat) (h : Heap) (O : Ref) (o : Ordinary)
    (k : PropKey) (hO : h.lookup O = some (.ordinary o)) :
    (methods Φ (n + 1)).hasProperty O k h = ordinaryHasProperty (methods Φ n) o k h := by
  simp only [methods, Methods.next]
  rw [dispatch_ordinary O _ _ h o hO]

theorem isExtensible_ordinary (Φ : FunTable) (n : Nat) (h : Heap) (O : Ref) (o : Ordinary)
    (hO : h.lookup O = some (.ordinary o)) :
    (methods Φ (n + 1)).isExtensible O h = .ret o.extensible h := by
  simp only [methods, Methods.next]
  rw [dispatch_ordinary O _ _ h o hO]
  rfl

theorem getPrototypeOf_ordinary (Φ : FunTable) (n : Nat) (h : Heap) (O : Ref) (o : Ordinary)
    (hO : h.lookup O = some (.ordinary o)) :
    (methods Φ (n + 1)).getPrototypeOf O h = .ret o.proto h := by
  simp only [methods, Methods.next]
  rw [dispatch_ordinary O _ _ h o hO]
  rfl

theorem ownPropertyKeys_ordinary (Φ : FunTable) (n : Nat) (h : Heap) (O : Ref) (o : Ordinary)
    (hO : h.lookup O = some (.ordinary o)) :
    (methods Φ (n + 1)).ownPropertyKeys O h = .ret (ordinaryOwnPropertyKeys o.props) h := by
  simp only [methods, Methods.next]
  rw [dispatch_ordinary O _ _ h o hO]
  rfl

/-- A primitive value is read through an object proxy as it is read on the
target. -/
theorem read_primitive_through_proxy (Φ : FunTable) (n : Nat) (h : Heap) (P O hd : Ref)
    (c kk : Bool) (L : String) (k : PropKey) (recv v : Val) (o : Ordinary)
    (hP : h.lookup P = some (.proxy O hd c kk))
    (hH : h.lookup hd = some (.handler (.object L)))
    (hO : h.lookup O = some (.ordinary o))
    (hv : ∀ r, v ≠ .obj r)
    (hget : (methods Φ (n + 1)).get O k (.obj O) h = .ret v h) :
    (methods Φ (n + 2)).get P k recv h = .ret v h := by
  rw [get_proxy_object Φ (n + 1) h P O hd c kk L k recv hP hH]
  rw [bind_ret _ _ _ _ _ (handler_get_raw _ L O k recv v h h h hget
    (instanceof_primitive Φ n v h hv))]
  rw [bind_ret _ _ _ _ _ (getOwnProperty_ordinary Φ n h O o k hO)]
  rw [get_ordinary Φ n h O o k _ hO] at hget
  cases hown : o.getOwn k with
  | none => rfl
  | some sl =>
    cases sl with
    | data w wr e cf =>
      simp only [ordinaryGet, hown, pure_run] at hget
      injection hget with hw _
      subst hw
      simp [getInvariant, pure_run]
    | accessor g s e cf =>
      cases g <;> simp_all [getInvariant, pure_run, ordinaryGet]

theorem has_through_proxy (Φ : FunTable) (n : Nat) (h : Heap) (P O hd : Ref)
    (c kk : Bool) (L : String) (k : PropKey) (o : Ordinary)
    (hP : h.lookup P = some (.proxy O hd c kk))
    (hH : h.lookup hd = some (.handler (.object L)))
    (hO : h.lookup O = some (.ordinary o)) :
    (methods Φ (n + 2)).hasProperty P k h = (methods Φ (n + 1)).hasProperty O k h := by
  have lhs : (methods Φ (n + 2)).hasProperty P k h
      = proxyHasProperty (methods Φ (n + 1)) (.object L) O k h := by
    simp only [methods, Methods.next]
    rw [dispatch_proxy P _ _ h O hd c kk _ hP hH]
  rw [lhs]
  simp only [proxyHasProperty, handler.has, Reflect.has]
  cases hr : (methods Φ (n + 1)).hasProperty O k h with
  | abort => rw [bind_abort _ _ _ hr]
  | throw e h1 => rw [bind_throw _ _ _ _ _ hr]
  | ret b h1 =>
    have e1 : h1 = h := ((queriesKeepHeap Φ (n + 1)).hasProperty O k h).1 b h1 hr
    subst e1
    rw [bind_ret _ _ _ _ _ hr]
    cases b with
    | true => rfl
    | false =>
      simp only [Bool.false_eq_true, if_false]
      rw [bind_ret _ _ _ _ _ (getOwnProperty_ordinary Φ n h1 O o k hO)]
      rw [hasProperty_ordinary Φ n h1 O o k hO] at hr
      cases hown : o.getOwn k with
      | none => rfl
      | some sl =>
        simp only [ordinaryHasProperty, hown, pure_run] at hr
        cases hr

theorem getPrototypeOf_through_proxy (Φ : FunTable) (n : Nat) (h : Heap) (P O hd : Ref)
    (c kk : Bool) (L : String) (o : Ordinary)
    (hP : h.lookup P = some (.proxy O hd c kk))
    (hH : h.lookup hd = some (.handler (.object L)))
    (hO : h.lookup O = some (.ordinary o)) :
    (methods Φ (n + 2)).getPrototypeOf P h = .ret o.proto h := by
  have lhs : (methods Φ (n + 2)).getPrototypeOf P h
      = proxyGetPrototypeOf (methods Φ (n + 1)) (.object L) O h := by
    simp only [methods, Methods.next]
    rw [dispatch_proxy P _ _ h O hd c kk _ hP hH]
  rw [lhs]
  simp only [proxyGetPrototypeOf, handler.getPrototypeOf, Reflect.getPrototypeOf]
  rw [bind_ret _ _ _ _ _ (getPrototypeOf_ordinary Φ n h O o hO)]
  rw [bind_ret _ _ _ _ _ (isExtensible_ordinary Φ n h O o hO)]
  cases o.extensible with
  | true => rfl
  | false =>
    simp only [Bool.false_eq_true, if_false]
    rw [bind_ret _ _ _ _ _ (getPrototypeOf_ordinary Φ n h O o hO)]
    simp [pure_run]

theorem isExtensible_through_proxy (Φ : FunTable) (n : Nat) (h : Heap) (P O hd : Ref)
    (c kk : Bool) (L : String) (o : Ordinary)
    (hP : h.lookup P = some (.proxy O hd c kk))
    (hH : h.lookup hd = some (.handler (.object L)))
    (hO : h.lookup O = some (.ordinary o)) :
    (methods Φ (n + 2)).isExtensible P h = .ret o.extensible h := by
  have lhs : (methods Φ (n + 2)).isExtensible P h
      = proxyIsExtensible (methods Φ (n + 1)) (.object L) O h := by
    simp only [methods, Methods.next]
    rw [dispatch_proxy P _ _ h O hd c kk _ hP hH]
  rw [lhs]
  simp only [proxyIsExtensible, handler.isExtensible, Reflect.isExtensible]
  rw [bind_ret _ _ _ _ _ (isExtensible_ordinary Φ n h O o hO)]
  rw [bind_ret _ _ _ _ _ (isExtensible_ordinary Φ n h O o hO)]
  simp [pure_run]

theorem ownPropertyKeys_through_proxy (Φ : FunTable) (n : Nat) (h : Heap) (P O hd : Ref)
    (c kk : Bool) (x : Handler) (o : Ordinary)
    (hP : h.lookup P = some (.proxy O hd c kk))
    (hH : h.lookup hd = some (.handler x))
    (hO : h.lookup O = some (.ordinary o)) :
    (methods Φ (n + 2)).ownPropertyKeys P h = .ret (ordinaryOwnPropertyKeys o.props) h := by
  have lhs : (methods Φ (n + 2)).ownPropertyKeys P h
      = (methods Φ (n + 1)).ownPropertyKeys O h := by
    simp only [methods, Methods.next]
    rw [dispatch_proxy P _ _ h O hd c kk _ hP hH]
    rfl
  rw [lhs, ownPropertyKeys_ordinary Φ n h O o hO]

/-- Read transparency of an object proxy over an ordinary object, on the cells. -/
theorem reads_agree_on_cells (Φ : FunTable) (n : Nat) (h : Heap) (P O hd : Ref)
    (c kk : Bool) (L : String) (o : Ordinary)
    (hP : h.lookup P = some (.proxy O hd c kk))
    (hH : h.lookup hd = some (.handler (.object L)))
    (hO : h.lookup O = some (.ordinary o)) :
    (∀ (k : PropKey) (v : Val), (∀ r, v ≠ .obj r) →
      (methods Φ (n + 1)).get O k (.obj O) h = .ret v h →
      (methods Φ (n + 2)).get P k (.obj P) h = .ret v h) ∧
    ((methods Φ (n + 2)).ownPropertyKeys P h = (methods Φ (n + 1)).ownPropertyKeys O h ∧
      (methods Φ (n + 1)).ownPropertyKeys O h = .ret (ordinaryOwnPropertyKeys o.props) h) ∧
    ((methods Φ (n + 2)).getPrototypeOf P h = (methods Φ (n + 1)).getPrototypeOf O h ∧
      (methods Φ (n + 1)).getPrototypeOf O h = .ret o.proto h) ∧
    (∀ k : PropKey,
      (methods Φ (n + 2)).hasProperty P k h = (methods Φ (n + 1)).hasProperty O k h) ∧
    ((methods Φ (n + 2)).isExtensible P h = (methods Φ (n + 1)).isExtensible O h ∧
      (methods Φ (n + 1)).isExtensible O h = .ret o.extensible h) := by
  refine ⟨?_, ⟨?_, ?_⟩, ⟨?_, ?_⟩, ?_, ⟨?_, ?_⟩⟩
  · intro k v hv hget
    exact read_primitive_through_proxy Φ n h P O hd c kk L k _ v o hP hH hO hv hget
  · rw [ownPropertyKeys_through_proxy Φ n h P O hd c kk _ o hP hH hO,
      ownPropertyKeys_ordinary Φ n h O o hO]
  · exact ownPropertyKeys_ordinary Φ n h O o hO
  · rw [getPrototypeOf_through_proxy Φ n h P O hd c kk L o hP hH hO,
      getPrototypeOf_ordinary Φ n h O o hO]
  · exact getPrototypeOf_ordinary Φ n h O o hO
  · intro k
    exact has_through_proxy Φ n h P O hd c kk L k o hP hH hO
  · rw [isExtensible_through_proxy Φ n h P O hd c kk L o hP hH hO,
      isExtensible_ordinary Φ n h O o hO]
  · exact isExtensible_ordinary Φ n h O o hO

/-! ## Queries do not depend on cells added later -/

theorem extends_refl (h : Heap) : h.Extends h := ⟨rfl, fun _ _ hx => hx⟩

theorem extends_trans (h h1 h2 : Heap) (a : h.Extends h1) (b : h1.Extends h2) : h.Extends h2 :=
  ⟨b.1.trans a.1, fun r x hx => b.2 r x (a.2 r x hx)⟩

theorem extends_push (h : Heap) (o : Obj) : h.Extends (h.push o) :=
  ⟨rfl, fun r x hx => lookup_push_of_some h o x r hx⟩

theorem extends_push_push (h : Heap) (x y : Obj) : h.Extends ((h.push x).push y) :=
  extends_trans _ _ _ (extends_push h x) (extends_push _ y)

theorem stable_pure {α : Type} (a : α) : (pure a : JS α).Stable := by
  intro h h1 b _ hx
  rw [pure_run] at hx ⊢
  injection hx with e1 _
  rw [e1]

theorem stable_throw {α : Type} : (JS.throwTypeError : JS α).Stable := by
  intro h h1 b _ hx
  cases hx

theorem stable_abort {α : Type} : (JS.abort : JS α).Stable := by
  intro h h1 b _ hx
  cases hx

theorem stable_bind {α β : Type} (x : JS α) (f : α → JS β)
    (hk : x.KeepsHeap) (hx : x.Stable) (hf : ∀ a, (f a).Stable) : (x >>= f).Stable := by
  intro h h1 b hext hr
  rw [bind_run] at hr
  cases hxh : x h with
  | ret a h2 =>
    have e1 : h2 = h := (hk h).1 a h2 hxh
    subst e1
    rw [hxh] at hr
    rw [bind_ret _ _ _ _ _ (hx h2 h1 a hext hxh)]
    exact hf a h2 h1 b hext hr
  | throw e h2 =>
    rw [hxh] at hr
    cases hr
  | abort =>
    rw [hxh] at hr
    cases hr

theorem stable_ite {α : Type} (c : Prop) [Decidable c] (x y : JS α)
    (hx : x.Stable) (hy : y.Stable) : (if c then x else y).Stable := by
  split
  · exact hx
  · exact hy

theorem stable_dispatch {α : Type} (r : Ref) (ord : Ordinary → JS α)
    (prx : Handler → Ref → Bool → Bool → JS α)
    (ho : ∀ o, (ord o).Stable) (hp : ∀ x t c k, (prx x t c k).Stable) :
    (dispatch r ord prx).Stable := by
  intro h h1 b hext hr
  unfold dispatch at hr ⊢
  cases hl : h.lookup r with
  | none =>
    rw [hl] at hr
    cases hr
  | some cell =>
    rw [hl] at hr
    rw [hext.2 r cell hl]
    cases cell with
    | ordinary o => exact ho o h h1 b hext hr
    | handler x => cases hr
    | proxy t hd c k =>
      simp only at hr ⊢
      cases hl2 : h.lookup hd with
      | none =>
        rw [hl2] at hr
        cases hr
      | some cell2 =>
        rw [hl2] at hr
        rw [hext.2 hd cell2 hl2]
        cases cell2 with
        | ordinary o => cases hr
        | proxy _ _ _ _ => cases hr
        | handler x => exact hp x t c k h h1 b hext hr

theorem queriesStable_none : Methods.none.QueriesStable :=
  ⟨fun _ => stable_abort, fun _ => stable_abort, fun _ _ => stable_abort,
    fun _ => stable_abort⟩

theorem queriesStable_next (Φ : FunTable) (m : Methods) (hk : m.QueriesKeepHeap)
    (hm : m.QueriesStable) : (Methods.next Φ m).QueriesStable := by
  constructor
  · intro r
    apply stable_dispatch
    · intro o
      exact stable_pure _
    · intro x t _ _
      cases x with
      | method L tobj => exact hm.getPrototypeOf t
      | object L =>
        refine stable_bind _ _ (hk.getPrototypeOf t) (hm.getPrototypeOf t) (fun a => ?_)
        refine stable_bind _ _ (hk.isExtensible t) (hm.isExtensible t) (fun b => ?_)
        refine stable_ite _ _ _ (stable_pure _) ?_
        refine stable_bind _ _ (hk.getPrototypeOf t) (hm.getPrototypeOf t) (fun c => ?_)
        exact stable_ite _ _ _ (stable_pure _) stable_throw
  · intro r
    apply stable_dispatch
    · intro o
      exact stable_pure _
    · intro x t _ _
      cases x with
      | method L tobj => exact hm.isExtensible t
      | object L =>
        refine stable_bind _ _ (hk.isExtensible t) (hm.isExtensible t) (fun a => ?_)
        refine stable_bind _ _ (hk.isExtensible t) (hm.isExtensible t) (fun b => ?_)
        exact stable_ite _ _ _ (stable_pure _) stable_throw
  · intro r k
    apply stable_dispatch
    · intro o
      exact stable_pure _
    · intro x t _ _
      exact hm.getOwnProperty t k
  · intro v
    show (instanceofObjectStep m v).Stable
    unfold instanceofObjectStep
    cases v with
    | obj r =>
      refine stable_bind _ _ (hk.getPrototypeOf r) (hm.getPrototypeOf r) (fun p => ?_)
      cases p with
      | none => exact stable_pure _
      | some q =>
        intro h h1 b hext hr
        simp only at hr ⊢
        rw [hext.1]
        split
        · rename_i hq
          rw [if_pos hq] at hr
          injection hr with e1 _
          rw [e1]
        · rename_i hq
          rw [if_neg hq] at hr
          exact hm.instanceofObject (.obj q) h h1 b hext hr
    | _ => exact stable_pure _

theorem queriesStable (Φ : FunTable) (n : Nat) : (methods Φ n).QueriesStable := by
  induction n with
  | zero => exact queriesStable_none
  | succ n ih => exact queriesStable_next Φ _ (queriesKeepHeap Φ n) ih

/-! ## Values returned wrapped, and values returned as they are -/

/-- A value that is not `instanceof Object` is read through an object proxy as
it is read on the target. -/
theorem read_raw_through_proxy (Φ : FunTable) (n : Nat) (h : Heap) (P O hd : Ref)
    (c kk : Bool) (L : String) (k : PropKey) (recv v : Val) (o : Ordinary)
    (hP : h.lookup P = some (.proxy O hd c kk))
    (hH : h.lookup hd = some (.handler (.object L)))
    (hO : h.lookup O = some (.ordinary o))
    (hget : (methods Φ (n + 1)).get O k (.obj O) h = .ret v h)
    (hinst : (methods Φ (n + 1)).instanceofObject v h = .ret false h) :
    (methods Φ (n + 2)).get P k recv h = .ret v h := by
  rw [get_proxy_object Φ (n + 1) h P O hd c kk L k recv hP hH]
  rw [bind_ret _ _ _ _ _ (handler_get_raw _ L O k recv v h h h hget hinst)]
  rw [bind_ret _ _ _ _ _ (getOwnProperty_ordinary Φ n h O o k hO)]
  rw [get_ordinary Φ n h O o k _ hO] at hget
  cases hown : o.getOwn k with
  | none => rfl
  | some sl =>
    cases sl with
    | data w wr e cf =>
      simp only [ordinaryGet, hown, pure_run] at hget
      injection hget with hw _
      subst hw
      simp [getInvariant, pure_run]
    | accessor g s e cf =>
      cases g <;> simp_all [getInvariant, pure_run, ordinaryGet]

/-- Reading an object-valued property under a string key through an object
proxy. -/
theorem read_object_through_proxy (Φ : FunTable) (n : Nat) (h : Heap) (P O hd C : Ref)
    (c kk : Bool) (L s : String) (recv : Val) (o : Ordinary) (cc : Obj)
    (hP : h.lookup P = some (.proxy O hd c kk))
    (hH : h.lookup hd = some (.handler (.object L)))
    (hO : h.lookup O = some (.ordinary o))
    (hget : (methods Φ (n + 1)).get O (.str s) (.obj O) h = .ret (.obj C) h)
    (hinst : (methods Φ (n + 1)).instanceofObject (.obj C) h = .ret true h)
    (hC : h.lookup C = some cc) (hcall : cc.isCallable = false)
    (hfro : o.hasFrozenData (.str s) = false) :
    (methods Φ (n + 2)).get P (.str s) recv h =
      .ret (.obj (h.objs.length + 1))
        ((h.push (.handler (.object (L ++ "." ++ s)))).push
          (.proxy C h.objs.length false cc.isConstructor)) := by
  rw [get_proxy_object Φ (n + 1) h P O hd c kk L (.str s) recv hP hH]
  rw [bind_ret _ _ _ _ _ (handler_get_object _ L O C s recv h h h cc hget hinst hC hcall)]
  have hO2 : ((h.push (.handler (.object (L ++ "." ++ s)))).push
      (.proxy C h.objs.length false cc.isConstructor)).lookup O = some (.ordinary o) :=
    lookup_push_push_of_some _ _ _ _ _ hO
  rw [bind_ret _ _ _ _ _ (getOwnProperty_ordinary Φ n _ O o (.str s) hO2)]
  rw [get_ordinary Φ n h O o (.str s) _ hO] at hget
  simp only [Ordinary.hasFrozenData] at hfro
  cases hown : o.getOwn (.str s) with
  | none => rfl
  | some sl =>
    cases sl with
    | data v w e cf =>
      cases w <;> cases cf <;> simp_all [getInvariant, pure_run, Slot.frozenData]
    | accessor g st e cf =>
      cases g <;> simp_all [getInvariant, pure_run, ordinaryGet]

/-- Reading an object-valued property under a symbol key through an object
proxy: the template literal throws. -/
theorem read_symbol_object_through_proxy (Φ : FunTable) (n : Nat) (h : Heap) (P O hd C : Ref)
    (c kk : Bool) (L : String) (id : Nat) (recv : Val) (cc : Obj)
    (hP : h.lookup P = some (.proxy O hd c kk))
    (hH : h.lookup hd = some (.handler (.object L)))
    (hget : (methods Φ (n + 1)).get O (.sym id) (.obj O) h = .ret (.obj C) h)
    (hinst : (methods Φ (n + 1)).instanceofObject (.obj C) h = .ret true h)
    (hC : h.lookup C = some cc) (hcall : cc.isCallable = false) :
    (methods Φ (n + 2)).get P (.sym id) recv h = .throw .typeError h := by
  rw [get_proxy_object Φ (n + 1) h P O hd c kk L (.sym id) recv hP hH]
  rw [bind_throw _ _ _ _ _
    (handler_get_symbol_object _ L O C id recv h h h cc hget hinst hC hcall)]

/-- Reading a read-only non-configurable data property whose value is wrapped:
the proxy did not return the stored value, `[[Get]]` throws. -/
theorem read_frozen_wrapped_throws (Φ : FunTable) (n : Nat) (h h1 : Heap) (P O hd : Ref)
    (c kk : Bool) (L : String) (k : PropKey) (recv v : Val) (e : Bool) (Q : Ref) (o : Ordinary)
    (hP : h.lookup P = some (.proxy O hd c kk))
    (hH : h.lookup hd = some (.handler (.object L)))
    (hO : h1.lookup O = some (.ordinary o))
    (hown : o.getOwn k = some (.data v false e false))
    (htrap : handler.get (methods Φ (n + 1)) L O k recv h = .ret (.obj Q) h1)
    (hne : v ≠ .obj Q) :
    (methods Φ (n + 2)).get P k recv h = .throw .typeError h1 := by
  rw [get_proxy_object Φ (n + 1) h P O hd c kk L k recv hP hH]
  rw [bind_ret _ _ _ _ _ htrap]
  rw [bind_ret _ _ _ _ _ (getOwnProperty_ordinary Φ n h1 O o k hO)]
  have : (Val.obj Q != v) = true := by
    simp only [bne_iff_ne, ne_eq]
    exact fun hx => hne hx.symm
  simp [hown, getInvariant, this, JS.throwTypeError]

/-- A value that is not `instanceof Object`, read by a getter that may change the
heap, is read through an object proxy as on the target, unless the target then
pins another value for the key. -/
theorem read_raw_through_proxy_effectful (Φ : FunTable) (n : Nat) (h h1 : Heap) (P O hd : Ref)
    (c kk : Bool) (L : String) (k : PropKey) (recv v : Val) (o1 : Ordinary)
    (hP : h.lookup P = some (.proxy O hd c kk))
    (hH : h.lookup hd = some (.handler (.object L)))
    (hget : (methods Φ (n + 1)).get O k (.obj O) h = .ret v h1)
    (hinst : (methods Φ (n + 1)).instanceofObject v h1 = .ret false h1)
    (hO1 : h1.lookup O = some (.ordinary o1))
    (hpin : o1.pinsOtherThan k v = false) :
    (methods Φ (n + 2)).get P k recv h = .ret v h1 := by
  rw [get_proxy_object Φ (n + 1) h P O hd c kk L k recv hP hH]
  rw [bind_ret _ _ _ _ _ (handler_get_raw _ L O k recv v h h1 h1 hget hinst)]
  rw [bind_ret _ _ _ _ _ (getOwnProperty_ordinary Φ n h1 O o1 k hO1)]
  simp only [Ordinary.pinsOtherThan] at hpin
  cases hown : o1.getOwn k with
  | none => rfl
  | some sl =>
    rw [hown] at hpin
    cases sl with
    | data w wr e cf =>
      simp only at hpin
      simp only [getInvariant, hpin]
      rfl
    | accessor g s e cf =>
      simp only at hpin
      simp only [getInvariant, hpin]
      rfl

theorem readTransparent_of_cells (Φ : FunTable) (n : Nat) (h : Heap) (P O hd : Ref)
    (c kk : Bool) (L : String) (o : Ordinary)
    (hP : h.lookup P = some (.proxy O hd c kk))
    (hH : h.lookup hd = some (.handler (.object L)))
    (hO : h.lookup O = some (.ordinary o)) :
    ReadTransparent Φ n h P O := by
  obtain ⟨a, ⟨b, -⟩, ⟨c1, -⟩, d, ⟨e, -⟩⟩ := reads_agree_on_cells Φ n h P O hd c kk L o hP hH hO
  exact ⟨a, b, c1, d, e⟩

/-- An own data property is read as its stored value, in every heap holding
the object. -/
theorem get_own_data (Φ : FunTable) (n : Nat) (h : Heap) (O : Ref) (o : Ordinary)
    (k : PropKey) (recv v : Val) (w e c : Bool)
    (hO : h.lookup O = some (.ordinary o))
    (hown : o.getOwn k = some (.data v w e c)) :
    (methods Φ (n + 1)).get O k recv h = .ret v h := by
  rw [get_ordinary Φ n h O o k recv hO]
  simp [ordinaryGet, hown, pure_run]

/-! ## C4 -/

/-- C4. For every ordinary object `O` and `P = proxy(O, label, "object")`:
(1) a key whose value `O[k]` is a primitive reads the same through `P`;
(2) the own keys of `P` are the own keys of `O`, in the same order;
(3) the prototype of `P` is the prototype of `O`;
(4) `k in P` is `k in O`, and `P` is extensible exactly when `O` is.
The last part is (1) for a getter that changes the heap: the value and the
heap it leaves are the same through `P`, unless `O` then pins another value
for `k`. -/
theorem read_transparency (Φ : FunTable) (n : Nat) (h0 h : Heap) (P O : Ref) (label : String)
    (o : Ordinary)
    (hO : h0.lookup O = some (.ordinary o))
    (hwrap : proxy (.obj O) label (.str "object") h0 = .ret P h) :
    (∀ (k : PropKey) (v : Val), (∀ r, v ≠ .obj r) →
      (methods Φ (n + 1)).get O k (.obj O) h = .ret v h →
      (methods Φ (n + 2)).get P k (.obj P) h = .ret v h) ∧
    ((methods Φ (n + 2)).ownPropertyKeys P h = (methods Φ (n + 1)).ownPropertyKeys O h ∧
      (methods Φ (n + 1)).ownPropertyKeys O h = .ret (ordinaryOwnPropertyKeys o.props) h) ∧
    ((methods Φ (n + 2)).getPrototypeOf P h = (methods Φ (n + 1)).getPrototypeOf O h ∧
      (methods Φ (n + 1)).getPrototypeOf O h = .ret o.proto h) ∧
    (∀ k : PropKey,
      (methods Φ (n + 2)).hasProperty P k h = (methods Φ (n + 1)).hasProperty O k h) ∧
    ((methods Φ (n + 2)).isExtensible P h = (methods Φ (n + 1)).isExtensible O h ∧
      (methods Φ (n + 1)).isExtensible O h = .ret o.extensible h) ∧
    (∀ (k : PropKey) (v : Val) (h1 : Heap) (o1 : Ordinary), (∀ r, v ≠ .obj r) →
      (methods Φ (n + 1)).get O k (.obj O) h = .ret v h1 →
      h1.lookup O = some (.ordinary o1) → o1.pinsOtherThan k v = false →
      (methods Φ (n + 2)).get P k (.obj P) h = .ret v h1) := by
  obtain ⟨hP, hH, hold, -, -⟩ :=
    proxy_object_cells O label (.str "object") h0 h P _ (by decide) hO hwrap
  obtain ⟨a1, a2, a3, a4, a5⟩ := reads_agree_on_cells Φ n h P O _ _ _ label o hP hH (hold O _ hO)
  refine ⟨a1, a2, a3, a4, a5, ?_⟩
  intro k v h1 o1 hv hget hO1 hpin
  exact read_raw_through_proxy_effectful Φ n h h1 P O _ _ _ label k _ v o1 hP hH hget
    (instanceof_primitive Φ n v h1 hv) hO1 hpin

/-- Witness for C4: `P.name` is `"orig"`, and the keys, prototype, `in` and
extensibility of `P` are those of `O`. -/
theorem read_transparency_witness :
    (methods thisName 4).get 6 (.str "name") (.obj 6) demoWrapped
      = .ret (.str "orig") demoWrapped ∧
    (methods thisName 4).ownPropertyKeys 6 demoWrapped
      = (methods thisName 3).ownPropertyKeys 3 demoWrapped ∧
    (methods thisName 4).getPrototypeOf 6 demoWrapped = .ret (some 0) demoWrapped ∧
    (methods thisName 4).hasProperty 6 (.str "greet") demoWrapped
      = (methods thisName 3).hasProperty 3 (.str "greet") demoWrapped ∧
    (methods thisName 4).isExtensible 6 demoWrapped = .ret true demoWrapped :=
  have t := read_transparency thisName 2 demoHeap demoWrapped 6 3 "root" recO rfl rfl
  ⟨t.1 (.str "name") (.str "orig") (by intro r; simp) rfl, t.2.1.1,
    t.2.2.1.1.trans t.2.2.1.2, t.2.2.2.1 (.str "greet"), t.2.2.2.2.1.1.trans t.2.2.2.2.1.2⟩

/-! ## C5 -/

/-- C5, as amended. Let `P = proxy(O, L, "object")` for an ordinary object `O`, and
let `O[a]`, for a string key `a`, be an ordinary non-callable object `C` with
`C instanceof Object`, where `a` is not a read-only non-configurable own data
property of `O`. Then a read of `P[a]` returns a new object proxy over `C` with
label `L + "." + a`, never `C` itself; a second read returns another new proxy
with its own handler record; and both are read-transparent with respect to
`C`. -/
theorem nested_wrapping_without_caching (Φ : FunTable) (n : Nat) (h0 h : Heap)
    (P O C : Ref) (L a : String) (o co : Ordinary)
    (hO : h0.lookup O = some (.ordinary o))
    (hwrap : proxy (.obj O) L (.str "object") h0 = .ret P h)
    (hC : h.lookup C = some (.ordinary co)) (hnc : co.call = none)
    (hget : ∀ h1, h.Extends h1 →
      (methods Φ (n + 1)).get O (.str a) (.obj O) h1 = .ret (.obj C) h1)
    (hinst : (methods Φ (n + 1)).instanceofObject (.obj C) h = .ret true h)
    (hfro : o.hasFrozenData (.str a) = false) :
    ∃ Q1 Q2 hd1 hd2 h1 h2,
      (methods Φ (n + 2)).get P (.str a) (.obj P) h = .ret (.obj Q1) h1 ∧
      (methods Φ (n + 2)).get P (.str a) (.obj P) h1 = .ret (.obj Q2) h2 ∧
      Q1 ≠ C ∧ Q2 ≠ C ∧ Q1 ≠ Q2 ∧ hd1 ≠ hd2 ∧
      h.lookup Q1 = none ∧ h.lookup hd1 = none ∧ h1.lookup Q2 = none ∧ h1.lookup hd2 = none ∧
      h2.lookup Q1 = some (.proxy C hd1 false co.ctor) ∧
      h2.lookup hd1 = some (.handler (.object (L ++ "." ++ a))) ∧
      h2.lookup Q2 = some (.proxy C hd2 false co.ctor) ∧
      h2.lookup hd2 = some (.handler (.object (L ++ "." ++ a))) ∧
      (∀ j, ReadTransparent Φ j h1 Q1 C) ∧
      (∀ j, ReadTransparent Φ j h2 Q1 C) ∧ (∀ j, ReadTransparent Φ j h2 Q2 C) := by
  obtain ⟨hP, hH, hold, -, -⟩ :=
    proxy_object_cells O L (.str "object") h0 h P _ (by decide) hO hwrap
  have hO1 : h.lookup O = some (.ordinary o) := hold O _ hO
  have hcall : (Obj.ordinary co).isCallable = false := by simp [Obj.isCallable, hnc]
  have hlt : C < h.objs.length := lookup_lt h C _ hC
  have n1 : ∀ x : Nat, x + 1 ≠ x + 2 + 1 := by intro x; omega
  have n2 : ∀ x : Nat, x ≠ x + 2 := by intro x; omega
  -- first read
  have r1 := read_object_through_proxy Φ n h P O _ C _ _ L a (.obj P) o (.ordinary co)
    hP hH hO1 (hget h (extends_refl h)) hinst hC hcall hfro
  -- the heap after the first read
  have ext1 := extends_push_push h (.handler (.object (L ++ "." ++ a)))
    (.proxy C h.objs.length false (Obj.ordinary co).isConstructor)
  have hlen1 : ((h.push (.handler (.object (L ++ "." ++ a)))).push
      (.proxy C h.objs.length false (Obj.ordinary co).isConstructor)).objs.length
      = h.objs.length + 2 := by simp [length_push]
  -- second read
  have r2 := read_object_through_proxy Φ n _ P O _ C _ _ L a (.obj P) o (.ordinary co)
    (ext1.2 _ _ hP) (ext1.2 _ _ hH) (ext1.2 _ _ hO1) (hget _ ext1)
    ((queriesStable Φ (n + 1)).instanceofObject (.obj C) h _ true ext1 hinst)
    (ext1.2 _ _ hC) hcall hfro
  rw [hlen1] at r2
  refine ⟨h.objs.length + 1, h.objs.length + 2 + 1, h.objs.length, h.objs.length + 2, _, _,
    r1, r2, Nat.ne_of_gt (Nat.lt_succ_of_lt hlt),
    Nat.ne_of_gt (Nat.lt_of_lt_of_le hlt (Nat.le_trans (Nat.le_add_right _ 2)
      (Nat.le_add_right _ 1))),
    n1 _, n2 _,
    lookup_ge_none _ _ (by omega), lookup_ge_none _ _ (by omega),
    lookup_ge_none _ _ (by omega), lookup_ge_none _ _ (by omega), ?_, ?_, ?_, ?_, ?_, ?_, ?_⟩
  · exact lookup_push_push_of_some _ _ _ _ _ (lookup_push_push_proxy _ _ _)
  · exact lookup_push_push_of_some _ _ _ _ _ (lookup_push_push_handler _ _ _)
  · have := lookup_push_push_proxy ((h.push (.handler (.object (L ++ "." ++ a)))).push
      (.proxy C h.objs.length false (Obj.ordinary co).isConstructor))
      (.handler (.object (L ++ "." ++ a)))
      (.proxy C (h.objs.length + 2) false (Obj.ordinary co).isConstructor)
    rwa [hlen1] at this
  · have := lookup_push_push_handler ((h.push (.handler (.object (L ++ "." ++ a)))).push
      (.proxy C h.objs.length false (Obj.ordinary co).isConstructor))
      (.handler (.object (L ++ "." ++ a)))
      (.proxy C (h.objs.length + 2) false (Obj.ordinary co).isConstructor)
    rwa [hlen1] at this
  · intro j
    exact readTransparent_of_cells Φ j _ _ C _ _ _ _ co (lookup_push_push_proxy _ _ _)
      (lookup_push_push_handler _ _ _) (ext1.2 _ _ hC)
  · intro j
    exact readTransparent_of_cells Φ j _ _ C _ _ _ _ co
      (lookup_push_push_of_some _ _ _ _ _ (lookup_push_push_proxy _ _ _))
      (lookup_push_push_of_some _ _ _ _ _ (lookup_push_push_handler _ _ _))
      (lookup_push_push_of_some _ _ _ _ _ (ext1.2 _ _ hC))
  · intro j
    have a1 := lookup_push_push_proxy ((h.push (.handler (.object (L ++ "." ++ a)))).push
      (.proxy C h.objs.length false (Obj.ordinary co).isConstructor))
      (.handler (.object (L ++ "." ++ a)))
      (.proxy C (h.objs.length + 2) false (Obj.ordinary co).isConstructor)
    have a2 := lookup_push_push_handler ((h.push (.handler (.object (L ++ "." ++ a)))).push
      (.proxy C h.objs.length false (Obj.ordinary co).isConstructor))
      (.handler (.object (L ++ "." ++ a)))
      (.proxy C (h.objs.length + 2) false (Obj.ordinary co).isConstructor)
    rw [hlen1] at a1 a2
    exact readTransparent_of_cells Φ j _ _ C _ _ _ _ co a1 a2
      (lookup_push_push_of_some _ _ _ _ _ (ext1.2 _ _ hC))

/-- Witness for C5: `O = { a: { x: 1 } }`, `P = proxy(O, "root", "object")`, two
reads of `P.a`. -/
theorem nested_wrapping_without_caching_witness :
    ∃ Q1 Q2 hd1 hd2 h1 h2,
      (methods thisName 3).get 4 (.str "a") (.obj 4) nestedWrapped = .ret (.obj Q1) h1 ∧
      (methods thisName 3).get 4 (.str "a") (.obj 4) h1 = .ret (.obj Q2) h2 ∧
      Q1 ≠ 1 ∧ Q2 ≠ 1 ∧ Q1 ≠ Q2 ∧ hd1 ≠ hd2 ∧
      nestedWrapped.lookup Q1 = none ∧ nestedWrapped.lookup hd1 = none ∧
      h1.lookup Q2 = none ∧ h1.lookup hd2 = none ∧
      h2.lookup Q1 = some (.proxy 1 hd1 false recChild.ctor) ∧
      h2.lookup hd1 = some (.handler (.object ("root" ++ "." ++ "a"))) ∧
      h2.lookup Q2 = some (.proxy 1 hd2 false recChild.ctor) ∧
      h2.lookup hd2 = some (.handler (.object ("root" ++ "." ++ "a"))) ∧
      (∀ j, ReadTransparent thisName j h1 Q1 1) ∧
      (∀ j, ReadTransparent thisName j h2 Q1 1) ∧ (∀ j, ReadTransparent thisName j h2 Q2 1) :=
  nested_wrapping_without_caching thisName 1 nestedHeap nestedWrapped 4 2 1 "root" "a"
    recParent recChild rfl rfl rfl rfl
    (fun h1 e => get_own_data thisName 1 h1 2 recParent (.str "a") (.obj 2) (.obj 1)
      true true true (e.2 2 _ rfl) rfl)
    rfl rfl

/-- Counterexample to C5 as stated. (1) `child = Object.create(null)`: `O.a` is
the ordinary non-callable object `child`, and `P.a` is `child` itself, not a
proxy. (2) `O` frozen: `O.a` is `child`, and reading `P.a` throws a `TypeError`. -/
theorem nested_wrapping_unrestricted_fails :
    ((methods thisName 3).get 2 (.str "a") (.obj 2) nullProtoHeap
        = .ret (.obj 1) nullProtoHeap ∧
      ((proxy (.obj 2) "root" (.str "object") >>= fun P =>
          (methods thisName 4).get P (.str "a") (.obj P)) nullProtoHeap).completion
        = .value (.obj 1)) ∧
    ((methods thisName 3).get 2 (.str "a") (.obj 2) frozenNestedHeap
        = .ret (.obj 1) frozenNestedHeap ∧
      ((proxy (.obj 2) "root" (.str "object") >>= fun P =>
          (methods thisName 4).get P (.str "a") (.obj P)) frozenNestedHeap).completion
        = .error .typeError) := by
  refine ⟨⟨rfl, rfl⟩, rfl, rfl⟩

/-! ## C6 -/

/-- C6, as amended. Let `P = proxy(O, label, "object")` for an ordinary object `O`
and let `O[k]` be an object `V`, for a string or symbol key `k`.
If `V instanceof Object` and `k` is not a read-only non-configurable own data
property of `O`, then: when `V` is callable, `P[k]` is a new method proxy over `V`
whose handler holds `target_obj = O`; when `V` is not callable and `k` is a string
`s`, `P[k]` is a new object proxy over `V` labelled `label + "." + s`; in both
cases not `V` itself. If `V` is not `instanceof Object`, `P[k]` is `V` itself. -/
theorem wrapping_covers_instances_of_Object (Φ : FunTable) (n : Nat) (h0 h : Heap)
    (P O V : Ref) (label : String) (k : PropKey) (o : Ordinary) (vc : Obj)
    (hO : h0.lookup O = some (.ordinary o))
    (hwrap : proxy (.obj O) label (.str "object") h0 = .ret P h)
    (hget : (methods Φ (n + 1)).get O k (.obj O) h = .ret (.obj V) h)
    (hV : h.lookup V = some vc) :
    ((methods Φ (n + 1)).instanceofObject (.obj V) h = .ret true h →
      o.hasFrozenData k = false →
      (vc.isCallable = true →
        ∃ Q hd h1, (methods Φ (n + 2)).get P k (.obj P) h = .ret (.obj Q) h1 ∧
          Q ≠ V ∧ h.lookup Q = none ∧
          h1.lookup Q = some (.proxy V hd true vc.isConstructor) ∧
          h1.lookup hd = some (.handler (.method label (.obj O)))) ∧
      (vc.isCallable = false → ∀ s, k = .str s →
        ∃ Q hd h1, (methods Φ (n + 2)).get P k (.obj P) h = .ret (.obj Q) h1 ∧
          Q ≠ V ∧ h.lookup Q = none ∧
          h1.lookup Q = some (.proxy V hd false vc.isConstructor) ∧
          h1.lookup hd = some (.handler (.object (label ++ "." ++ s))))) ∧
    ((methods Φ (n + 1)).instanceofObject (.obj V) h = .ret false h →
      (methods Φ (n + 2)).get P k (.obj P) h = .ret (.obj V) h) := by
  obtain ⟨hP, hH, hold, -, -⟩ :=
    proxy_object_cells O label (.str "object") h0 h P _ (by decide) hO hwrap
  have hO1 : h.lookup O = some (.ordinary o) := hold O _ hO
  have hlt : V < h.objs.length := lookup_lt h V _ hV
  refine ⟨fun hinst hfro => ⟨fun hcall => ?_, fun hcall s hk => ?_⟩, fun hinst => ?_⟩
  · exact ⟨h.objs.length + 1, h.objs.length, _,
      read_function_through_proxy Φ n h P O _ V _ _ label k (.obj P) o vc
        hP hH hO1 hget hinst hV hcall hfro,
      Nat.ne_of_gt (Nat.lt_succ_of_lt hlt), lookup_ge_none _ _ (by omega),
      lookup_push_push_proxy _ _ _, lookup_push_push_handler _ _ _⟩
  · subst hk
    exact ⟨h.objs.length + 1, h.objs.length, _,
      read_object_through_proxy Φ n h P O _ V _ _ label s (.obj P) o vc
        hP hH hO1 hget hinst hV hcall hfro,
      Nat.ne_of_gt (Nat.lt_succ_of_lt hlt), lookup_ge_none _ _ (by omega),
      lookup_push_push_proxy _ _ _, lookup_push_push_handler _ _ _⟩
  · exact read_raw_through_proxy Φ n h P O _ _ _ label k (.obj P) (.obj V) o hP hH hO1 hget hinst

/-- Witness for C6: `P.greet` on the page `O = { greet, name }` is a new method
proxy bound to `O`. -/
theorem wrapping_covers_instances_of_Object_witness :
    ∃ Q hd h1, (methods thisName 4).get 6 (.str "greet") (.obj 6) demoWrapped = .ret (.obj Q) h1 ∧
      Q ≠ 2 ∧ demoWrapped.lookup Q = none ∧
      h1.lookup Q = some (.proxy 2 hd true (Obj.ordinary recGreet).isConstructor) ∧
      h1.lookup hd = some (.handler (.method "root" (.obj 3))) :=
  ((wrapping_covers_instances_of_Object thisName 2 demoHeap demoWrapped 6 3 2 "root"
    (.str "greet") recO (.ordinary recGreet) rfl rfl rfl rfl).1 rfl rfl).1 rfl

/-- Counterexample to C6 as stated. (1) `O.a` is an object with a null prototype:
`P.a` is that object itself. (2) `O.greet` is a function with a null prototype:
`P.greet` is that function itself. (3) `O[s]`, for a symbol `s`, is a plain
object: reading `P[s]` throws a `TypeError` and returns no proxy. -/
theorem wrapping_misses_some_objects :
    ((methods thisName 3).get 2 (.str "a") (.obj 2) nullProtoHeap
        = .ret (.obj 1) nullProtoHeap ∧
      ((proxy (.obj 2) "root" (.str "object") >>= fun P =>
          (methods thisName 4).get P (.str "a") (.obj P)) nullProtoHeap).completion
        = .value (.obj 1)) ∧
    ((methods thisName 3).get 3 (.str "greet") (.obj 3) bareHeap = .ret (.obj 2) bareHeap ∧
      ((proxy (.obj 3) "root" (.str "object") >>= fun P =>
          (methods thisName 4).get P (.str "greet") (.obj P)) bareHeap).completion
        = .value (.obj 2)) ∧
    ((methods thisName 3).get 2 (.sym 0) (.obj 2) symbolHeap = .ret (.obj 1) symbolHeap ∧
      ((proxy (.obj 2) "root" (.str "object") >>= fun P =>
          (methods thisName 4).get P (.sym 0) (.obj P)) symbolHeap).completion
        = .error .typeError) := by
  refine ⟨⟨rfl, rfl⟩, ⟨rfl, rfl⟩, rfl, rfl⟩

/-! ## Defining a property: the stored property agrees with the descriptor -/

theorem agrees_after_apply (ext : Bool) (d : Desc) (cur : Option Slot) (s : Slot)
    (hvalid : (d.isAccessor && d.isData) = false)
    (hs : validateAndApply ext d cur = some s) : d.agrees s := by
  rcases d with ⟨dv, dw, dg, ds, de, dc⟩
  cases cur with
  | none =>
    cases ext <;> cases dv <;> cases dw <;> cases dg <;> cases ds <;> cases de <;> cases dc <;>
      simp_all [validateAndApply, Desc.isAccessor, Desc.isData] <;>
      (subst hs; simp [Desc.agrees])
  | some c0 =>
    cases c0 <;> cases dv <;> cases dw <;> cases dg <;> cases ds <;> cases de <;> cases dc <;>
      simp_all [validateAndApply, Desc.isAccessor, Desc.isData, Desc.isEmpty, applyDesc] <;>
      (try (obtain ⟨-, hs⟩ := hs)) <;> (try subst hs) <;> simp_all [Desc.agrees]

theorem not_refused_of_agrees (d : Desc) (s : Slot) (ha : d.agrees s)
    (hc : s.configurable = false) : refusedByNonConfigurable d s = false := by
  rcases d with ⟨dv, dw, dg, ds, de, dc⟩
  cases s with
  | data v w e c =>
    obtain ⟨h1, h2, h3, h4, h5, h6⟩ := ha
    simp only [Slot.configurable] at hc
    subst hc
    simp only at h1 h2 h3 h4 h5 h6
    subst h1 h2
    cases dv <;> cases dw <;> cases de <;> cases dc <;>
      simp_all [refusedByNonConfigurable, Desc.isAccessor]
  | accessor g st e c =>
    obtain ⟨h1, h2, h3, h4, h5, h6⟩ := ha
    simp only [Slot.configurable] at hc
    subst hc
    simp only at h1 h2 h3 h4 h5 h6
    subst h1 h2
    cases dg <;> cases ds <;> cases de <;> cases dc <;>
      simp_all [refusedByNonConfigurable, Desc.isData]

/-- After an ordinary target accepted the definition, the checks of Proxy
`[[DefineOwnProperty]]` pass. -/
theorem defineInvariant_after_apply (ext : Bool) (d : Desc) (cur : Option Slot) (s : Slot)
    (hvalid : (d.isAccessor && d.isData) = false)
    (hs : validateAndApply ext d cur = some s) (h : Heap) :
    defineInvariant d (some s) ext h = .ret true h := by
  have ha := agrees_after_apply ext d cur s hvalid hs
  have hcompat : isCompatiblePropertyDescriptor ext d (some s) = true := by
    simp only [isCompatiblePropertyDescriptor, validateAndApply]
    split
    · rfl
    · cases hc : s.configurable with
      | true => simp
      | false => simp [not_refused_of_agrees d s ha hc]
  have hconf : (d.configurable == some false && s.configurable) = false := by
    cases hd : d.configurable with
    | none => simp
    | some x =>
      cases s with
      | data v w e c =>
        have := ha.2.2.2.2.2 x hd
        subst this
        cases x <;> simp [Slot.configurable]
      | accessor g st e c =>
        have := ha.2.2.2.2.2 x hd
        subst this
        cases x <;> simp [Slot.configurable]
  simp only [defineInvariant, hcompat, hconf]
  cases s with
  | accessor g st e c => rfl
  | data v w e c =>
    cases hd : d.writable with
    | none => simp [pure_run]
    | some x =>
      have := ha.2.2.2.1 x hd
      subst this
      cases x <;> simp [pure_run]

/-! ## Writing through an object proxy -/

theorem lookup_update_same (h : Heap) (r : Ref) (x y : Obj) (hl : h.lookup r = some x) :
    (h.update r y).lookup r = some y := by
  have hr := lookup_lt h r x hl
  simp [Heap.update, Heap.lookup, List.getElem?_set_self hr]

theorem lookup_setProp (ps : List (PropKey × Slot)) (k : PropKey) (s : Slot) :
    (setProp ps k s).lookup k = some s := by
  induction ps with
  | nil => simp [setProp, List.lookup]
  | cons p ps ih =>
    obtain ⟨k1, s1⟩ := p
    by_cases hk : k1 = k
    · simp [setProp, hk, List.lookup]
    · have hk2 : (k == k1) = false := by
        simp only [beq_eq_false_iff_ne, ne_eq]
        exact fun hx => hk hx.symm
      simp [setProp, hk, List.lookup, hk2, ih]

theorem lookup_removeProp (ps : List (PropKey × Slot)) (k : PropKey) :
    (removeProp ps k).lookup k = none := by
  induction ps with
  | nil => simp [removeProp, List.lookup]
  | cons p ps ih =>
    obtain ⟨k1, s1⟩ := p
    by_cases hk : k1 = k
    · subst hk
      simpa [removeProp] using ih
    · have hk2 : (k == k1) = false := by
        simp only [beq_eq_false_iff_ne, ne_eq]
        exact fun hx => hk hx.symm
      have hk3 : (k1 != k) = true := by simp [hk]
      simp only [removeProp, List.filter_cons, hk3, if_true, List.lookup, hk2]
      simpa [removeProp] using ih

theorem defineOwnProperty_ordinary (Φ : FunTable) (n : Nat) (h : Heap) (O : Ref)
    (o : Ordinary) (k : PropKey) (d : Desc) (hO : h.lookup O = some (.ordinary o)) :
    (methods Φ (n + 1)).defineOwnProperty O k d h = ordinaryDefineOwnProperty O o k d h := by
  simp only [methods, Methods.next]
  rw [dispatch_ordinary O _ _ h o hO]

theorem delete_ordinary (Φ : FunTable) (n : Nat) (h : Heap) (O : Ref)
    (o : Ordinary) (k : PropKey) (hO : h.lookup O = some (.ordinary o)) :
    (methods Φ (n + 1)).delete O k h = ordinaryDelete O o k h := by
  simp only [methods, Methods.next]
  rw [dispatch_ordinary O _ _ h o hO]

/-- What `OrdinaryDefineOwnProperty` returns. -/
theorem ordinaryDefineOwnProperty_run (O : Ref) (o : Ordinary) (k : PropKey) (d : Desc)
    (h : Heap) :
    ordinaryDefineOwnProperty O o k d h =
      match validateAndApply o.extensible d (o.getOwn k) with
      | some s => .ret true (h.update O (.ordinary { o with props := setProp o.props k s }))
      | none => .ret false h := by
  unfold ordinaryDefineOwnProperty
  cases validateAndApply o.extensible d (o.getOwn k) <;> rfl

/-- `[[DefineOwnProperty]]` through an object proxy is `[[DefineOwnProperty]]` on
the target. -/
theorem define_through_proxy (Φ : FunTable) (n : Nat) (h : Heap) (P O hd : Ref)
    (c kk : Bool) (L : String) (k : PropKey) (d : Desc) (o : Ordinary)
    (hP : h.lookup P = some (.proxy O hd c kk))
    (hH : h.lookup hd = some (.handler (.object L)))
    (hO : h.lookup O = some (.ordinary o))
    (hvalid : (d.isAccessor && d.isData) = false) :
    (methods Φ (n + 2)).defineOwnProperty P k d h
      = (methods Φ (n + 1)).defineOwnProperty O k d h := by
  have lhs : (methods Φ (n + 2)).defineOwnProperty P k d h
      = proxyDefineOwnProperty (methods Φ (n + 1)) (.object L) O k d h := by
    simp only [methods, Methods.next]
    rw [dispatch_proxy P _ _ h O hd c kk _ hP hH]
  rw [lhs]
  simp only [proxyDefineOwnProperty, handler.defineProperty, Reflect.defineProperty, hvalid,
    Bool.false_eq_true, if_false]
  rw [defineOwnProperty_ordinary Φ n h O o k d hO, ordinaryDefineOwnProperty_run]
  cases hs : validateAndApply o.extensible d (o.getOwn k) with
  | none =>
    rw [bind_ret _ _ _ _ _
      (by rw [defineOwnProperty_ordinary Φ n h O o k d hO, ordinaryDefineOwnProperty_run, hs])]
    rfl
  | some s =>
    rw [bind_ret _ _ _ _ _
      (by rw [defineOwnProperty_ordinary Φ n h O o k d hO, ordinaryDefineOwnProperty_run, hs])]
    simp only [if_true]
    have hO2 := lookup_update_same h O _
      (.ordinary { o with props := setProp o.props k s }) hO
    rw [bind_ret _ _ _ _ _ (getOwnProperty_ordinary Φ n _ O _ k hO2)]
    rw [bind_ret _ _ _ _ _ (isExtensible_ordinary Φ n _ O _ hO2)]
    simp only [Ordinary.getOwn, lookup_setProp]
    exact defineInvariant_after_apply o.extensible d (o.getOwn k) s hvalid hs _

/-- `[[Delete]]` through an object proxy is `[[Delete]]` on the target. -/
theorem delete_through_proxy (Φ : FunTable) (n : Nat) (h : Heap) (P O hd : Ref)
    (c kk : Bool) (L : String) (k : PropKey) (o : Ordinary)
    (hP : h.lookup P = some (.proxy O hd c kk))
    (hH : h.lookup hd = some (.handler (.object L)))
    (hO : h.lookup O = some (.ordinary o)) :
    (methods Φ (n + 2)).delete P k h = (methods Φ (n + 1)).delete O k h := by
  have lhs : (methods Φ (n + 2)).delete P k h
      = proxyDelete (methods Φ (n + 1)) (.object L) O k h := by
    simp only [methods, Methods.next]
    rw [dispatch_proxy P _ _ h O hd c kk _ hP hH]
  rw [lhs]
  simp only [proxyDelete, handler.deleteProperty, Reflect.deleteProperty]
  cases hown : o.getOwn k with
  | none =>
    have e1 : (methods Φ (n + 1)).delete O k h = .ret true h := by
      rw [delete_ordinary Φ n h O o k hO]
      simp [ordinaryDelete, hown, pure_run]
    rw [bind_ret _ _ _ _ _ e1, e1]
    simp only [if_true]
    rw [bind_ret _ _ _ _ _ (getOwnProperty_ordinary Φ n h O o k hO), hown]
    rfl
  | some s =>
    cases hc : s.configurable with
    | false =>
      have e1 : (methods Φ (n + 1)).delete O k h = .ret false h := by
        rw [delete_ordinary Φ n h O o k hO]
        simp [ordinaryDelete, hown, hc, pure_run]
      rw [bind_ret _ _ _ _ _ e1, e1]
      rfl
    | true =>
      have e1 : (methods Φ (n + 1)).delete O k h
          = .ret true (h.update O (.ordinary { o with props := removeProp o.props k })) := by
        rw [delete_ordinary Φ n h O o k hO]
        simp [ordinaryDelete, hown, hc, pure_run, bind_run, putCell]
      rw [bind_ret _ _ _ _ _ e1, e1]
      simp only [if_true]
      have hO2 := lookup_update_same h O _
        (.ordinary { o with props := removeProp o.props k }) hO
      rw [bind_ret _ _ _ _ _ (getOwnProperty_ordinary Φ n _ O _ k hO2)]
      simp only [Ordinary.getOwn, lookup_removeProp]
      rfl

theorem set_ordinary (Φ : FunTable) (n : Nat) (h : Heap) (O : Ref) (o : Ordinary)
    (k : PropKey) (v recv : Val) (hO : h.lookup O = some (.ordinary o)) :
    (methods Φ (n + 1)).set O k v recv h = ordinarySet (methods Φ n) o k v recv h := by
  simp only [methods, Methods.next]
  rw [dispatch_ordinary O _ _ h o hO]

/-- An assignment that meets only data properties on a chain of ordinary
objects either is refused or lands on the receiver. -/
theorem set_along_data_chain (Φ : FunTable) (h : Heap) (k : PropKey) (v recv : Val)
    (result : Outcome Bool) (b : Nat)
    (hres : ∀ j, b ≤ j → setOnReceiver (methods Φ j) k v recv h = result) :
    ∀ (d : Nat) (X : Ref) (o : Ordinary) (w : Bool) (N : Nat),
      h.lookup X = some (.ordinary o) → dataChain h k d o = some w → d + b ≤ N →
      (methods Φ (N + 1)).set X k v recv h = if w then result else .ret false h := by
  intro d
  induction d with
  | zero =>
    intro X o w N hX hd hN
    rw [set_ordinary Φ N h X o k v recv hX]
    simp only [dataChain] at hd
    unfold ordinarySet
    have hb : b ≤ N := by omega
    cases hown : o.getOwn k with
    | none =>
      rw [hown] at hd
      cases hp : o.proto with
      | none =>
        rw [hp] at hd
        injection hd with hw
        subst hw
        simp [hres N hb]
      | some parent =>
        rw [hp] at hd
        cases hd
    | some s =>
      rw [hown] at hd
      cases s with
      | accessor g st e c => cases hd
      | data cur wr e c =>
        injection hd with hw
        subst hw
        cases wr <;> simp [hres N hb, pure_run]
  | succ d ih =>
    intro X o w N hX hd hN
    rw [set_ordinary Φ N h X o k v recv hX]
    simp only [dataChain] at hd
    unfold ordinarySet
    have hb : b ≤ N := by omega
    cases hown : o.getOwn k with
    | none =>
      rw [hown] at hd
      cases hp : o.proto with
      | none =>
        rw [hp] at hd
        injection hd with hw
        subst hw
        simp [hres N hb]
      | some parent =>
        rw [hp] at hd
        simp only at hd ⊢
        cases hpl : h.lookup parent with
        | none =>
          rw [hpl] at hd
          cases hd
        | some cell =>
          rw [hpl] at hd
          cases cell with
          | ordinary po =>
            simp only at hd
            obtain ⟨M, hM⟩ : ∃ M, N = M + 1 := ⟨N - 1, by omega⟩
            subst hM
            exact ih parent po w M hpl hd (by omega)
          | proxy _ _ _ _ => cases hd
          | handler _ => cases hd
    | some s =>
      rw [hown] at hd
      cases s with
      | accessor g st e c => cases hd
      | data cur wr e c =>
        injection hd with hw
        subst hw
        cases wr <;> simp [hres N hb, pure_run]

theorem setOnReceiver_ordinary (Φ : FunTable) (j : Nat) (h : Heap) (O : Ref) (o : Ordinary)
    (k : PropKey) (v : Val) (hO : h.lookup O = some (.ordinary o)) (hj : 1 ≤ j) :
    setOnReceiver (methods Φ j) k v (.obj O) h = landOnOrdinary O o k v h := by
  obtain ⟨i, hi⟩ : ∃ i, j = i + 1 := ⟨j - 1, by omega⟩
  subst hi
  simp only [setOnReceiver, landOnOrdinary]
  rw [bind_ret _ _ _ _ _ (getOwnProperty_ordinary Φ i h O o k hO)]
  cases hown : o.getOwn k with
  | none => exact defineOwnProperty_ordinary Φ i h O o k _ hO
  | some s =>
    cases s with
    | accessor g st e c => rfl
    | data cur wr e c =>
      cases wr with
      | false => rfl
      | true => exact defineOwnProperty_ordinary Φ i h O o k _ hO

theorem getOwnProperty_through_proxy (Φ : FunTable) (n : Nat) (h : Heap) (P O hd : Ref)
    (c kk : Bool) (x : Handler) (k : PropKey) (o : Ordinary)
    (hP : h.lookup P = some (.proxy O hd c kk))
    (hH : h.lookup hd = some (.handler x))
    (hO : h.lookup O = some (.ordinary o)) :
    (methods Φ (n + 2)).getOwnProperty P k h = .ret (o.getOwn k) h := by
  have lhs : (methods Φ (n + 2)).getOwnProperty P k h
      = (methods Φ (n + 1)).getOwnProperty O k h := by
    simp only [methods, Methods.next]
    rw [dispatch_proxy P _ _ h O hd c kk _ hP hH]
    rfl
  rw [lhs, getOwnProperty_ordinary Φ n h O o k hO]

theorem setOnReceiver_proxy (Φ : FunTable) (j : Nat) (h : Heap) (P O hd : Ref)
    (c kk : Bool) (L : String) (o : Ordinary) (k : PropKey) (v : Val)
    (hP : h.lookup P = some (.proxy O hd c kk))
    (hH : h.lookup hd = some (.handler (.object L)))
    (hO : h.lookup O = some (.ordinary o)) (hj : 2 ≤ j) :
    setOnReceiver (methods Φ j) k v (.obj P) h = landOnOrdinary O o k v h := by
  obtain ⟨i, hi⟩ : ∃ i, j = i + 2 := ⟨j - 2, by omega⟩
  subst hi
  simp only [setOnReceiver, landOnOrdinary]
  rw [bind_ret _ _ _ _ _ (getOwnProperty_through_proxy Φ i h P O hd c kk _ k o hP hH hO)]
  cases hown : o.getOwn k with
  | none =>
    simp only
    rw [define_through_proxy Φ i h P O hd c kk L k _ o hP hH hO (by rfl)]
    exact defineOwnProperty_ordinary Φ i h O o k _ hO
  | some s =>
    cases s with
    | accessor g st e cf => rfl
    | data cur wr e cf =>
      cases wr with
      | false => rfl
      | true =>
        simp only [if_true]
        rw [define_through_proxy Φ i h P O hd c kk L k _ o hP hH hO (by rfl)]
        exact defineOwnProperty_ordinary Φ i h O o k _ hO

/-- What landing a value on an ordinary receiver does. -/
theorem landOnOrdinary_run (O : Ref) (o : Ordinary) (k : PropKey) (v : Val) (h : Heap) :
    landOnOrdinary O o k v h = .ret false h ∨
    ∃ e c, landOnOrdinary O o k v h =
      .ret true (h.update O (.ordinary { o with props := setProp o.props k (.data v true e c) }))
    := by
  unfold landOnOrdinary
  cases hown : o.getOwn k with
  | none =>
    simp only
    rw [ordinaryDefineOwnProperty_run, hown]
    cases hx : o.extensible with
    | false => left; rfl
    | true => right; exact ⟨true, true, rfl⟩
  | some s =>
    cases s with
    | accessor g st e cf => left; rfl
    | data cur wr e cf =>
      cases wr with
      | false => left; rfl
      | true =>
        right
        refine ⟨e, cf, ?_⟩
        simp only [if_true]
        rw [ordinaryDefineOwnProperty_run, hown]
        cases cf <;> rfl

/-- `[[Set]]` through an object proxy is `[[Set]]` on the target, when the
assignment meets only data properties. -/
theorem set_through_proxy (Φ : FunTable) (h : Heap) (P O hd : Ref)
    (c kk : Bool) (L : String) (o : Ordinary) (k : PropKey) (v : Val) (d : Nat) (w : Bool)
    (N : Nat)
    (hP : h.lookup P = some (.proxy O hd c kk))
    (hH : h.lookup hd = some (.handler (.object L)))
    (hO : h.lookup O = some (.ordinary o))
    (hch : dataChain h k d o = some w) (hN : d + 2 ≤ N) :
    (methods Φ (N + 2)).set P k v (.obj P) h = (methods Φ (N + 1)).set O k v (.obj O) h := by
  have rhs := set_along_data_chain Φ h k v (.obj O) (landOnOrdinary O o k v h) 1
    (fun j hj => setOnReceiver_ordinary Φ j h O o k v hO hj) d O o w N hO hch (by omega)
  have mid := set_along_data_chain Φ h k v (.obj P) (landOnOrdinary O o k v h) 2
    (fun j hj => setOnReceiver_proxy Φ j h P O hd c kk L o k v hP hH hO hj) d O o w N hO hch hN
  have lhs : (methods Φ (N + 2)).set P k v (.obj P) h
      = proxySet (methods Φ (N + 1)) (.object L) O k v (.obj P) h := by
    simp only [methods, Methods.next]
    rw [dispatch_proxy P _ _ h O hd c kk _ hP hH]
  rw [lhs, rhs]
  simp only [proxySet, handler.set, Reflect.set]
  cases w with
  | false =>
    simp only [Bool.false_eq_true, if_false] at mid ⊢
    rw [bind_ret _ _ _ _ _ mid]
    rfl
  | true =>
    simp only [if_true] at mid ⊢
    rcases landOnOrdinary_run O o k v h with hl | ⟨e, cf, hl⟩
    · rw [hl] at mid ⊢
      rw [bind_ret _ _ _ _ _ mid]
      rfl
    · rw [hl] at mid ⊢
      rw [bind_ret _ _ _ _ _ mid]
      simp only [if_true]
      obtain ⟨M, hM⟩ : ∃ M, N = M + 1 := ⟨N - 1, by omega⟩
      subst hM
      have hO2 := lookup_update_same h O _
        (.ordinary { o with props := setProp o.props k (.data v true e cf) }) hO
      rw [bind_ret _ _ _ _ _ (getOwnProperty_ordinary Φ (M + 1) _ O _ k hO2)]
      simp [Ordinary.getOwn, lookup_setProp, setInvariant, pure_run]

/-! ## C7 -/

/-- C7, as amended. Let `P = proxy(O, label, "object")` for an ordinary object `O`.
`delete P[k]` and `Object.defineProperty(P, k, d)` report the same result and
leave the same heap as the same operation on `O`, for every key and every
descriptor. `P[k] = v` does so whenever the assignment meets only data
properties: `k` resolves, along the chain of ordinary objects from `O`, to a
data property or to nothing. -/
theorem write_transparency (Φ : FunTable) (N : Nat) (h0 h : Heap) (P O : Ref) (label : String)
    (o : Ordinary)
    (hO : h0.lookup O = some (.ordinary o))
    (hwrap : proxy (.obj O) label (.str "object") h0 = .ret P h) :
    (∀ k : PropKey,
      (methods Φ (N + 2)).delete P k h = (methods Φ (N + 1)).delete O k h) ∧
    (∀ (k : PropKey) (d : Desc),
      objectDefineProperty (methods Φ (N + 2)) P k d h
        = objectDefineProperty (methods Φ (N + 1)) O k d h) ∧
    (∀ (k : PropKey) (v : Val) (depth : Nat) (w : Bool),
      dataChain h k depth o = some w → depth + 2 ≤ N →
      assign (methods Φ (N + 2)) P k v h = assign (methods Φ (N + 1)) O k v h) := by
  obtain ⟨hP, hH, hold, -, -⟩ :=
    proxy_object_cells O label (.str "object") h0 h P _ (by decide) hO hwrap
  have hO1 : h.lookup O = some (.ordinary o) := hold O _ hO
  refine ⟨fun k => ?_, fun k d => ?_, fun k v depth w hch hN => ?_⟩
  · exact delete_through_proxy Φ N h P O _ _ _ label k o hP hH hO1
  · unfold objectDefineProperty
    cases hv : (d.isAccessor && d.isData) with
    | true => rfl
    | false =>
      simp only [Bool.false_eq_true, if_false, bind_run]
      rw [define_through_proxy Φ N h P O _ _ _ label k d o hP hH hO1 hv]
  · exact set_through_proxy Φ h P O _ _ _ label o k v depth w N hP hH hO1 hch hN

/-- Witness for C7: `P.name = "new"` on the page `O = { greet, name: "orig" }`. -/
theorem write_transparency_witness :
    assign (methods thisName 5) 6 (.str "name") (.str "new") demoWrapped
      = assign (methods thisName 4) 3 (.str "name") (.str "new") demoWrapped :=
  (write_transparency thisName 3 demoHeap demoWrapped 6 3 "root" recO rfl rfl).2.2
    (.str "name") (.str "new") 0 true rfl (by decide)

/-- Counterexample to C7 as stated: assignments that reach a setter. The `set`
trap hands the proxy on as receiver, so the setter runs with `this = P`.
(1) `x` has a setter that accepts only `O` as `this`: `O.x = 1` succeeds and
`P.x = 1` throws a `TypeError`. (2) `y` has the setter
`function (v) { this.seen = this }`: after `O.y = 1` the property `O.seen` is
`O`, after `P.y = 1` it is the proxy `P`. -/
theorem write_through_setter_differs :
    ((assign (methods setterTable 6) 3 (.str "x") (.num 1) setterWrapped).completion
        = .value true ∧
      (assign (methods setterTable 7) 5 (.str "x") (.num 1) setterWrapped).completion
        = .error .typeError) ∧
    ((assign (methods setterTable 6) 3 (.str "y") (.num 1) setterWrapped).cellAfter 3
        = some (.ordinary { recWithSetters with
            props := recWithSetters.props ++ [(.str "seen", .data (.obj 3) true true true)] }) ∧
      (assign (methods setterTable 7) 5 (.str "y") (.num 1) setterWrapped).cellAfter 3
        = some (.ordinary { recWithSetters with
            props := recWithSetters.props ++ [(.str "seen", .data (.obj 5) true true true)] }))
    := by
  refine ⟨⟨rfl, rfl⟩, rfl, rfl⟩

/-! ## Labels are not looked at -/

theorem lookup_erase (h : Heap) (r : Ref) :
    h.eraseLabels.lookup r = (h.lookup r).map Obj.eraseLabel := by
  simp [Heap.eraseLabels, Heap.lookup]

theorem erase_push (h1 h2 : Heap) (c1 c2 : Obj) (he : h1.eraseLabels = h2.eraseLabels)
    (hc : c1.eraseLabel = c2.eraseLabel) :
    (h1.push c1).eraseLabels = (h2.push c2).eraseLabels := by
  simp only [Heap.eraseLabels, Heap.push, List.map_append, List.map_cons, List.map_nil,
    Heap.mk.injEq] at he ⊢
  exact ⟨by rw [he.1, hc], he.2⟩

theorem erase_update (h1 h2 : Heap) (r : Ref) (c1 c2 : Obj)
    (he : h1.eraseLabels = h2.eraseLabels) (hc : c1.eraseLabel = c2.eraseLabel) :
    (h1.update r c1).eraseLabels = (h2.update r c2).eraseLabels := by
  simp only [Heap.eraseLabels, Heap.update, List.map_set, Heap.mk.injEq] at he ⊢
  exact ⟨by rw [he.1, hc], he.2⟩

theorem erase_length (h1 h2 : Heap) (he : h1.eraseLabels = h2.eraseLabels) :
    h1.objs.length = h2.objs.length := by
  have := congrArg (fun x => x.objs.length) he
  simpa [Heap.eraseLabels] using this

theorem erase_objectPrototype (h1 h2 : Heap) (he : h1.eraseLabels = h2.eraseLabels) :
    h1.objectPrototype = h2.objectPrototype := by
  have := congrArg (fun x => x.objectPrototype) he
  simpa [Heap.eraseLabels] using this

/-- Cells at the same address of two heaps that differ in labels only. -/
theorem lookup_rel (h1 h2 : Heap) (he : h1.eraseLabels = h2.eraseLabels) (r : Ref) :
    (h1.lookup r = none ∧ h2.lookup r = none) ∨
    (∃ o, h1.lookup r = some (.ordinary o) ∧ h2.lookup r = some (.ordinary o)) ∨
    (∃ t hd c k, h1.lookup r = some (.proxy t hd c k) ∧ h2.lookup r = some (.proxy t hd c k)) ∨
    (∃ x1 x2, h1.lookup r = some (.handler x1) ∧ h2.lookup r = some (.handler x2) ∧
      x1.eraseLabel = x2.eraseLabel) := by
  have e := congrArg (fun x => x.lookup r) he
  simp only [lookup_erase] at e
  cases hl1 : h1.lookup r with
  | none =>
    rw [hl1] at e
    cases hl2 : h2.lookup r with
    | none => exact Or.inl ⟨rfl, rfl⟩
    | some c2 =>
      rw [hl2] at e
      cases e
  | some c1 =>
    rw [hl1] at e
    cases hl2 : h2.lookup r with
    | none =>
      rw [hl2] at e
      cases e
    | some c2 =>
      rw [hl2] at e
      simp only [Option.map_some', Option.some.injEq] at e
      cases c1 <;> cases c2 <;> simp only [Obj.eraseLabel, Obj.ordinary.injEq, Obj.proxy.injEq,
        Obj.handler.injEq, reduceCtorEq] at e
      · subst e
        exact Or.inr (Or.inl ⟨_, rfl, rfl⟩)
      · obtain ⟨a, b, c, d⟩ := e
        subst a b c d
        exact Or.inr (Or.inr (Or.inl ⟨_, _, _, _, rfl, rfl⟩))
      · exact Or.inr (Or.inr (Or.inr ⟨_, _, rfl, rfl, e⟩))

theorem labelRel_pure {α : Type} (a : α) : (pure a : JS α).LabelRel (pure a) := by
  intro h1 h2 he
  simp [pure_run, Outcome.eraseLabels, he]

theorem labelRel_throw {α : Type} : (JS.throwTypeError : JS α).LabelRel JS.throwTypeError := by
  intro h1 h2 he
  simp [JS.throwTypeError, Outcome.eraseLabels, he]

theorem labelRel_abort {α : Type} : (JS.abort : JS α).LabelRel JS.abort := fun _ _ _ => rfl

theorem labelRel_bind {α β : Type} (x y : JS α) (f g : α → JS β)
    (hx : x.LabelRel y) (hf : ∀ a, (f a).LabelRel (g a)) : (x >>= f).LabelRel (y >>= g) := by
  intro h1 h2 he
  have e := hx h1 h2 he
  rw [bind_run, bind_run]
  cases hx1 : x h1 with
  | ret a k1 =>
    rw [hx1] at e
    cases hy2 : y h2 with
    | ret b k2 =>
      rw [hy2] at e
      simp only [Outcome.eraseLabels, Outcome.ret.injEq] at e
      obtain ⟨ea, ek⟩ := e
      subst ea
      exact hf a k1 k2 ek
    | throw e2 k2 =>
      rw [hy2] at e
      cases e
    | abort =>
      rw [hy2] at e
      cases e
  | throw e1 k1 =>
    rw [hx1] at e
    cases hy2 : y h2 with
    | ret b k2 =>
      rw [hy2] at e
      cases e
    | throw e2 k2 =>
      rw [hy2] at e
      simp only [Outcome.eraseLabels, Outcome.throw.injEq] at e ⊢
      exact e
    | abort =>
      rw [hy2] at e
      cases e
  | abort =>
    rw [hx1] at e
    cases hy2 : y h2 with
    | ret b k2 =>
      rw [hy2] at e
      cases e
    | throw e2 k2 =>
      rw [hy2] at e
      cases e
    | abort => rfl

theorem labelRel_ite {α : Type} (c : Prop) [Decidable c] (x1 y1 x2 y2 : JS α)
    (h1 : x1.LabelRel x2) (h2 : y1.LabelRel y2) :
    (if c then x1 else y1).LabelRel (if c then x2 else y2) := by
  split
  · exact h1
  · exact h2

theorem labelBlind_pure {α : Type} (a : α) : (pure a : JS α).LabelBlind := labelRel_pure a

theorem labelBlind_throw {α : Type} : (JS.throwTypeError : JS α).LabelBlind := labelRel_throw

theorem labelBlind_abort {α : Type} : (JS.abort : JS α).LabelBlind := labelRel_abort

theorem labelBlind_bind {α β : Type} (x : JS α) (f : α → JS β)
    (hx : x.LabelBlind) (hf : ∀ a, (f a).LabelBlind) : (x >>= f).LabelBlind :=
  labelRel_bind x x f f hx hf

theorem labelBlind_ite {α : Type} (c : Prop) [Decidable c] (x y : JS α)
    (hx : x.LabelBlind) (hy : y.LabelBlind) : (if c then x else y).LabelBlind :=
  labelRel_ite c x y x y hx hy

theorem labelBlind_putCell (r : Ref) (o : Ordinary) : (putCell r (.ordinary o)).LabelBlind := by
  intro h1 h2 he
  simp only [putCell, Outcome.eraseLabels, Outcome.ret.injEq, true_and]
  exact erase_update h1 h2 r _ _ he rfl

theorem labelBlind_isCallable (v : Val) : (isCallable v).LabelBlind := by
  intro h1 h2 he
  cases v <;> try (simp [isCallable, Outcome.eraseLabels, he])
  rename_i r
  rcases lookup_rel h1 h2 he r with ⟨a, b⟩ | ⟨o, a, b⟩ | ⟨t, hd, c, k, a, b⟩ | ⟨x1, x2, a, b, -⟩ <;>
    simp [a, b, Outcome.eraseLabels, he, Obj.isCallable]

theorem labelBlind_isConstructor (r : Ref) : (isConstructor r).LabelBlind := by
  intro h1 h2 he
  simp only [isConstructor]
  rcases lookup_rel h1 h2 he r with ⟨a, b⟩ | ⟨o, a, b⟩ | ⟨t, hd, c, k, a, b⟩ | ⟨x1, x2, a, b, -⟩ <;>
    simp [a, b, Outcome.eraseLabels, he, Obj.isConstructor]

theorem labelBlind_newProxy (target : Val) (hd : Ref) : (newProxy target hd).LabelBlind := by
  intro h1 h2 he
  cases target <;> try (simp [newProxy, JS.throwTypeError, Outcome.eraseLabels, he])
  rename_i t
  simp only [bind_run, getCell]
  have hl := erase_length h1 h2 he
  rcases lookup_rel h1 h2 he t with ⟨a, b⟩ | ⟨o, a, b⟩ | ⟨t, hd, c, k, a, b⟩ | ⟨x1, x2, a, b, -⟩ <;>
    simp only [a, b, allocCell_run, Outcome.eraseLabels, Obj.isCallable, Obj.isConstructor, hl,
      Outcome.ret.injEq, true_and] <;>
    exact erase_push h1 h2 _ _ he rfl

theorem labelRel_getMethodHandler (W1 W2 : String) (t : Val) :
    (getMethodHandler W1 t).LabelRel (getMethodHandler W2 t) := by
  intro h1 h2 he
  simp only [getMethodHandler, allocCell_run, Outcome.eraseLabels, erase_length h1 h2 he,
    Outcome.ret.injEq, true_and]
  exact erase_push h1 h2 _ _ he rfl

theorem labelRel_getObjhandler (W1 W2 : String) :
    (getObjhandler W1).LabelRel (getObjhandler W2) := by
  intro h1 h2 he
  simp only [getObjhandler, allocCell_run, Outcome.eraseLabels, erase_length h1 h2 he,
    Outcome.ret.injEq, true_and]
  exact erase_push h1 h2 _ _ he rfl

theorem labelBlind_dispatch {α : Type} (r : Ref) (ord : Ordinary → JS α)
    (prx : Handler → Ref → Bool → Bool → JS α)
    (ho : ∀ o, (ord o).LabelBlind)
    (hp : ∀ x1 x2 t c k, x1.eraseLabel = x2.eraseLabel →
      (prx x1 t c k).LabelRel (prx x2 t c k)) :
    (dispatch r ord prx).LabelBlind := by
  intro h1 h2 he
  unfold dispatch
  rcases lookup_rel h1 h2 he r with ⟨a, b⟩ | ⟨o, a, b⟩ | ⟨t, hd, c, k, a, b⟩ | ⟨x1, x2, a, b, -⟩
  · rw [a, b]
  · rw [a, b]; exact ho o h1 h2 he
  · rw [a, b]
    simp only
    rcases lookup_rel h1 h2 he hd with ⟨a, b⟩ | ⟨o, a, b⟩ | ⟨t, hd, c, k, a, b⟩ | ⟨x1, x2, a, b, hx⟩
    · rw [a, b]
    · rw [a, b]
    · rw [a, b]
    · rw [a, b]; exact hp x1 x2 _ _ _ hx h1 h2 he
  · rw [a, b]

theorem protoChainHits_erase (h1 h2 : Heap) (he : h1.eraseLabels = h2.eraseLabels) (O : Ref)
    (n : Nat) (p : Option Ref) : protoChainHits h1 O n p = protoChainHits h2 O n p := by
  induction n generalizing p with
  | zero => rfl
  | succ n ih =>
    cases p with
    | none => rfl
    | some q =>
      simp only [protoChainHits]
      rcases lookup_rel h1 h2 he q with ⟨a, b⟩ | ⟨o, a, b⟩ | ⟨t, hd, c, k, a, b⟩ | ⟨x1, x2, a, b, -⟩ <;>
        simp [a, b, ih]

theorem labelBlind_ordinarySetPrototypeOf (r : Ref) (o : Ordinary) (v : Option Ref) :
    (ordinarySetPrototypeOf r o v).LabelBlind := by
  intro h1 h2 he
  unfold ordinarySetPrototypeOf
  split
  · simp [Outcome.eraseLabels, he]
  · split
    · simp [Outcome.eraseLabels, he]
    · rw [protoChainHits_erase h1 h2 he, erase_length h1 h2 he]
      cases protoChainHits h2 r (h2.objs.length + 1) v with
      | none => rfl
      | some b =>
        cases b
        · simp only [Outcome.eraseLabels, Outcome.ret.injEq, true_and]
          exact erase_update h1 h2 r _ _ he rfl
        · simp [Outcome.eraseLabels, he]

theorem handler_erase_cases (x1 x2 : Handler) (hx : x1.eraseLabel = x2.eraseLabel) :
    (∃ W1 W2 t, x1 = .method W1 t ∧ x2 = .method W2 t) ∨
    (∃ W1 W2, x1 = .object W1 ∧ x2 = .object W2) := by
  cases x1 <;> cases x2 <;> simp only [Handler.eraseLabel, Handler.method.injEq,
    Handler.object.injEq, reduceCtorEq, true_and] at hx
  · subst hx
    exact Or.inl ⟨_, _, _, rfl, rfl⟩
  · exact Or.inr ⟨_, _, rfl, rfl⟩

theorem labelBlind_setOnReceiver (m : Methods) (hm : m.LabelBlind) (k : PropKey) (v recv : Val) :
    (setOnReceiver m k v recv).LabelBlind := by
  unfold setOnReceiver
  cases recv with
  | obj rc =>
    refine labelBlind_bind _ _ (hm.getOwnProperty rc k) (fun existing => ?_)
    cases existing with
    | none => exact hm.defineOwnProperty rc k _
    | some s =>
      cases s with
      | accessor g st e c => exact labelBlind_pure _
      | data cur w e c =>
        exact labelBlind_ite _ _ _ (hm.defineOwnProperty rc k _) (labelBlind_pure _)
  | _ => exact labelBlind_pure _

theorem labelBlind_ordinarySet (m : Methods) (hm : m.LabelBlind) (o : Ordinary) (k : PropKey)
    (v recv : Val) : (ordinarySet m o k v recv).LabelBlind := by
  unfold ordinarySet
  cases o.getOwn k with
  | none =>
    cases o.proto with
    | none => exact labelBlind_setOnReceiver m hm k v recv
    | some parent => exact hm.set parent k v recv
  | some s =>
    cases s with
    | data cur w e c =>
      exact labelBlind_ite _ _ _ (labelBlind_setOnReceiver m hm k v recv) (labelBlind_pure _)
    | accessor g st e c =>
      cases st with
      | obj f => exact labelBlind_bind _ _ (hm.call f recv [v]) (fun _ => labelBlind_pure _)
      | _ => exact labelBlind_pure _

theorem labelBlind_ordinaryGet (m : Methods) (hm : m.LabelBlind) (o : Ordinary) (k : PropKey)
    (recv : Val) : (ordinaryGet m o k recv).LabelBlind := by
  unfold ordinaryGet
  cases o.getOwn k with
  | none =>
    cases o.proto with
    | none => exact labelBlind_pure _
    | some parent => exact hm.get parent k recv
  | some s =>
    cases s with
    | data cur w e c => exact labelBlind_pure _
    | accessor g st e c =>
      cases g with
      | obj f => exact hm.call f recv []
      | _ => exact labelBlind_pure _

theorem labelBlind_ordinaryHasProperty (m : Methods) (hm : m.LabelBlind) (o : Ordinary)
    (k : PropKey) : (ordinaryHasProperty m o k).LabelBlind := by
  unfold ordinaryHasProperty
  cases o.getOwn k with
  | some s => exact labelBlind_pure _
  | none =>
    cases o.proto with
    | none => exact labelBlind_pure _
    | some parent => exact hm.hasProperty parent k

theorem labelBlind_ordinaryDefineOwnProperty (r : Ref) (o : Ordinary) (k : PropKey) (d : Desc) :
    (ordinaryDefineOwnProperty r o k d).LabelBlind := by
  unfold ordinaryDefineOwnProperty
  cases validateAndApply o.extensible d (o.getOwn k) with
  | none => exact labelBlind_pure _
  | some s => exact labelBlind_bind _ _ (labelBlind_putCell r _) (fun _ => labelBlind_pure _)

theorem labelBlind_ordinaryDelete (r : Ref) (o : Ordinary) (k : PropKey) :
    (ordinaryDelete r o k).LabelBlind := by
  unfold ordinaryDelete
  cases o.getOwn k with
  | none => exact labelBlind_pure _
  | some s =>
    exact labelBlind_ite _ _ _
      (labelBlind_bind _ _ (labelBlind_putCell r _) (fun _ => labelBlind_pure _))
      (labelBlind_pure _)

theorem labelBlind_ordinaryCall (Φ : FunTable) (hΦ : Φ.LabelBlind) (o : Ordinary) (thisArg : Val)
    (args : List Val) : (ordinaryCall Φ o thisArg args).LabelBlind := by
  unfold ordinaryCall
  cases o.call with
  | none => exact labelBlind_throw
  | some f => exact hΦ.call f thisArg args

theorem labelBlind_ordinaryConstruct (Φ : FunTable) (hΦ : Φ.LabelBlind) (o : Ordinary)
    (args : List Val) (newTarget : Ref) : (ordinaryConstruct Φ o args newTarget).LabelBlind := by
  unfold ordinaryConstruct
  cases o.call with
  | none => exact labelBlind_throw
  | some f =>
    cases o.ctor with
    | false => exact labelBlind_throw
    | true => exact hΦ.construct f args newTarget

theorem labelBlind_reflect_apply (m : Methods) (hm : m.LabelBlind) (target : Ref) (thisArg : Val)
    (args : List Val) : (Reflect.apply m target thisArg args).LabelBlind := by
  unfold Reflect.apply
  refine labelBlind_bind _ _ (labelBlind_isCallable _) (fun c => ?_)
  exact labelBlind_ite _ _ _ (hm.call target thisArg args) labelBlind_throw

theorem labelBlind_reflect_construct (m : Methods) (hm : m.LabelBlind) (target : Ref)
    (args : List Val) (newTarget : Ref) :
    (Reflect.construct m target args newTarget).LabelBlind := by
  unfold Reflect.construct
  refine labelBlind_bind _ _ (labelBlind_isConstructor _) (fun c => ?_)
  refine labelBlind_ite _ _ _ ?_ labelBlind_throw
  refine labelBlind_bind _ _ (labelBlind_isConstructor _) (fun c2 => ?_)
  exact labelBlind_ite _ _ _ (hm.construct target args newTarget) labelBlind_throw

theorem labelBlind_instanceofObjectStep (m : Methods) (hm : m.LabelBlind) (v : Val) :
    (instanceofObjectStep m v).LabelBlind := by
  unfold instanceofObjectStep
  cases v with
  | obj r =>
    refine labelBlind_bind _ _ (hm.getPrototypeOf r) (fun p => ?_)
    cases p with
    | none => exact labelBlind_pure _
    | some q =>
      intro h1 h2 he
      simp only
      rw [erase_objectPrototype h1 h2 he]
      split
      · simp [Outcome.eraseLabels, he]
      · exact hm.instanceofObject (.obj q) h1 h2 he
  | _ => exact labelBlind_pure _

/-- The `get` trap under two labels. -/
theorem labelRel_handler_get (m : Methods) (hm : m.LabelBlind) (W1 W2 : String) (target : Ref)
    (k : PropKey) (recv : Val) :
    (handler.get m W1 target k recv).LabelRel (handler.get m W2 target k recv) := by
  unfold handler.get
  refine labelRel_bind _ _ _ _ (hm.get target k _) (fun result => ?_)
  refine labelRel_bind _ _ _ _ (hm.instanceofObject result) (fun isObject => ?_)
  refine labelRel_ite _ _ _ _ _ ?_ (labelRel_pure _)
  refine labelRel_bind _ _ _ _ (labelBlind_isCallable result) (fun isFunction => ?_)
  refine labelRel_ite _ _ _ _ _ ?_ ?_
  · refine labelRel_bind _ _ _ _ (labelRel_getMethodHandler W1 W2 _) (fun hd => ?_)
    exact labelRel_bind _ _ _ _ (labelBlind_newProxy result hd) (fun p => labelRel_pure _)
  · cases k with
    | sym id =>
      intro h1 h2 he
      simp [childName, bind_run, JS.throwTypeError, Outcome.eraseLabels, he]
    | str s =>
      have e : ∀ W : String,
          (childName W (.str s) >>= fun name => getObjhandler name >>= fun hd =>
            newProxy result hd >>= fun p => (pure (Val.obj p) : JS Val))
          = (getObjhandler (W ++ "." ++ s) >>= fun hd =>
            newProxy result hd >>= fun p => (pure (Val.obj p) : JS Val)) := by
        intro W
        funext h
        rfl
      rw [e W1, e W2]
      refine labelRel_bind _ _ _ _ (labelRel_getObjhandler _ _) (fun hd => ?_)
      exact labelRel_bind _ _ _ _ (labelBlind_newProxy result hd) (fun p => labelRel_pure _)

theorem labelBlind_getInvariant (trapResult : Val) (d : Option Slot) :
    (getInvariant trapResult d).LabelBlind := by
  unfold getInvariant
  cases d with
  | none => exact labelBlind_pure _
  | some s =>
    cases s with
    | data v w e c => exact labelBlind_ite _ _ _ labelBlind_throw (labelBlind_pure _)
    | accessor g st e c => exact labelBlind_ite _ _ _ labelBlind_throw (labelBlind_pure _)

theorem labelBlind_setInvariant (v : Val) (d : Option Slot) :
    (setInvariant v d).LabelBlind := by
  unfold setInvariant
  cases d with
  | none => exact labelBlind_pure _
  | some s =>
    cases s with
    | data cur w e c => exact labelBlind_ite _ _ _ labelBlind_throw (labelBlind_pure _)
    | accessor g st e c => exact labelBlind_ite _ _ _ labelBlind_throw (labelBlind_pure _)

theorem labelBlind_defineInvariant (d : Desc) (targetDesc : Option Slot) (ext : Bool) :
    (defineInvariant d targetDesc ext).LabelBlind := by
  unfold defineInvariant
  cases targetDesc with
  | none =>
    exact labelBlind_ite _ _ _ labelBlind_throw
      (labelBlind_ite _ _ _ labelBlind_throw (labelBlind_pure _))
  | some cur =>
    refine labelBlind_ite _ _ _ labelBlind_throw (labelBlind_ite _ _ _ labelBlind_throw ?_)
    cases cur with
    | data v w e c => exact labelBlind_ite _ _ _ labelBlind_throw (labelBlind_pure _)
    | accessor g st e c => exact labelBlind_pure _

theorem labelBlind_next (Φ : FunTable) (hΦ : Φ.LabelBlind) (m : Methods) (hm : m.LabelBlind) :
    (Methods.next Φ m).LabelBlind := by
  constructor
  · -- getPrototypeOf
    intro r
    refine labelBlind_dispatch _ _ _ (fun o => labelBlind_pure _) (fun x1 x2 t _ _ hx => ?_)
    rcases handler_erase_cases x1 x2 hx with ⟨W1, W2, tobj, e1, e2⟩ | ⟨W1, W2, e1, e2⟩ <;>
      subst e1 e2
    · exact hm.getPrototypeOf t
    · refine labelBlind_bind _ _ (hm.getPrototypeOf t) (fun a => ?_)
      refine labelBlind_bind _ _ (hm.isExtensible t) (fun b => ?_)
      refine labelBlind_ite _ _ _ (labelBlind_pure _) ?_
      refine labelBlind_bind _ _ (hm.getPrototypeOf t) (fun c => ?_)
      exact labelBlind_ite _ _ _ (labelBlind_pure _) labelBlind_throw
  · -- setPrototypeOf
    intro r v
    refine labelBlind_dispatch _ _ _ (fun o => labelBlind_ordinarySetPrototypeOf r o v)
      (fun x1 x2 t _ _ hx => ?_)
    rcases handler_erase_cases x1 x2 hx with ⟨W1, W2, tobj, e1, e2⟩ | ⟨W1, W2, e1, e2⟩ <;>
      subst e1 e2
    · exact hm.setPrototypeOf t v
    · refine labelBlind_bind _ _ (hm.setPrototypeOf t v) (fun a => ?_)
      refine labelBlind_ite _ _ _ ?_ (labelBlind_pure _)
      refine labelBlind_bind _ _ (hm.isExtensible t) (fun b => ?_)
      refine labelBlind_ite _ _ _ (labelBlind_pure _) ?_
      refine labelBlind_bind _ _ (hm.getPrototypeOf t) (fun c => ?_)
      exact labelBlind_ite _ _ _ (labelBlind_pure _) labelBlind_throw
  · -- isExtensible
    intro r
    refine labelBlind_dispatch _ _ _ (fun o => labelBlind_pure _) (fun x1 x2 t _ _ hx => ?_)
    rcases handler_erase_cases x1 x2 hx with ⟨W1, W2, tobj, e1, e2⟩ | ⟨W1, W2, e1, e2⟩ <;>
      subst e1 e2
    · exact hm.isExtensible t
    · refine labelBlind_bind _ _ (hm.isExtensible t) (fun a => ?_)
      refine labelBlind_bind _ _ (hm.isExtensible t) (fun b => ?_)
      exact labelBlind_ite _ _ _ (labelBlind_pure _) labelBlind_throw
  · -- preventExtensions
    intro r
    refine labelBlind_dispatch _ _ _
      (fun o => labelBlind_bind _ _ (labelBlind_putCell r _) (fun _ => labelBlind_pure _))
      (fun x1 x2 t _ _ hx => ?_)
    rcases handler_erase_cases x1 x2 hx with ⟨W1, W2, tobj, e1, e2⟩ | ⟨W1, W2, e1, e2⟩ <;>
      subst e1 e2
    · exact hm.preventExtensions t
    · refine labelBlind_bind _ _ (hm.preventExtensions t) (fun a => ?_)
      refine labelBlind_ite _ _ _ ?_ (labelBlind_pure _)
      refine labelBlind_bind _ _ (hm.isExtensible t) (fun b => ?_)
      exact labelBlind_ite _ _ _ labelBlind_throw (labelBlind_pure _)
  · -- getOwnProperty
    intro r k
    exact labelBlind_dispatch _ _ _ (fun o => labelBlind_pure _)
      (fun x1 x2 t _ _ _ => hm.getOwnProperty t k)
  · -- defineOwnProperty
    intro r k d
    refine labelBlind_dispatch _ _ _ (fun o => labelBlind_ordinaryDefineOwnProperty r o k d)
      (fun x1 x2 t _ _ hx => ?_)
    rcases handler_erase_cases x1 x2 hx with ⟨W1, W2, tobj, e1, e2⟩ | ⟨W1, W2, e1, e2⟩ <;>
      subst e1 e2
    · exact hm.defineOwnProperty t k d
    · refine labelBlind_bind _ _ ?_ (fun a => ?_)
      · exact labelBlind_ite _ _ _ labelBlind_throw (hm.defineOwnProperty t k d)
      · refine labelBlind_ite _ _ _ ?_ (labelBlind_pure _)
        refine labelBlind_bind _ _ (hm.getOwnProperty t k) (fun td => ?_)
        refine labelBlind_bind _ _ (hm.isExtensible t) (fun ext => ?_)
        exact labelBlind_defineInvariant d td ext
  · -- hasProperty
    intro r k
    refine labelBlind_dispatch _ _ _ (fun o => labelBlind_ordinaryHasProperty m hm o k)
      (fun x1 x2 t _ _ hx => ?_)
    rcases handler_erase_cases x1 x2 hx with ⟨W1, W2, tobj, e1, e2⟩ | ⟨W1, W2, e1, e2⟩ <;>
      subst e1 e2
    · exact hm.hasProperty t k
    · refine labelBlind_bind _ _ (hm.hasProperty t k) (fun a => ?_)
      refine labelBlind_ite _ _ _ (labelBlind_pure _) ?_
      refine labelBlind_bind _ _ (hm.getOwnProperty t k) (fun td => ?_)
      cases td with
      | none => exact labelBlind_pure _
      | some cur =>
        refine labelBlind_ite _ _ _ labelBlind_throw ?_
        refine labelBlind_bind _ _ (hm.isExtensible t) (fun ext => ?_)
        exact labelBlind_ite _ _ _ (labelBlind_pure _) labelBlind_throw
  · -- get
    intro r k recv
    refine labelBlind_dispatch _ _ _ (fun o => labelBlind_ordinaryGet m hm o k recv)
      (fun x1 x2 t _ _ hx => ?_)
    rcases handler_erase_cases x1 x2 hx with ⟨W1, W2, tobj, e1, e2⟩ | ⟨W1, W2, e1, e2⟩ <;>
      subst e1 e2
    · exact hm.get t k recv
    · refine labelRel_bind _ _ _ _ (labelRel_handler_get m hm W1 W2 t k recv) (fun tr => ?_)
      refine labelRel_bind _ _ _ _ (hm.getOwnProperty t k) (fun td => ?_)
      exact labelBlind_getInvariant tr td
  · -- set
    intro r k v recv
    refine labelBlind_dispatch _ _ _ (fun o => labelBlind_ordinarySet m hm o k v recv)
      (fun x1 x2 t _ _ hx => ?_)
    rcases handler_erase_cases x1 x2 hx with ⟨W1, W2, tobj, e1, e2⟩ | ⟨W1, W2, e1, e2⟩ <;>
      subst e1 e2
    · exact hm.set t k v recv
    · refine labelBlind_bind _ _ (hm.set t k v recv) (fun a => ?_)
      refine labelBlind_ite _ _ _ ?_ (labelBlind_pure _)
      refine labelBlind_bind _ _ (hm.getOwnProperty t k) (fun td => ?_)
      exact labelBlind_setInvariant v td
  · -- delete
    intro r k
    refine labelBlind_dispatch _ _ _ (fun o => labelBlind_ordinaryDelete r o k)
      (fun x1 x2 t _ _ hx => ?_)
    rcases handler_erase_cases x1 x2 hx with ⟨W1, W2, tobj, e1, e2⟩ | ⟨W1, W2, e1, e2⟩ <;>
      subst e1 e2
    · exact hm.delete t k
    · refine labelBlind_bind _ _ (hm.delete t k) (fun a => ?_)
      refine labelBlind_ite _ _ _ ?_ (labelBlind_pure _)
      refine labelBlind_bind _ _ (hm.getOwnProperty t k) (fun td => ?_)
      cases td with
      | none => exact labelBlind_pure _
      | some cur =>
        refine labelBlind_ite _ _ _ labelBlind_throw ?_
        refine labelBlind_bind _ _ (hm.isExtensible t) (fun ext => ?_)
        exact labelBlind_ite _ _ _ (labelBlind_pure _) labelBlind_throw
  · -- ownPropertyKeys
    intro r
    exact labelBlind_dispatch _ _ _ (fun o => labelBlind_pure _)
      (fun x1 x2 t _ _ _ => hm.ownPropertyKeys t)
  · -- call
    intro r thisArg args
    refine labelBlind_dispatch _ _ _ (fun o => labelBlind_ordinaryCall Φ hΦ o thisArg args)
      (fun x1 x2 t c _ hx => ?_)
    rcases handler_erase_cases x1 x2 hx with ⟨W1, W2, tobj, e1, e2⟩ | ⟨W1, W2, e1, e2⟩ <;>
      subst e1 e2
    · exact labelBlind_ite _ _ _ (labelBlind_reflect_apply m hm t _ args) labelBlind_throw
    · exact labelBlind_ite _ _ _ (hm.call t thisArg args) labelBlind_throw
  · -- construct
    intro r args newTarget
    refine labelBlind_dispatch _ _ _
      (fun o => labelBlind_ordinaryConstruct Φ hΦ o args newTarget)
      (fun x1 x2 t _ c hx => ?_)
    rcases handler_erase_cases x1 x2 hx with ⟨W1, W2, tobj, e1, e2⟩ | ⟨W1, W2, e1, e2⟩ <;>
      subst e1 e2
    · exact labelBlind_ite _ _ _ (labelBlind_reflect_construct m hm t args newTarget)
        labelBlind_throw
    · exact labelBlind_ite _ _ _ (hm.construct t args newTarget) labelBlind_throw
  · -- instanceofObject
    intro v
    exact labelBlind_instanceofObjectStep m hm v

theorem labelBlind_none : Methods.none.LabelBlind :=
  ⟨fun _ => labelBlind_abort, fun _ _ => labelBlind_abort, fun _ => labelBlind_abort,
    fun _ => labelBlind_abort, fun _ _ => labelBlind_abort, fun _ _ _ => labelBlind_abort,
    fun _ _ => labelBlind_abort, fun _ _ _ => labelBlind_abort, fun _ _ _ _ => labelBlind_abort,
    fun _ _ => labelBlind_abort, fun _ => labelBlind_abort, fun _ _ _ => labelBlind_abort,
    fun _ _ _ => labelBlind_abort, fun _ => labelBlind_abort⟩

/-- No internal method looks at labels, at any layer. -/
theorem labelBlind_methods (Φ : FunTable) (hΦ : Φ.LabelBlind) (n : Nat) :
    (methods Φ n).LabelBlind := by
  induction n with
  | zero => exact labelBlind_none
  | succ n ih => exact labelBlind_next Φ hΦ _ ih

theorem labelBlind_onObject (v : Val) (f : Ref → JS Val) (hf : ∀ r, (f r).LabelBlind) :
    (onObject v f).LabelBlind := by
  unfold onObject
  cases v with
  | obj r => exact hf r
  | _ => exact labelBlind_throw

theorem labelBlind_objectDefineProperty (m : Methods) (hm : m.LabelBlind) (r : Ref)
    (k : PropKey) (d : Desc) : (objectDefineProperty m r k d).LabelBlind := by
  unfold objectDefineProperty
  refine labelBlind_ite _ _ _ labelBlind_throw ?_
  refine labelBlind_bind _ _ (hm.defineOwnProperty r k d) (fun ok => ?_)
  exact labelBlind_ite _ _ _ (labelBlind_pure _) labelBlind_throw

theorem labelBlind_step (m : Methods) (hm : m.LabelBlind) (rs : List (Completion Val))
    (op : Op) : (step m rs op).LabelBlind := by
  cases op with
  | get o k => exact labelBlind_onObject _ _ (fun r => hm.get r k _)
  | set o k v =>
    exact labelBlind_onObject _ _ (fun r =>
      labelBlind_bind _ _ (hm.set r k _ _) (fun _ => labelBlind_pure _))
  | has o k =>
    exact labelBlind_onObject _ _ (fun r =>
      labelBlind_bind _ _ (hm.hasProperty r k) (fun _ => labelBlind_pure _))
  | delete o k =>
    exact labelBlind_onObject _ _ (fun r =>
      labelBlind_bind _ _ (hm.delete r k) (fun _ => labelBlind_pure _))
  | define o k d =>
    exact labelBlind_onObject _ _ (fun r =>
      labelBlind_bind _ _ (labelBlind_objectDefineProperty m hm r k d)
        (fun _ => labelBlind_pure _))
  | getPrototypeOf o =>
    refine labelBlind_onObject _ _ (fun r =>
      labelBlind_bind _ _ (hm.getPrototypeOf r) (fun p => ?_))
    cases p with
    | none => exact labelBlind_pure _
    | some q => exact labelBlind_pure _
  | isExtensible o =>
    exact labelBlind_onObject _ _ (fun r =>
      labelBlind_bind _ _ (hm.isExtensible r) (fun _ => labelBlind_pure _))
  | preventExtensions o =>
    exact labelBlind_onObject _ _ (fun r =>
      labelBlind_bind _ _ (hm.preventExtensions r) (fun _ => labelBlind_pure _))
  | call f thisArg args => exact labelBlind_onObject _ _ (fun r => hm.call r _ _)
  | construct f args =>
    exact labelBlind_onObject _ _ (fun r =>
      labelBlind_bind _ _ (hm.construct r _ r) (fun _ => labelBlind_pure _))

/-- A sequence of operations run from two heaps that differ in labels only:
the same completions, and final heaps that differ in labels only. -/
theorem runOps_labels (m : Methods) (hm : m.LabelBlind) (ops : List Op) :
    ∀ (rs : List (Completion Val)) (h1 h2 : Heap), h1.eraseLabels = h2.eraseLabels →
      (runOps m ops rs h1).1 = (runOps m ops rs h2).1 ∧
      (runOps m ops rs h1).2.eraseLabels = (runOps m ops rs h2).2.eraseLabels := by
  induction ops with
  | nil =>
    intro rs h1 h2 he
    exact ⟨rfl, he⟩
  | cons op ops ih =>
    intro rs h1 h2 he
    have e := labelBlind_step m hm rs op h1 h2 he
    simp only [runOps]
    cases hs1 : step m rs op h1 with
    | ret v k1 =>
      rw [hs1] at e
      cases hs2 : step m rs op h2 with
      | ret w k2 =>
        rw [hs2] at e
        simp only [Outcome.eraseLabels, Outcome.ret.injEq] at e
        obtain ⟨ev, ek⟩ := e
        subst ev
        exact ih _ k1 k2 ek
      | throw e2 k2 =>
        rw [hs2] at e
        cases e
      | abort =>
        rw [hs2] at e
        cases e
    | throw e1 k1 =>
      rw [hs1] at e
      cases hs2 : step m rs op h2 with
      | ret w k2 =>
        rw [hs2] at e
        cases e
      | throw e2 k2 =>
        rw [hs2] at e
        simp only [Outcome.eraseLabels, Outcome.throw.injEq] at e
        obtain ⟨ev, ek⟩ := e
        subst ev
        exact ih _ k1 k2 ek
      | abort =>
        rw [hs2] at e
        cases e
    | abort =>
      rw [hs1] at e
      cases hs2 : step m rs op h2 with
      | ret w k2 =>
        rw [hs2] at e
        cases e
      | throw e2 k2 =>
        rw [hs2] at e
        cases e
      | abort => exact ⟨rfl, he⟩

theorem labelRel_proxy (obj : Val) (L1 L2 : String) (kind : Val) :
    (proxy obj L1 kind).LabelRel (proxy obj L2 kind) := by
  unfold proxy
  refine labelRel_ite _ _ _ _ _ ?_ ?_
  · exact labelRel_bind _ _ _ _ (labelRel_getMethodHandler L1 L2 obj)
      (fun hd => labelBlind_newProxy obj hd)
  · exact labelRel_bind _ _ _ _ (labelRel_getObjhandler L1 L2)
      (fun hd => labelBlind_newProxy obj hd)

theorem labelBlind_noFun : noFun.LabelBlind :=
  ⟨fun _ _ _ => labelBlind_abort, fun _ _ _ => labelBlind_abort⟩

theorem labelBlind_thisName : thisName.LabelBlind := by
  constructor
  · intro f thisArg args
    cases thisArg with
    | obj r => exact (labelBlind_methods noFun labelBlind_noFun 3).get r _ _
    | _ => exact labelBlind_throw
  · intro f args newTarget
    exact labelBlind_pure _

/-! ## C10 -/

/-- C10. The label has no runtime effect. Let the bodies of user functions not
look at labels (they cannot reach a handler record). For every target, every
kind, every two labels `L1` and `L2` and every sequence of operations, run on
`proxy(obj, L1, kind)` and on `proxy(obj, L2, kind)` from the same heap: the
recorded completions (values and errors) are the same, and the final heaps are
the same once the labels stored in handler records are blanked. -/
theorem label_has_no_runtime_effect (Φ : FunTable) (hΦ : Φ.LabelBlind) (n : Nat) (obj : Val)
    (kind : Val) (L1 L2 : String) (ops : List Op) (h : Heap) :
    (session Φ n obj L1 kind ops h).1 = (session Φ n obj L2 kind ops h).1 ∧
    (session Φ n obj L1 kind ops h).2.eraseLabels
      = (session Φ n obj L2 kind ops h).2.eraseLabels := by
  have e := labelRel_proxy obj L1 L2 kind h h rfl
  unfold session
  cases hp1 : proxy obj L1 kind h with
  | ret P k1 =>
    rw [hp1] at e
    cases hp2 : proxy obj L2 kind h with
    | ret Q k2 =>
      rw [hp2] at e
      simp only [Outcome.eraseLabels, Outcome.ret.injEq] at e
      obtain ⟨ev, ek⟩ := e
      subst ev
      exact runOps_labels _ (labelBlind_methods Φ hΦ n) ops _ k1 k2 ek
    | throw e2 k2 =>
      rw [hp2] at e
      cases e
    | abort =>
      rw [hp2] at e
      cases e
  | throw e1 k1 =>
    rw [hp1] at e
    cases hp2 : proxy obj L2 kind h with
    | ret Q k2 =>
      rw [hp2] at e
      cases e
    | throw e2 k2 =>
      rw [hp2] at e
      simp only [Outcome.eraseLabels, Outcome.throw.injEq] at e
      obtain ⟨ev, ek⟩ := e
      subst ev
      exact ⟨rfl, ek⟩
    | abort =>
      rw [hp2] at e
      cases e
  | abort =>
    rw [hp1] at e
    cases hp2 : proxy obj L2 kind h with
    | ret Q k2 =>
      rw [hp2] at e
      cases e
    | throw e2 k2 =>
      rw [hp2] at e
      cases e
    | abort => exact ⟨rfl, rfl⟩

/-- Witness for C10: `P.greet`, `P.greet.call(fake)`, `P.name = "new"`, `P.name`,
under the labels `"root"` and `"other"`. -/
theorem label_has_no_runtime_effect_witness :
    ((session thisName 4 (.obj 3) "root" (.str "object")
        [.get (.res 0) (.str "greet"), .call (.res 1) (.lit (.obj 4)) [],
         .set (.res 0) (.str "name") (.lit (.str "new")), .get (.res 0) (.str "name")]
        demoHeap).1
      = (session thisName 4 (.obj 3) "other" (.str "object")
        [.get (.res 0) (.str "greet"), .call (.res 1) (.lit (.obj 4)) [],
         .set (.res 0) (.str "name") (.lit (.str "new")), .get (.res 0) (.str "name")]
        demoHeap).1 ∧
      (session thisName 4 (.obj 3) "root" (.str "object")
        [.get (.res 0) (.str "greet"), .call (.res 1) (.lit (.obj 4)) [],
         .set (.res 0) (.str "name") (.lit (.str "new")), .get (.res 0) (.str "name")]
        demoHeap).2.eraseLabels
      = (session thisName 4 (.obj 3) "other" (.str "object")
        [.get (.res 0) (.str "greet"), .call (.res 1) (.lit (.obj 4)) [],
         .set (.res 0) (.str "name") (.lit (.str "new")), .get (.res 0) (.str "name")]
        demoHeap).2.eraseLabels) ∧
    (session thisName 4 (.obj 3) "root" (.str "object")
        [.get (.res 0) (.str "greet"), .call (.res 1) (.lit (.obj 4)) [],
         .set (.res 0) (.str "name") (.lit (.str "new")), .get (.res 0) (.str "name")]
        demoHeap).1
      = [.value (.obj 6), .value (.obj 8), .value (.str "orig"), .value (.bool true),
         .value (.str "new")] :=
  ⟨label_has_no_runtime_effect thisName labelBlind_thisName 4 (.obj 3) (.str "object")
    "root" "other" _ demoHeap, rfl⟩

/-! ## C8 -/

/-- C8, the code at two failing inputs. (1) `O = { [s]: child }` for a symbol `s`
and a plain object `child`: `O[s]` is `child`, reading `P[s]` throws a
`TypeError` (the template literal that builds the child label cannot convert a
symbol). (2) `O = Object.freeze({ a: child })`: `O.a` is `child`, reading `P.a`
throws a `TypeError` (the trap returned a new proxy for a read-only
non-configurable data property). -/
theorem read_through_proxy_throws_where_target_does_not :
    ((methods thisName 3).get 2 (.sym 0) (.obj 2) symbolHeap = .ret (.obj 1) symbolHeap ∧
      ((proxy (.obj 2) "root" (.str "object") >>= fun P =>
          (methods thisName 4).get P (.sym 0) (.obj P)) symbolHeap).completion
        = .error .typeError) ∧
    ((methods thisName 3).get 2 (.str "a") (.obj 2) frozenNestedHeap
        = .ret (.obj 1) frozenNestedHeap ∧
      ((proxy (.obj 2) "root" (.str "object") >>= fun P =>
          (methods thisName 4).get P (.str "a") (.obj P)) frozenNestedHeap).completion
        = .error .typeError) := by
  refine ⟨⟨rfl, rfl⟩, rfl, rfl⟩

/-! ## Reads meet no getter on a chain of data properties -/

theorem getOwn_of_all_data (ps : List (PropKey × Slot)) (k : PropKey) (s : Slot)
    (hall : ps.all (fun p => !p.2.isAccessor) = true) (hk : ps.lookup k = some s) :
    s.isAccessor = false := by
  induction ps with
  | nil => simp [List.lookup] at hk
  | cons p ps ih =>
    obtain ⟨k1, s1⟩ := p
    simp only [List.all_cons, Bool.and_eq_true, Bool.not_eq_true'] at hall
    simp only [List.lookup] at hk
    cases hkk : (k == k1) with
    | true =>
      rw [hkk] at hk
      injection hk with e
      rw [← e]
      exact hall.1
    | false =>
      rw [hkk] at hk
      exact ih hall.2 hk

/-- What the hypothesis `dataOnlyChain` says of the cell at `r`. -/
theorem dataOnlyChain_cell (h : Heap) (d : Nat) (r : Ref) (hd : dataOnlyChain h d r = true) :
    ∃ o, h.lookup r = some (.ordinary o) ∧
      (∀ k s, o.getOwn k = some s → s.isAccessor = false) ∧
      (∀ parent, o.proto = some parent → ∃ e, d = e + 1 ∧ dataOnlyChain h e parent = true) := by
  cases d with
  | zero =>
    simp only [dataOnlyChain] at hd
    cases hl : h.lookup r with
    | none => simp [hl] at hd
    | some cell =>
      cases cell with
      | ordinary o =>
        simp only [hl, Bool.and_eq_true, Option.isNone_iff_eq_none] at hd
        refine ⟨o, rfl, fun k s hk => getOwn_of_all_data o.props k s hd.1 hk, ?_⟩
        intro parent hp
        rw [hd.2] at hp
        cases hp
      | proxy _ _ _ _ => simp [hl] at hd
      | handler _ => simp [hl] at hd
  | succ e =>
    simp only [dataOnlyChain] at hd
    cases hl : h.lookup r with
    | none => simp [hl] at hd
    | some cell =>
      cases cell with
      | ordinary o =>
        simp only [hl, Bool.and_eq_true] at hd
        refine ⟨o, rfl, fun k s hk => getOwn_of_all_data o.props k s hd.1 hk, ?_⟩
        intro parent hp
        rw [hp] at hd
        exact ⟨e, rfl, hd.2⟩
      | proxy _ _ _ _ => simp [hl] at hd
      | handler _ => simp [hl] at hd

/-- On a chain of data properties a read completes and leaves the heap as it
is. -/
theorem get_on_data_chain (Φ : FunTable) (h : Heap) (k : PropKey) (recv : Val) :
    ∀ (d : Nat) (r : Ref) (N : Nat), dataOnlyChain h d r = true → d ≤ N →
      ∃ v, (methods Φ (N + 1)).get r k recv h = .ret v h := by
  intro d
  induction d with
  | zero =>
    intro r N hd hN
    obtain ⟨o, hl, hdata, hproto⟩ := dataOnlyChain_cell h 0 r hd
    rw [get_ordinary Φ N h r o k recv hl]
    unfold ordinaryGet
    cases hown : o.getOwn k with
    | none =>
      cases hp : o.proto with
      | none => exact ⟨_, rfl⟩
      | some parent =>
        obtain ⟨e, he, -⟩ := hproto parent hp
        cases he
    | some s =>
      cases s with
      | data v w e c => exact ⟨v, rfl⟩
      | accessor g st e c =>
        have := hdata k _ hown
        simp [Slot.isAccessor] at this
  | succ d ih =>
    intro r N hd hN
    obtain ⟨o, hl, hdata, hproto⟩ := dataOnlyChain_cell h (d + 1) r hd
    rw [get_ordinary Φ N h r o k recv hl]
    unfold ordinaryGet
    cases hown : o.getOwn k with
    | none =>
      cases hp : o.proto with
      | none => exact ⟨_, rfl⟩
      | some parent =>
        obtain ⟨e, he, hpar⟩ := hproto parent hp
        have he2 : e = d := by omega
        subst he2
        obtain ⟨M, hM⟩ : ∃ M, N = M + 1 := ⟨N - 1, by omega⟩
        subst hM
        exact ih parent M hpar (by omega)
    | some s =>
      cases s with
      | data v w e c => exact ⟨v, rfl⟩
      | accessor g st e c =>
        have := hdata k _ hown
        simp [Slot.isAccessor] at this

/-- On a chain of ordinary objects `in` completes and leaves the heap as it is. -/
theorem has_on_data_chain (Φ : FunTable) (h : Heap) (k : PropKey) :
    ∀ (d : Nat) (r : Ref) (N : Nat), dataOnlyChain h d r = true → d ≤ N →
      ∃ b, (methods Φ (N + 1)).hasProperty r k h = .ret b h := by
  intro d
  induction d with
  | zero =>
    intro r N hd hN
    obtain ⟨o, hl, hdata, hproto⟩ := dataOnlyChain_cell h 0 r hd
    rw [hasProperty_ordinary Φ N h r o k hl]
    unfold ordinaryHasProperty
    cases hown : o.getOwn k with
    | none =>
      cases hp : o.proto with
      | none => exact ⟨_, rfl⟩
      | some parent =>
        obtain ⟨e, he, -⟩ := hproto parent hp
        cases he
    | some s => exact ⟨_, rfl⟩
  | succ d ih =>
    intro r N hd hN
    obtain ⟨o, hl, hdata, hproto⟩ := dataOnlyChain_cell h (d + 1) r hd
    rw [hasProperty_ordinary Φ N h r o k hl]
    unfold ordinaryHasProperty
    cases hown : o.getOwn k with
    | none =>
      cases hp : o.proto with
      | none => exact ⟨_, rfl⟩
      | some parent =>
        obtain ⟨e, he, hpar⟩ := hproto parent hp
        have he2 : e = d := by omega
        subst he2
        obtain ⟨M, hM⟩ : ∃ M, N = M + 1 := ⟨N - 1, by omega⟩
        subst hM
        exact ih parent M hpar (by omega)
    | some s => exact ⟨_, rfl⟩

/-! ## A read through an object proxy changes no cell -/

/-- After the trap returned, Proxy `[[Get]]` hands its value on or throws a
`TypeError`, in the heap the trap left. -/
theorem proxy_get_tail (Φ : FunTable) (n : Nat) (h h1 : Heap) (P O hd : Ref) (c kk : Bool)
    (L : String) (k : PropKey) (recv a : Val) (o : Ordinary)
    (hP : h.lookup P = some (.proxy O hd c kk))
    (hH : h.lookup hd = some (.handler (.object L)))
    (hO1 : h1.lookup O = some (.ordinary o))
    (htrap : handler.get (methods Φ (n + 1)) L O k recv h = .ret a h1) :
    (methods Φ (n + 2)).get P k recv h = .ret a h1 ∨
      (methods Φ (n + 2)).get P k recv h = .throw .typeError h1 := by
  rw [get_proxy_object Φ (n + 1) h P O hd c kk L k recv hP hH]
  rw [bind_ret _ _ _ _ _ htrap]
  rw [bind_ret _ _ _ _ _ (getOwnProperty_ordinary Φ n h1 O o k hO1)]
  unfold getInvariant
  cases o.getOwn k with
  | none => exact Or.inl rfl
  | some s =>
    cases s with
    | data v w e cf =>
      simp only
      split
      · exact Or.inr rfl
      · exact Or.inl rfl
    | accessor g st e cf =>
      simp only
      split
      · exact Or.inr rfl
      · exact Or.inl rfl

/-- An object on which `instanceof Object` completed is in the heap. -/
theorem instanceof_completes_lookup (Φ : FunTable) (n : Nat) (h : Heap) (r : Ref)
    (hi : (methods Φ (n + 1)).instanceofObject (.obj r) h ≠ .abort) :
    ∃ cell, h.lookup r = some cell := by
  cases hl : h.lookup r with
  | some cell => exact ⟨cell, rfl⟩
  | none =>
    exfalso
    apply hi
    show instanceofObjectStep (methods Φ n) (.obj r) h = .abort
    unfold instanceofObjectStep
    apply bind_abort
    cases n with
    | zero => rfl
    | succ n =>
      simp only [methods, Methods.next]
      simp [dispatch, hl]

/-- Reading through an object proxy a property that the target reads without
changing the heap: every cell of the heap is unchanged afterwards, and the read
completes when `instanceof Object` completes on the value. -/
theorem get_through_proxy_preserves (Φ : FunTable) (n : Nat) (h : Heap) (P O hd : Ref)
    (c kk : Bool) (L : String) (k : PropKey) (recv v : Val) (o : Ordinary)
    (hP : h.lookup P = some (.proxy O hd c kk))
    (hH : h.lookup hd = some (.handler (.object L)))
    (hO : h.lookup O = some (.ordinary o))
    (hget : (methods Φ (n + 1)).get O k (.obj O) h = .ret v h) :
    ((methods Φ (n + 2)).get P k recv h).Preserves h ∧
    ((methods Φ (n + 1)).instanceofObject v h ≠ .abort →
      (methods Φ (n + 2)).get P k recv h ≠ .abort) := by
  -- the two ways the read ends once the trap has returned
  have tail : ∀ (a : Val) (h1 : Heap), h.Extends h1 →
      handler.get (methods Φ (n + 1)) L O k recv h = .ret a h1 →
      ((methods Φ (n + 2)).get P k recv h).Preserves h ∧
        (methods Φ (n + 2)).get P k recv h ≠ .abort := by
    intro a h1 hext htrap
    rcases proxy_get_tail Φ n h h1 P O hd c kk L k recv a o hP hH (hext.2 O _ hO) htrap
      with e | e <;> rw [e] <;> exact ⟨hext, by simp⟩
  have thrown : ∀ (e : Err) (h1 : Heap), h.Extends h1 →
      handler.get (methods Φ (n + 1)) L O k recv h = .throw e h1 →
      ((methods Φ (n + 2)).get P k recv h).Preserves h ∧
        (methods Φ (n + 2)).get P k recv h ≠ .abort := by
    intro e h1 hext htrap
    rw [get_proxy_object Φ (n + 1) h P O hd c kk L k recv hP hH, bind_throw _ _ _ _ _ htrap]
    exact ⟨hext, by simp⟩
  cases hi : (methods Φ (n + 1)).instanceofObject v h with
  | abort =>
    have htrap : handler.get (methods Φ (n + 1)) L O k recv h = .abort := by
      simp [handler.get, bind_run, hget, hi]
    rw [get_proxy_object Φ (n + 1) h P O hd c kk L k recv hP hH, bind_abort _ _ _ htrap]
    exact ⟨trivial, fun hx => absurd rfl hx⟩
  | throw e h2 =>
    have e2 : h2 = h := ((queriesKeepHeap Φ (n + 1)).instanceofObject v h).2 e h2 hi
    subst e2
    have htrap : handler.get (methods Φ (n + 1)) L O k recv h2 = .throw e h2 := by
      simp [handler.get, bind_run, hget, hi]
    exact ⟨(thrown e h2 (extends_refl h2) htrap).1, fun _ => (thrown e h2 (extends_refl h2) htrap).2⟩
  | ret b h2 =>
    have e2 : h2 = h := ((queriesKeepHeap Φ (n + 1)).instanceofObject v h).1 b h2 hi
    subst e2
    cases b with
    | false =>
      have htrap := handler_get_raw (methods Φ (n + 1)) L O k recv v h2 h2 h2 hget hi
      exact ⟨(tail v h2 (extends_refl h2) htrap).1, fun _ => (tail v h2 (extends_refl h2) htrap).2⟩
    | true =>
      cases v with
      | obj r =>
        obtain ⟨cell, hcell⟩ := instanceof_completes_lookup Φ n h2 r (by rw [hi]; simp)
        cases hcall : cell.isCallable with
        | true =>
          have htrap := handler_get_function (methods Φ (n + 1)) L O r k recv h2 h2 h2 cell
            hget hi hcell hcall
          have := tail _ _ (extends_push_push h2 _ _) htrap
          exact ⟨this.1, fun _ => this.2⟩
        | false =>
          cases k with
          | str s =>
            have htrap := handler_get_object (methods Φ (n + 1)) L O r s recv h2 h2 h2 cell
              hget hi hcell hcall
            have := tail _ _ (extends_push_push h2 _ _) htrap
            exact ⟨this.1, fun _ => this.2⟩
          | sym id =>
            have htrap := handler_get_symbol_object (methods Φ (n + 1)) L O r id recv h2 h2 h2
              cell hget hi hcell hcall
            have := thrown _ _ (extends_refl h2) htrap
            exact ⟨this.1, fun _ => this.2⟩
      | undefined => rw [instanceof_primitive Φ n _ h2 (by simp)] at hi; cases hi
      | null => rw [instanceof_primitive Φ n _ h2 (by simp)] at hi; cases hi
      | bool x => rw [instanceof_primitive Φ n _ h2 (by simp)] at hi; cases hi
      | num x => rw [instanceof_primitive Φ n _ h2 (by simp)] at hi; cases hi
      | str x => rw [instanceof_primitive Φ n _ h2 (by simp)] at hi; cases hi
      | sym x => rw [instanceof_primitive Φ n _ h2 (by simp)] at hi; cases hi

theorem cellAfter_of_preserves {α : Type} (x : Outcome α) (h : Heap) (r : Ref) (cell : Obj)
    (hp : x.Preserves h) (hl : h.lookup r = some cell) (hx : x ≠ .abort) :
    x.cellAfter r = some cell := by
  cases x with
  | ret a h1 => exact hp.2 r cell hl
  | throw e h1 => exact hp.2 r cell hl
  | abort => exact absurd rfl hx

/-! ## C11 -/

/-- C11. Let `O` be an ordinary object whose properties, own and inherited along a
chain of ordinary objects, are all data properties, and `P = proxy(O, label,
"object")`. (1) Reading `P[k]`, for every key `k`: the read `O[k]` completes
without changing the heap; whatever `P[k]` returns or throws, every cell that
was in the heap is unchanged afterwards (new proxies are new cells), so the
cell of `O`, with its keys, descriptors, values, prototype and extensibility, is
the same; and `P[k]` completes when `instanceof Object` completes on the value.
(2) `k in P`, (3) getting the prototype of `P` and (4) asking whether `P` is
extensible complete in the heap they started from. -/
theorem reads_leave_target_unchanged (Φ : FunTable) (n d : Nat) (h0 h : Heap) (P O : Ref)
    (label : String) (o : Ordinary)
    (hO : h0.lookup O = some (.ordinary o))
    (hwrap : proxy (.obj O) label (.str "object") h0 = .ret P h)
    (hdata : dataOnlyChain h d O = true) (hdn : d ≤ n) :
    (∀ k : PropKey, ∃ v,
      (methods Φ (n + 1)).get O k (.obj O) h = .ret v h ∧
      ((methods Φ (n + 2)).get P k (.obj P) h).Preserves h ∧
      ((methods Φ (n + 2)).get P k (.obj P) h ≠ .abort →
        ((methods Φ (n + 2)).get P k (.obj P) h).cellAfter O = some (.ordinary o)) ∧
      ((methods Φ (n + 1)).instanceofObject v h ≠ .abort →
        (methods Φ (n + 2)).get P k (.obj P) h ≠ .abort)) ∧
    (∀ k : PropKey, ∃ b, (methods Φ (n + 2)).hasProperty P k h = .ret b h) ∧
    (methods Φ (n + 2)).getPrototypeOf P h = .ret o.proto h ∧
    (methods Φ (n + 2)).isExtensible P h = .ret o.extensible h := by
  obtain ⟨hP, hH, hold, -, -⟩ :=
    proxy_object_cells O label (.str "object") h0 h P _ (by decide) hO hwrap
  have hO1 : h.lookup O = some (.ordinary o) := hold O _ hO
  refine ⟨fun k => ?_, fun k => ?_, ?_, ?_⟩
  · obtain ⟨v, hget⟩ := get_on_data_chain Φ h k (.obj O) d O n hdata hdn
    obtain ⟨hpres, hcomp⟩ :=
      get_through_proxy_preserves Φ n h P O _ _ _ label k (.obj P) v o hP hH hO1 hget
    exact ⟨v, hget, hpres, cellAfter_of_preserves _ h O _ hpres hO1, hcomp⟩
  · obtain ⟨b, hb⟩ := has_on_data_chain Φ h k d O n hdata hdn
    exact ⟨b, by rw [has_through_proxy Φ n h P O _ _ _ label k o hP hH hO1, hb]⟩
  · exact getPrototypeOf_through_proxy Φ n h P O _ _ _ label o hP hH hO1
  · exact isExtensible_through_proxy Φ n h P O _ _ _ label o hP hH hO1

/-- Witness for C11 on the page `O = { greet, name: "orig" }`: after reading
`P.greet`, which allocates a method proxy, the cell of `O` is what it was. -/
theorem reads_leave_target_unchanged_witness :
    ((methods thisName 4).get 6 (.str "greet") (.obj 6) demoWrapped).Preserves demoWrapped ∧
    ((methods thisName 4).get 6 (.str "greet") (.obj 6) demoWrapped).cellAfter 3
      = some (.ordinary recO) ∧
    (∃ b, (methods thisName 4).hasProperty 6 (.str "name") demoWrapped = .ret b demoWrapped) ∧
    (methods thisName 4).getPrototypeOf 6 demoWrapped = .ret recO.proto demoWrapped ∧
    (methods thisName 4).isExtensible 6 demoWrapped = .ret recO.extensible demoWrapped :=
  have t := reads_leave_target_unchanged thisName 2 1 demoHeap demoWrapped 6 3 "root" recO
    rfl rfl rfl (by decide)
  ⟨(t.1 (.str "greet")).choose_spec.2.1, rfl, t.2.1 (.str "name"), t.2.2.1, t.2.2.2⟩

/-! ## The handler records of proxies keep an object as `target_obj` -/

theorem lookup_push_cases (h : Heap) (c : Obj) (r : Ref) (y : Obj)
    (hl : (h.push c).lookup r = some y) :
    h.lookup r = some y ∨ (r = h.objs.length ∧ y = c) := by
  by_cases hr : r < h.objs.length
  · rw [lookup_push_lt h c r hr] at hl
    exact Or.inl hl
  · have hr2 : r < (h.push c).objs.length := lookup_lt _ r y hl
    rw [length_push] at hr2
    have e : r = h.objs.length := Nat.le_antisymm (Nat.lt_succ_iff.mp hr2) (Nat.not_lt.mp hr)
    subst e
    rw [lookup_push_eq] at hl
    injection hl with e2
    exact Or.inr ⟨rfl, e2.symm⟩

theorem lookup_update_ne (h : Heap) (r q : Ref) (c : Obj) (hq : q ≠ r) :
    (h.update r c).lookup q = h.lookup q := by
  simp only [Heap.update, Heap.lookup]
  exact List.getElem?_set_ne (fun hx => hq hx.symm)

theorem lookup_update_cases (h : Heap) (r q : Ref) (c y : Obj)
    (hl : (h.update r c).lookup q = some y) :
    (q = r ∧ y = c) ∨ (q ≠ r ∧ h.lookup q = some y) := by
  by_cases hq : q = r
  · subst hq
    have hlt : q < (h.update q c).objs.length := lookup_lt _ q y hl
    simp only [Heap.update, List.length_set] at hlt
    simp only [Heap.update, Heap.lookup, List.getElem?_set_self hlt, Option.some.injEq] at hl
    exact Or.inl ⟨rfl, hl.symm⟩
  · rw [lookup_update_ne h r q c hq] at hl
    exact Or.inr ⟨hq, hl⟩

/-- A new cell that is not a Proxy keeps `Heap.Bound`. -/
theorem bound_push (h : Heap) (c : Obj) (hb : h.Bound)
    (hc : ∀ t hd cc k, c ≠ .proxy t hd cc k) : (h.push c).Bound := by
  intro P t hd cc k hl
  rcases lookup_push_cases h c P _ hl with hl1 | ⟨-, e⟩
  · obtain ⟨x, hx, hxb⟩ := hb P t hd cc k hl1
    exact ⟨x, lookup_push_of_some h c _ hd hx, hxb⟩
  · exact absurd e.symm (hc t hd cc k)

/-- A new Proxy over a handler record that is bound keeps `Heap.Bound`. -/
theorem bound_push_proxy (h : Heap) (t hd : Ref) (cc k : Bool) (x : Handler) (hb : h.Bound)
    (hh : h.lookup hd = some (.handler x)) (hx : x.bound = true) :
    (h.push (.proxy t hd cc k)).Bound := by
  intro P t1 hd1 c1 k1 hl
  rcases lookup_push_cases h _ P _ hl with hl1 | ⟨-, e⟩
  · obtain ⟨x1, hx1, hxb⟩ := hb P t1 hd1 c1 k1 hl1
    exact ⟨x1, lookup_push_of_some h _ _ hd1 hx1, hxb⟩
  · injection e with e1 e2 e3 e4
    subst e2
    exact ⟨x, lookup_push_of_some h _ _ hd1 hh, hx⟩

/-- Rewriting an ordinary object keeps `Heap.Bound`. -/
theorem bound_update (h : Heap) (r : Ref) (o o1 : Ordinary) (hb : h.Bound)
    (hr : h.lookup r = some (.ordinary o)) : (h.update r (.ordinary o1)).Bound := by
  intro P t hd cc k hl
  rcases lookup_update_cases h r P _ _ hl with ⟨-, e⟩ | ⟨-, hl1⟩
  · cases e
  · obtain ⟨x, hx, hxb⟩ := hb P t hd cc k hl1
    have hne : hd ≠ r := by
      intro e
      subst e
      rw [hr] at hx
      cases hx
    exact ⟨x, by rw [lookup_update_ne h r hd _ hne]; exact hx, hxb⟩

theorem bound_of_check (h : Heap) (hc : h.boundCheck = true) : h.Bound := by
  intro P t hd c k hl
  simp only [Heap.boundCheck, List.all_eq_true] at hc
  have hm : Obj.proxy t hd c k ∈ h.objs := by
    simp only [Heap.lookup] at hl
    exact List.mem_iff_getElem?.mpr ⟨P, hl⟩
  have := hc _ hm
  simp only at this
  cases hh : h.lookup hd with
  | none => simp [hh] at this
  | some cell =>
    cases cell with
    | handler x =>
      simp only [hh] at this
      exact ⟨x, rfl, this⟩
    | ordinary o => simp [hh] at this
    | proxy _ _ _ _ => simp [hh] at this

theorem keepsBound_pure {α : Type} (a : α) : (pure a : JS α).KeepsBound := fun _ hb => hb

theorem keepsBound_throw {α : Type} : (JS.throwTypeError : JS α).KeepsBound := fun _ hb => hb

theorem keepsBound_abort {α : Type} : (JS.abort : JS α).KeepsBound := fun _ _ => trivial

theorem keepsBound_bind {α β : Type} (x : JS α) (f : α → JS β)
    (hx : x.KeepsBound) (hf : ∀ a, (f a).KeepsBound) : (x >>= f).KeepsBound := by
  intro h hb
  have e := hx h hb
  rw [bind_run]
  cases hxh : x h with
  | ret a h1 =>
    rw [hxh] at e
    exact hf a h1 e
  | throw er h1 =>
    rw [hxh] at e
    exact e
  | abort => trivial

theorem keepsBound_ite {α : Type} (c : Prop) [Decidable c] (x y : JS α)
    (hx : x.KeepsBound) (hy : y.KeepsBound) : (if c then x else y).KeepsBound := by
  split
  · exact hx
  · exact hy

/-- The dispatch of an internal method: the ordinary branch may use that the
cell is an ordinary object. -/
theorem keepsBound_dispatch {α : Type} (r : Ref) (ord : Ordinary → JS α)
    (prx : Handler → Ref → Bool → Bool → JS α)
    (ho : ∀ o h, h.lookup r = some (.ordinary o) → h.Bound → (ord o h).Bound)
    (hp : ∀ x t c k, (prx x t c k).KeepsBound) :
    (dispatch r ord prx).KeepsBound := by
  intro h hb
  unfold dispatch
  cases hl : h.lookup r with
  | none => trivial
  | some cell =>
    cases cell with
    | ordinary o => exact ho o h hl hb
    | handler x => trivial
    | proxy t hd c k =>
      simp only
      cases h.lookup hd with
      | none => trivial
      | some cell2 =>
        cases cell2 with
        | ordinary o => trivial
        | proxy _ _ _ _ => trivial
        | handler x => exact hp x t c k h hb

theorem keepsBound_isCallable (v : Val) : (isCallable v).KeepsBound := by
  intro h hb
  cases v <;> try exact hb
  rename_i r
  simp only [isCallable]
  cases h.lookup r with
  | none => trivial
  | some c => exact hb

theorem keepsBound_isConstructor (r : Ref) : (isConstructor r).KeepsBound := by
  intro h hb
  simp only [isConstructor]
  cases h.lookup r with
  | none => trivial
  | some c => exact hb

/-- Building a handler record and wrapping `result` with it keeps `Heap.Bound`,
when the record is bound or `result` is not an object (then `new Proxy`
throws and no Proxy holds the record). -/
theorem keepsBound_wrap (x : Handler) (result : Val)
    (hx : x.bound = true ∨ ∀ t, result ≠ .obj t) :
    (allocCell (.handler x) >>= fun hd => newProxy result hd).KeepsBound := by
  intro h hb
  rw [bind_ret _ _ _ _ _ (allocCell_run _ h)]
  have hb1 : (h.push (.handler x)).Bound := bound_push h _ hb (by intro t hd cc k e; cases e)
  cases result with
  | obj t =>
    simp only [newProxy, bind_run, getCell]
    cases (h.push (.handler x)).lookup t with
    | none => trivial
    | some c =>
      simp only [allocCell_run]
      rcases hx with hx | hx
      · exact bound_push_proxy _ t h.objs.length _ _ x hb1 (lookup_push_eq h _) hx
      · exact absurd rfl (hx t)
  | undefined => exact hb1
  | null => exact hb1
  | bool b => exact hb1
  | num b => exact hb1
  | str b => exact hb1
  | sym b => exact hb1

theorem bound_ordinarySetPrototypeOf (r : Ref) (o : Ordinary) (v : Option Ref) (h : Heap)
    (hr : h.lookup r = some (.ordinary o)) (hb : h.Bound) :
    (ordinarySetPrototypeOf r o v h).Bound := by
  unfold ordinarySetPrototypeOf
  by_cases c1 : v = o.proto
  · simp only [c1, if_true]
    exact hb
  · simp only [c1, if_false]
    cases o.extensible with
    | false => exact hb
    | true =>
      simp only [Bool.not_true, Bool.false_eq_true, if_false]
      cases protoChainHits h r (h.objs.length + 1) v with
      | none => trivial
      | some b =>
        cases b with
        | true => exact hb
        | false => exact bound_update h r o _ hb hr

theorem bound_ordinaryPreventExtensions (r : Ref) (o : Ordinary) (h : Heap)
    (hr : h.lookup r = some (.ordinary o)) (hb : h.Bound) :
    (ordinaryPreventExtensions r o h).Bound :=
  bound_update h r o _ hb hr

theorem bound_ordinaryDefineOwnProperty (r : Ref) (o : Ordinary) (k : PropKey) (d : Desc)
    (h : Heap) (hr : h.lookup r = some (.ordinary o)) (hb : h.Bound) :
    (ordinaryDefineOwnProperty r o k d h).Bound := by
  unfold ordinaryDefineOwnProperty
  cases validateAndApply o.extensible d (o.getOwn k) with
  | none => exact hb
  | some s => exact bound_update h r o _ hb hr

theorem bound_ordinaryDelete (r : Ref) (o : Ordinary) (k : PropKey) (h : Heap)
    (hr : h.lookup r = some (.ordinary o)) (hb : h.Bound) :
    (ordinaryDelete r o k h).Bound := by
  unfold ordinaryDelete
  cases o.getOwn k with
  | none => exact hb
  | some s =>
    cases hc : s.configurable with
    | false =>
      simp only [hc, Bool.false_eq_true, if_false]
      exact hb
    | true =>
      simp only [hc, if_true]
      exact bound_update h r o _ hb hr

theorem keepsBound_ordinaryHasProperty (m : Methods) (hm : m.KeepsBound) (o : Ordinary)
    (k : PropKey) : (ordinaryHasProperty m o k).KeepsBound := by
  unfold ordinaryHasProperty
  cases o.getOwn k with
  | some s => exact keepsBound_pure _
  | none =>
    cases o.proto with
    | none => exact keepsBound_pure _
    | some parent => exact hm.hasProperty parent k

theorem keepsBound_ordinaryGet (m : Methods) (hm : m.KeepsBound) (o : Ordinary) (k : PropKey)
    (recv : Val) : (ordinaryGet m o k recv).KeepsBound := by
  unfold ordinaryGet
  cases o.getOwn k with
  | none =>
    cases o.proto with
    | none => exact keepsBound_pure _
    | some parent => exact hm.get parent k recv
  | some s =>
    cases s with
    | data v w e c => exact keepsBound_pure _
    | accessor g st e c =>
      cases g with
      | obj gr => exact hm.call gr recv []
      | _ => exact keepsBound_pure _

theorem keepsBound_setOnReceiver (m : Methods) (hm : m.KeepsBound) (k : PropKey) (v recv : Val) :
    (setOnReceiver m k v recv).KeepsBound := by
  unfold setOnReceiver
  cases recv with
  | obj rc =>
    refine keepsBound_bind _ _ (hm.getOwnProperty rc k) (fun existing => ?_)
    cases existing with
    | none => exact hm.defineOwnProperty rc k _
    | some s =>
      cases s with
      | data cur w e c =>
        exact keepsBound_ite _ _ _ (hm.defineOwnProperty rc k _) (keepsBound_pure _)
      | accessor g st e c => exact keepsBound_pure _
  | _ => exact keepsBound_pure _

theorem keepsBound_ordinarySet (m : Methods) (hm : m.KeepsBound) (o : Ordinary) (k : PropKey)
    (v recv : Val) : (ordinarySet m o k v recv).KeepsBound := by
  unfold ordinarySet
  cases o.getOwn k with
  | none =>
    cases o.proto with
    | none => exact keepsBound_setOnReceiver m hm k v recv
    | some parent => exact hm.set parent k v recv
  | some s =>
    cases s with
    | data cur w e c =>
      exact keepsBound_ite _ _ _ (keepsBound_setOnReceiver m hm k v recv) (keepsBound_pure _)
    | accessor g st e c =>
      cases st with
      | obj sr => exact keepsBound_bind _ _ (hm.call sr recv [v]) (fun _ => keepsBound_pure _)
      | _ => exact keepsBound_pure _

theorem keepsBound_ordinaryCall (Φ : FunTable) (hΦ : Φ.KeepsBound) (o : Ordinary) (thisArg : Val)
    (args : List Val) : (ordinaryCall Φ o thisArg args).KeepsBound := by
  unfold ordinaryCall
  cases o.call with
  | none => exact keepsBound_throw
  | some f => exact hΦ.call f thisArg args

theorem keepsBound_ordinaryConstruct (Φ : FunTable) (hΦ : Φ.KeepsBound) (o : Ordinary)
    (args : List Val) (newTarget : Ref) : (ordinaryConstruct Φ o args newTarget).KeepsBound := by
  unfold ordinaryConstruct
  cases o.call with
  | none => exact keepsBound_throw
  | some f =>
    cases o.ctor with
    | false => exact keepsBound_throw
    | true => exact hΦ.construct f args newTarget

theorem keepsBound_reflect_apply (m : Methods) (hm : m.KeepsBound) (target : Ref) (thisArg : Val)
    (args : List Val) : (Reflect.apply m target thisArg args).KeepsBound := by
  unfold Reflect.apply
  refine keepsBound_bind _ _ (keepsBound_isCallable _) (fun c => ?_)
  exact keepsBound_ite _ _ _ (hm.call target thisArg args) keepsBound_throw

theorem keepsBound_reflect_construct (m : Methods) (hm : m.KeepsBound) (target : Ref)
    (args : List Val) (newTarget : Ref) :
    (Reflect.construct m target args newTarget).KeepsBound := by
  unfold Reflect.construct
  refine keepsBound_bind _ _ (keepsBound_isConstructor _) (fun c => ?_)
  refine keepsBound_ite _ _ _ ?_ keepsBound_throw
  refine keepsBound_bind _ _ (keepsBound_isConstructor _) (fun c2 => ?_)
  exact keepsBound_ite _ _ _ (hm.construct target args newTarget) keepsBound_throw

theorem keepsBound_instanceofObjectStep (m : Methods) (hm : m.KeepsBound) (v : Val) :
    (instanceofObjectStep m v).KeepsBound := by
  unfold instanceofObjectStep
  cases v with
  | obj r =>
    refine keepsBound_bind _ _ (hm.getPrototypeOf r) (fun p => ?_)
    cases p with
    | none => exact keepsBound_pure _
    | some q =>
      intro h hb
      simp only
      split
      · exact hb
      · exact hm.instanceofObject (.obj q) h hb
  | _ => exact keepsBound_pure _

/-- The `get` trap keeps `Heap.Bound`: the record it builds for a function
holds `target`, an object. -/
theorem keepsBound_handler_get (m : Methods) (hm : m.KeepsBound) (W : String) (target : Ref)
    (k : PropKey) (recv : Val) : (handler.get m W target k recv).KeepsBound := by
  unfold handler.get
  refine keepsBound_bind _ _ (hm.get target k _) (fun result => ?_)
  refine keepsBound_bind _ _ (hm.instanceofObject result) (fun isObject => ?_)
  refine keepsBound_ite _ _ _ ?_ (keepsBound_pure _)
  refine keepsBound_bind _ _ (keepsBound_isCallable result) (fun isFunction => ?_)
  refine keepsBound_ite _ _ _ ?_ ?_
  · have e : (getMethodHandler W (.obj target) >>= fun hd =>
          newProxy result hd >>= fun p => (pure (Val.obj p) : JS Val))
        = ((allocCell (.handler (.method W (.obj target))) >>= fun hd => newProxy result hd)
            >>= fun p => (pure (Val.obj p) : JS Val)) := by
      funext h
      simp only [getMethodHandler, bind_run, allocCell_run]
    rw [e]
    exact keepsBound_bind _ _ (keepsBound_wrap _ result (Or.inl rfl)) (fun p => keepsBound_pure _)
  · cases k with
    | sym id =>
      intro h hb
      exact hb
    | str s =>
      have e : (childName W (.str s) >>= fun name => getObjhandler name >>= fun hd =>
            newProxy result hd >>= fun p => (pure (Val.obj p) : JS Val))
          = ((allocCell (.handler (.object (W ++ "." ++ s))) >>= fun hd => newProxy result hd)
              >>= fun p => (pure (Val.obj p) : JS Val)) := by
        funext h
        simp only [childName, getObjhandler, bind_run, pure_run, allocCell_run]
      rw [e]
      exact keepsBound_bind _ _ (keepsBound_wrap _ result (Or.inl rfl))
        (fun p => keepsBound_pure _)

/-- The function `proxy` keeps `Heap.Bound`: with kind `"method"` the record
holds `obj`, and a Proxy is built over it only when `obj` is an object. -/
theorem keepsBound_proxy (obj : Val) (objname : String) (type : Val) :
    (proxy obj objname type).KeepsBound := by
  unfold proxy
  refine keepsBound_ite _ _ _ ?_ ?_
  · refine keepsBound_wrap (.method objname obj) obj ?_
    cases obj with
    | obj t => exact Or.inl rfl
    | _ => exact Or.inr (fun t e => by cases e)
  · exact keepsBound_wrap (.object objname) obj (Or.inl rfl)

theorem keepsBound_getInvariant (trapResult : Val) (d : Option Slot) :
    (getInvariant trapResult d).KeepsBound := by
  unfold getInvariant
  cases d with
  | none => exact keepsBound_pure _
  | some s =>
    cases s with
    | data v w e c => exact keepsBound_ite _ _ _ keepsBound_throw (keepsBound_pure _)
    | accessor g st e c => exact keepsBound_ite _ _ _ keepsBound_throw (keepsBound_pure _)

theorem keepsBound_setInvariant (v : Val) (d : Option Slot) :
    (setInvariant v d).KeepsBound := by
  unfold setInvariant
  cases d with
  | none => exact keepsBound_pure _
  | some s =>
    cases s with
    | data cur w e c => exact keepsBound_ite _ _ _ keepsBound_throw (keepsBound_pure _)
    | accessor g st e c => exact keepsBound_ite _ _ _ keepsBound_throw (keepsBound_pure _)

theorem keepsBound_defineInvariant (d : Desc) (targetDesc : Option Slot) (ext : Bool) :
    (defineInvariant d targetDesc ext).KeepsBound := by
  unfold defineInvariant
  cases targetDesc with
  | none =>
    exact keepsBound_ite _ _ _ keepsBound_throw
      (keepsBound_ite _ _ _ keepsBound_throw (keepsBound_pure _))
  | some cur =>
    refine keepsBound_ite _ _ _ keepsBound_throw (keepsBound_ite _ _ _ keepsBound_throw ?_)
    cases cur with
    | data v w e c => exact keepsBound_ite _ _ _ keepsBound_throw (keepsBound_pure _)
    | accessor g st e c => exact keepsBound_pure _

theorem keepsBound_next (Φ : FunTable) (hΦ : Φ.KeepsBound) (m : Methods) (hm : m.KeepsBound) :
    (Methods.next Φ m).KeepsBound := by
  constructor
  · -- getPrototypeOf
    intro r
    refine keepsBound_dispatch _ _ _ (fun o h _ hb => hb) (fun x t _ _ => ?_)
    cases x with
    | method W tobj => exact hm.getPrototypeOf t
    | object W =>
      refine keepsBound_bind _ _ (hm.getPrototypeOf t) (fun a => ?_)
      refine keepsBound_bind _ _ (hm.isExtensible t) (fun b => ?_)
      refine keepsBound_ite _ _ _ (keepsBound_pure _) ?_
      refine keepsBound_bind _ _ (hm.getPrototypeOf t) (fun c => ?_)
      exact keepsBound_ite _ _ _ (keepsBound_pure _) keepsBound_throw
  · -- setPrototypeOf
    intro r v
    refine keepsBound_dispatch _ _ _ (fun o h hr hb => bound_ordinarySetPrototypeOf r o v h hr hb)
      (fun x t _ _ => ?_)
    cases x with
    | method W tobj => exact hm.setPrototypeOf t v
    | object W =>
      refine keepsBound_bind _ _ (hm.setPrototypeOf t v) (fun a => ?_)
      refine keepsBound_ite _ _ _ ?_ (keepsBound_pure _)
      refine keepsBound_bind _ _ (hm.isExtensible t) (fun b => ?_)
      refine keepsBound_ite _ _ _ (keepsBound_pure _) ?_
      refine keepsBound_bind _ _ (hm.getPrototypeOf t) (fun c => ?_)
      exact keepsBound_ite _ _ _ (keepsBound_pure _) keepsBound_throw
  · -- isExtensible
    intro r
    refine keepsBound_dispatch _ _ _ (fun o h _ hb => hb) (fun x t _ _ => ?_)
    cases x with
    | method W tobj => exact hm.isExtensible t
    | object W =>
      refine keepsBound_bind _ _ (hm.isExtensible t) (fun a => ?_)
      refine keepsBound_bind _ _ (hm.isExtensible t) (fun b => ?_)
      exact keepsBound_ite _ _ _ (keepsBound_pure _) keepsBound_throw
  · -- preventExtensions
    intro r
    refine keepsBound_dispatch _ _ _
      (fun o h hr hb => bound_ordinaryPreventExtensions r o h hr hb) (fun x t _ _ => ?_)
    cases x with
    | method W tobj => exact hm.preventExtensions t
    | object W =>
      refine keepsBound_bind _ _ (hm.preventExtensions t) (fun a => ?_)
      refine keepsBound_ite _ _ _ ?_ (keepsBound_pure _)
      refine keepsBound_bind _ _ (hm.isExtensible t) (fun b => ?_)
      exact keepsBound_ite _ _ _ keepsBound_throw (keepsBound_pure _)
  · -- getOwnProperty
    intro r k
    exact keepsBound_dispatch _ _ _ (fun o h _ hb => hb) (fun x t _ _ => hm.getOwnProperty t k)
  · -- defineOwnProperty
    intro r k d
    refine keepsBound_dispatch _ _ _
      (fun o h hr hb => bound_ordinaryDefineOwnProperty r o k d h hr hb) (fun x t _ _ => ?_)
    cases x with
    | method W tobj => exact hm.defineOwnProperty t k d
    | object W =>
      refine keepsBound_bind _ _ ?_ (fun a => ?_)
      · exact keepsBound_ite _ _ _ keepsBound_throw (hm.defineOwnProperty t k d)
      · refine keepsBound_ite _ _ _ ?_ (keepsBound_pure _)
        refine keepsBound_bind _ _ (hm.getOwnProperty t k) (fun td => ?_)
        refine keepsBound_bind _ _ (hm.isExtensible t) (fun ext => ?_)
        exact keepsBound_defineInvariant d td ext
  · -- hasProperty
    intro r k
    refine keepsBound_dispatch _ _ _
      (fun o h _ hb => keepsBound_ordinaryHasProperty m hm o k h hb) (fun x t _ _ => ?_)
    cases x with
    | method W tobj => exact hm.hasProperty t k
    | object W =>
      refine keepsBound_bind _ _ (hm.hasProperty t k) (fun a => ?_)
      refine keepsBound_ite _ _ _ (keepsBound_pure _) ?_
      refine keepsBound_bind _ _ (hm.getOwnProperty t k) (fun td => ?_)
      cases td with
      | none => exact keepsBound_pure _
      | some cur =>
        refine keepsBound_ite _ _ _ keepsBound_throw ?_
        refine keepsBound_bind _ _ (hm.isExtensible t) (fun ext => ?_)
        exact keepsBound_ite _ _ _ (keepsBound_pure _) keepsBound_throw
  · -- get
    intro r k recv
    refine keepsBound_dispatch _ _ _
      (fun o h _ hb => keepsBound_ordinaryGet m hm o k recv h hb) (fun x t _ _ => ?_)
    cases x with
    | method W tobj => exact hm.get t k recv
    | object W =>
      refine keepsBound_bind _ _ (keepsBound_handler_get m hm W t k recv) (fun tr => ?_)
      refine keepsBound_bind _ _ (hm.getOwnProperty t k) (fun td => ?_)
      exact keepsBound_getInvariant tr td
  · -- set
    intro r k v recv
    refine keepsBound_dispatch _ _ _
      (fun o h _ hb => keepsBound_ordinarySet m hm o k v recv h hb) (fun x t _ _ => ?_)
    cases x with
    | method W tobj => exact hm.set t k v recv
    | object W =>
      refine keepsBound_bind _ _ (hm.set t k v recv) (fun a => ?_)
      refine keepsBound_ite _ _ _ ?_ (keepsBound_pure _)
      refine keepsBound_bind _ _ (hm.getOwnProperty t k) (fun td => ?_)
      exact keepsBound_setInvariant v td
  · -- delete
    intro r k
    refine keepsBound_dispatch _ _ _ (fun o h hr hb => bound_ordinaryDelete r o k h hr hb)
      (fun x t _ _ => ?_)
    cases x with
    | method W tobj => exact hm.delete t k
    | object W =>
      refine keepsBound_bind _ _ (hm.delete t k) (fun a => ?_)
      refine keepsBound_ite _ _ _ ?_ (keepsBound_pure _)
      refine keepsBound_bind _ _ (hm.getOwnProperty t k) (fun td => ?_)
      cases td with
      | none => exact keepsBound_pure _
      | some cur =>
        refine keepsBound_ite _ _ _ keepsBound_throw ?_
        refine keepsBound_bind _ _ (hm.isExtensible t) (fun ext => ?_)
        exact keepsBound_ite _ _ _ (keepsBound_pure _) keepsBound_throw
  · -- ownPropertyKeys
    intro r
    exact keepsBound_dispatch _ _ _ (fun o h _ hb => hb) (fun x t _ _ => hm.ownPropertyKeys t)
  · -- call
    intro r thisArg args
    refine keepsBound_dispatch _ _ _
      (fun o h _ hb => keepsBound_ordinaryCall Φ hΦ o thisArg args h hb) (fun x t c _ => ?_)
    cases x with
    | method W tobj =>
      exact keepsBound_ite _ _ _ (keepsBound_reflect_apply m hm t _ args) keepsBound_throw
    | object W => exact keepsBound_ite _ _ _ (hm.call t thisArg args) keepsBound_throw
  · -- construct
    intro r args newTarget
    refine keepsBound_dispatch _ _ _
      (fun o h _ hb => keepsBound_ordinaryConstruct Φ hΦ o args newTarget h hb)
      (fun x t _ c => ?_)
    cases x with
    | method W tobj =>
      exact keepsBound_ite _ _ _ (keepsBound_reflect_construct m hm t args newTarget)
        keepsBound_throw
    | object W => exact keepsBound_ite _ _ _ (hm.construct t args newTarget) keepsBound_throw
  · -- instanceofObject
    intro v
    exact keepsBound_instanceofObjectStep m hm v

theorem keepsBound_none : Methods.none.KeepsBound :=
  ⟨fun _ => keepsBound_abort, fun _ _ => keepsBound_abort, fun _ => keepsBound_abort,
    fun _ => keepsBound_abort, fun _ _ => keepsBound_abort, fun _ _ _ => keepsBound_abort,
    fun _ _ => keepsBound_abort, fun _ _ _ => keepsBound_abort, fun _ _ _ _ => keepsBound_abort,
    fun _ _ => keepsBound_abort, fun _ => keepsBound_abort, fun _ _ _ => keepsBound_abort,
    fun _ _ _ => keepsBound_abort, fun _ => keepsBound_abort⟩

/-- Every internal method keeps `Heap.Bound`, at any layer. -/
theorem keepsBound_methods (Φ : FunTable) (hΦ : Φ.KeepsBound) (n : Nat) :
    (methods Φ n).KeepsBound := by
  induction n with
  | zero => exact keepsBound_none
  | succ n ih => exact keepsBound_next Φ hΦ _ ih

theorem keepsBound_onObject (v : Val) (f : Ref → JS Val) (hf : ∀ r, (f r).KeepsBound) :
    (onObject v f).KeepsBound := by
  unfold onObject
  cases v with
  | obj r => exact hf r
  | _ => exact keepsBound_throw

theorem keepsBound_step (m : Methods) (hm : m.KeepsBound) (rs : List (Completion Val))
    (op : Op) : (step m rs op).KeepsBound := by
  cases op with
  | get o k => exact keepsBound_onObject _ _ (fun r => hm.get r k _)
  | set o k v =>
    exact keepsBound_onObject _ _ (fun r =>
      keepsBound_bind _ _ (hm.set r k _ _) (fun _ => keepsBound_pure _))
  | has o k =>
    exact keepsBound_onObject _ _ (fun r =>
      keepsBound_bind _ _ (hm.hasProperty r k) (fun _ => keepsBound_pure _))
  | delete o k =>
    exact keepsBound_onObject _ _ (fun r =>
      keepsBound_bind _ _ (hm.delete r k) (fun _ => keepsBound_pure _))
  | define o k d =>
    refine keepsBound_onObject _ _ (fun r =>
      keepsBound_bind _ _ ?_ (fun _ => keepsBound_pure _))
    unfold objectDefineProperty
    refine keepsBound_ite _ _ _ keepsBound_throw ?_
    refine keepsBound_bind _ _ (hm.defineOwnProperty r k d) (fun ok => ?_)
    exact keepsBound_ite _ _ _ (keepsBound_pure _) keepsBound_throw
  | getPrototypeOf o =>
    refine keepsBound_onObject _ _ (fun r =>
      keepsBound_bind _ _ (hm.getPrototypeOf r) (fun p => ?_))
    cases p with
    | none => exact keepsBound_pure _
    | some q => exact keepsBound_pure _
  | isExtensible o =>
    exact keepsBound_onObject _ _ (fun r =>
      keepsBound_bind _ _ (hm.isExtensible r) (fun _ => keepsBound_pure _))
  | preventExtensions o =>
    exact keepsBound_onObject _ _ (fun r =>
      keepsBound_bind _ _ (hm.preventExtensions r) (fun _ => keepsBound_pure _))
  | call f thisArg args => exact keepsBound_onObject _ _ (fun r => hm.call r _ _)
  | construct f args =>
    exact keepsBound_onObject _ _ (fun r =>
      keepsBound_bind _ _ (hm.construct r _ r) (fun _ => keepsBound_pure _))

/-- A sequence of operations keeps `Heap.Bound`. -/
theorem bound_runOps (m : Methods) (hm : m.KeepsBound) (ops : List Op) :
    ∀ (rs : List (Completion Val)) (h : Heap), h.Bound → (runOps m ops rs h).2.Bound := by
  induction ops with
  | nil =>
    intro rs h hb
    exact hb
  | cons op ops ih =>
    intro rs h hb
    have e := keepsBound_step m hm rs op h hb
    simp only [runOps]
    cases hs : step m rs op h with
    | ret v h1 =>
      rw [hs] at e
      exact ih _ h1 e
    | throw er h1 =>
      rw [hs] at e
      exact ih _ h1 e
    | abort => exact hb

/-- The heap a session ends in satisfies `Heap.Bound` when the page did. -/
theorem bound_session (Φ : FunTable) (hΦ : Φ.KeepsBound) (n : Nat) (obj : Val) (label : String)
    (kind : Val) (ops : List Op) (h : Heap) (hb : h.Bound) :
    (session Φ n obj label kind ops h).2.Bound := by
  have e := keepsBound_proxy obj label kind h hb
  unfold session
  cases hp : proxy obj label kind h with
  | ret P h1 =>
    rw [hp] at e
    exact bound_runOps _ (keepsBound_methods Φ hΦ n) ops _ h1 e
  | throw er h1 =>
    rw [hp] at e
    exact e
  | abort => exact hb

theorem keepsBound_noFun : noFun.KeepsBound :=
  ⟨fun _ _ _ => keepsBound_abort, fun _ _ _ => keepsBound_abort⟩

theorem keepsBound_thisName : thisName.KeepsBound := by
  constructor
  · intro f thisArg args
    cases thisArg with
    | obj r => exact (keepsBound_methods noFun keepsBound_noFun 3).get r _ _
    | _ => exact keepsBound_throw
  · intro f args newTarget
    exact keepsBound_pure _

/-- A call of a Proxy that is not callable is a `TypeError` before any trap. -/
theorem call_proxy_not_callable (Φ : FunTable) (n : Nat) (h : Heap) (Q F hd : Ref) (k : Bool)
    (x : Handler) (R : Val) (args : List Val)
    (hQ : h.lookup Q = some (.proxy F hd false k))
    (hH : h.lookup hd = some (.handler x)) :
    (methods Φ (n + 1)).call Q R args h = .throw .typeError h := by
  simp only [methods, Methods.next]
  rw [dispatch_proxy Q _ _ h F hd false k _ hQ hH]
  rfl

/-! ## C12 -/

/-- C12. The receiver override is unconditional. Take a page in which every
Proxy carries a handler record built by `main.js` (for instance a page without
proxies), and user functions that create proxies through `proxy` only. Wrap any
value with `proxy(obj, label, kind)`, for any kind, and run any sequence of
reads, writes, calls and the other operations on what comes back. In the heap
reached, every Proxy `Q` whose handler record is a `methodhandler` has an
object in the record's `target_obj`: the field is truthy, the trap `apply`
passes `target_obj` and never the caller's `thisArg` to `Reflect.apply`, a call
of `Q` is that `Reflect.apply` when `Q` is callable, and two calls of `Q` that
differ in the receiver only complete alike. -/
theorem receiver_override_unconditional (Φ : FunTable) (hΦ : Φ.KeepsBound) (n N : Nat)
    (h0 : Heap) (hb : h0.Bound) (obj : Val) (label : String) (kind : Val) (ops : List Op)
    (Q F hd : Ref) (cc k : Bool) (L : String) (tobj : Val)
    (hQ : (session Φ n obj label kind ops h0).2.lookup Q = some (.proxy F hd cc k))
    (hH : (session Φ n obj label kind ops h0).2.lookup hd = some (.handler (.method L tobj))) :
    (∃ r, tobj = .obj r) ∧ toBoolean tobj = true ∧
    (∀ (m : Methods) (R : Val) (args : List Val),
      methodhandler.apply m tobj F R args = Reflect.apply m F tobj args) ∧
    (cc = true → ∀ (R : Val) (args : List Val),
      (methods Φ (N + 1)).call Q R args (session Φ n obj label kind ops h0).2 =
        Reflect.apply (methods Φ N) F tobj args (session Φ n obj label kind ops h0).2) ∧
    (∀ (R R1 : Val) (args : List Val),
      (methods Φ (N + 1)).call Q R args (session Φ n obj label kind ops h0).2 =
        (methods Φ (N + 1)).call Q R1 args (session Φ n obj label kind ops h0).2) := by
  have hbS := bound_session Φ hΦ n obj label kind ops h0 hb
  generalize (session Φ n obj label kind ops h0).2 = hS at hQ hH hbS
  obtain ⟨x, hx, hxb⟩ := hbS Q F hd cc k hQ
  rw [hH] at hx
  injection hx with hx
  injection hx with hx
  subst hx
  cases tobj with
  | obj r =>
    have ht : toBoolean (.obj r) = true := rfl
    have hcall : cc = true → ∀ (R : Val) (args : List Val),
        (methods Φ (N + 1)).call Q R args hS = Reflect.apply (methods Φ N) F (.obj r) args hS := by
      intro hc R args
      subst hc
      rw [call_proxy_method Φ N hS Q F hd k L (.obj r) R args hQ hH]
      rfl
    refine ⟨⟨r, rfl⟩, ht, ?_, hcall, ?_⟩
    · intro m R args
      rfl
    · intro R R1 args
      cases cc with
      | true => rw [hcall rfl R args, hcall rfl R1 args]
      | false =>
        rw [call_proxy_not_callable Φ N hS Q F hd k _ R args hQ hH,
          call_proxy_not_callable Φ N hS Q F hd k _ R1 args hQ hH]
  | undefined => cases hxb
  | null => cases hxb
  | bool b => cases hxb
  | num b => cases hxb
  | str b => cases hxb
  | sym b => cases hxb

theorem receiver_override_unconditional_witness :
    (session thisName 4 (.obj 3) "root" (.str "object") [.get (.res 0) (.str "greet")]
        demoHeap).2.lookup 8 = some (.proxy 2 7 true true) ∧
    (session thisName 4 (.obj 3) "root" (.str "object") [.get (.res 0) (.str "greet")]
        demoHeap).2.lookup 7 = some (.handler (.method "root" (.obj 3))) ∧
    (methods thisName 4).call 8 (.obj 4) []
        (session thisName 4 (.obj 3) "root" (.str "object") [.get (.res 0) (.str "greet")]
          demoHeap).2
      = (methods thisName 4).call 8 .undefined []
        (session thisName 4 (.obj 3) "root" (.str "object") [.get (.res 0) (.str "greet")]
          demoHeap).2 ∧
    ((methods thisName 4).call 8 (.obj 4) []
        (session thisName 4 (.obj 3) "root" (.str "object") [.get (.res 0) (.str "greet")]
          demoHeap).2).completion = .value (.str "orig") :=
  ⟨rfl, rfl,
    (receiver_override_unconditional thisName keepsBound_thisName 4 3 demoHeap
      (bound_of_check demoHeap rfl) (.obj 3) "root" (.str "object")
      [.get (.res 0) (.str "greet")] 8 2 7 true true "root" (.obj 3) rfl rfl).2.2.2.2
      (.obj 4) .undefined [],
    rfl⟩

/-! ## Reads along a path of wrapped objects -/

theorem readPath_cons (m : Methods) (k : String) (ks : List String) (r : Ref) :
    readPath m (k :: ks) (.obj r) =
      (m.get r (.str k) (.obj r) >>= fun x => readPath m ks x) := rfl

/-- A wrappable path stays one when cells are added to the heap. -/
theorem wrappablePath_extends (Φ : FunTable) (n : Nat) (h h1 : Heap) (hext : h.Extends h1)
    (C : Ref) : ∀ (ks : List String) (O : Ref),
      WrappablePath Φ n h O ks C → WrappablePath Φ n h1 O ks C := by
  intro ks
  induction ks with
  | nil =>
    intro O hp
    exact hp
  | cons k ks ih =>
    intro O hp
    obtain ⟨o, C1, c1, hO, hC1, hnc, hget, hinst, hfro, hrest⟩ := hp
    exact ⟨o, C1, c1, hext.2 _ _ hO, hext.2 _ _ hC1, hnc,
      fun h2 he => hget h2 (extends_trans _ _ _ hext he),
      (queriesStable Φ (n + 1)).instanceofObject (.obj C1) h h1 true hext hinst, hfro,
      ih C1 hrest⟩

/-- Reading a wrappable path through an object proxy over `O` returns an object
proxy over the object the path ends at; the heap only gains cells. -/
theorem read_along_wrappable_path (Φ : FunTable) (n : Nat) (C : Ref) :
    ∀ (ks : List String) (h : Heap) (P O hd : Ref) (c kk : Bool) (L : String),
      h.lookup P = some (.proxy O hd c kk) →
      h.lookup hd = some (.handler (.object L)) →
      WrappablePath Φ n h O ks C →
      ∃ (h1 : Heap) (Pn hdn : Ref) (cn kn : Bool) (Ln : String),
        h.Extends h1 ∧
        readPath (methods Φ (n + 2)) ks (.obj P) h = .ret (.obj Pn) h1 ∧
        h1.lookup Pn = some (.proxy C hdn cn kn) ∧
        h1.lookup hdn = some (.handler (.object Ln)) := by
  intro ks
  induction ks with
  | nil =>
    intro h P O hd c kk L hP hH hp
    have e : O = C := hp
    subst e
    exact ⟨h, P, hd, c, kk, L, extends_refl h, rfl, hP, hH⟩
  | cons k ks ih =>
    intro h P O hd c kk L hP hH hp
    obtain ⟨o, C1, c1, hO, hC1, hnc, hget, hinst, hfro, hrest⟩ := hp
    have hcall : (Obj.ordinary c1).isCallable = false := by simp [Obj.isCallable, hnc]
    have r1 := read_object_through_proxy Φ n h P O hd C1 c kk L k (.obj P) o (.ordinary c1)
      hP hH hO (hget h (extends_refl h)) hinst hC1 hcall hfro
    have ext1 := extends_push_push h (.handler (.object (L ++ "." ++ k)))
      (.proxy C1 h.objs.length false (Obj.ordinary c1).isConstructor)
    have hP1 := lookup_push_push_proxy h (.handler (.object (L ++ "." ++ k)))
      (.proxy C1 h.objs.length false (Obj.ordinary c1).isConstructor)
    have hH1 := lookup_push_push_handler h (.handler (.object (L ++ "." ++ k)))
      (.proxy C1 h.objs.length false (Obj.ordinary c1).isConstructor)
    obtain ⟨h2, Pn, hdn, cn, kn, Ln, ext2, hread, hPn, hHn⟩ :=
      ih _ (h.objs.length + 1) C1 h.objs.length false (Obj.ordinary c1).isConstructor
        (L ++ "." ++ k) hP1 hH1 (wrappablePath_extends Φ n h _ ext1 C ks C1 hrest)
    refine ⟨h2, Pn, hdn, cn, kn, Ln, extends_trans _ _ _ ext1 ext2, ?_, hPn, hHn⟩
    rw [readPath_cons, bind_ret _ _ _ _ _ r1]
    exact hread

/-! ## C13 -/

/-- C13, as amended. Let `P = proxy(O, label, "object")` for an ordinary object
`O`, and let `k1...kn` be string keys such that each `O.k1...ki` is an ordinary
non-callable object that is `instanceof Object`, no `ki` being a read-only
non-configurable own data property of the object it is read from (the path may
also be empty). Let `C = O.k1...kn` and let `C[f]`, for a string or symbol key
`f`, be an ordinary function `F` with `F instanceof Object`, where `f` is not a
read-only non-configurable own data property of `C`. Then for every receiver
`R` and all arguments, `P.k1...kn[f].call(R, ...args)` runs the body of `F` with
`this = C` (the raw object the path ends at: not `O`, not a proxy, not `R`), in
a heap that only gained cells, and that is what `F.apply(C, args)` does there. -/
theorem nested_method_bound_to_innermost (Φ : FunTable) (n : Nat) (h0 h : Heap)
    (P O C F : Ref) (label : String) (ks : List String) (f : PropKey)
    (o co fo : Ordinary) (fid : FuncId) (R : Val) (args : List Val)
    (hO : h0.lookup O = some (.ordinary o))
    (hwrap : proxy (.obj O) label (.str "object") h0 = .ret P h)
    (hpath : WrappablePath Φ n h O ks C)
    (hC : h.lookup C = some (.ordinary co))
    (hF : h.lookup F = some (.ordinary fo)) (hfid : fo.call = some fid)
    (hget : ∀ h1, h.Extends h1 →
      (methods Φ (n + 1)).get C f (.obj C) h1 = .ret (.obj F) h1)
    (hinst : (methods Φ (n + 1)).instanceofObject (.obj F) h = .ret true h)
    (hfro : co.hasFrozenData f = false) :
    ∃ h1, h.Extends h1 ∧
      callAlongPath (methods Φ (n + 2)) P ks f R args h = Φ.call fid (.obj C) args h1 ∧
      Reflect.apply (methods Φ (n + 1)) F (.obj C) args h1 = Φ.call fid (.obj C) args h1 := by
  obtain ⟨hP, hH, -, -, -⟩ :=
    proxy_object_cells O label (.str "object") h0 h P _ (by decide) hO hwrap
  obtain ⟨h1, Pn, hdn, cn, kn, Ln, ext1, hread, hPn, hHn⟩ :=
    read_along_wrappable_path Φ n C ks h P O _ _ _ label hP hH hpath
  have hcall : (Obj.ordinary fo).isCallable = true := by simp [Obj.isCallable, hfid]
  have r2 := read_function_through_proxy Φ n h1 Pn C hdn F cn kn Ln f (.obj Pn) co
    (.ordinary fo) hPn hHn (ext1.2 _ _ hC) (hget h1 ext1)
    ((queriesStable Φ (n + 1)).instanceofObject (.obj F) h h1 true ext1 hinst)
    (ext1.2 _ _ hF) hcall hfro
  have ext2 := extends_push_push h1 (.handler (.method Ln (.obj C)))
    (.proxy F h1.objs.length true (Obj.ordinary fo).isConstructor)
  have hQ := lookup_push_push_proxy h1 (.handler (.method Ln (.obj C)))
    (.proxy F h1.objs.length true (Obj.ordinary fo).isConstructor)
  have hHQ := lookup_push_push_handler h1 (.handler (.method Ln (.obj C)))
    (.proxy F h1.objs.length true (Obj.ordinary fo).isConstructor)
  have hF2 := ext2.2 _ _ (ext1.2 _ _ hF)
  refine ⟨_, extends_trans _ _ _ ext1 ext2, ?_, reflect_apply_ordinary Φ n _ F fo fid _ args
    hF2 hfid⟩
  unfold callAlongPath
  rw [bind_ret _ _ _ _ _ hread]
  simp only
  unfold readThenCall
  rw [bind_ret _ _ _ _ _ r2]
  simp only
  rw [call_proxy_method Φ (n + 1) _ _ F _ _ Ln (.obj C) R args hQ hHQ]
  exact reflect_apply_ordinary Φ n _ F fo fid _ args hF2 hfid

theorem nested_method_bound_to_innermost_witness :
    ∃ h1, deepWrapped.Extends h1 ∧
      callAlongPath (methods thisName 4) 8 ["a", "b"] (.str "greet") (.obj 6) [] deepWrapped
        = thisName.call 0 (.obj 3) [] h1 ∧
      Reflect.apply (methods thisName 3) 2 (.obj 3) [] h1 = thisName.call 0 (.obj 3) [] h1 :=
  nested_method_bound_to_innermost thisName 2 deepHeap deepWrapped 8 5 3 2 "root" ["a", "b"]
    (.str "greet") recOuter recInner recGreet 0 (.obj 6) [] rfl rfl
    ⟨recOuter, 4, recMid, rfl, rfl, rfl,
      fun h1 e => get_own_data thisName 2 h1 5 recOuter (.str "a") (.obj 5) (.obj 4)
        true true true (e.2 5 _ rfl) rfl,
      rfl, rfl,
      ⟨recMid, 3, recInner, rfl, rfl, rfl,
        fun h1 e => get_own_data thisName 2 h1 4 recMid (.str "b") (.obj 4) (.obj 3)
          true true true (e.2 4 _ rfl) rfl,
        rfl, rfl, rfl⟩⟩
    rfl rfl rfl
    (fun h1 e => get_own_data thisName 2 h1 3 recInner (.str "greet") (.obj 3) (.obj 2)
      true true true (e.2 3 _ rfl) rfl)
    rfl rfl

/-- Counterexample to C13 as stated, on the page `O = { a: mid }`,
`mid = { b: inner }`, `inner = { greet, name: "inner" }`, with
`greet = function () { return this.name }`. (1) `inner = Object.create(null)`:
`O.a` and `O.a.b` are ordinary non-callable objects and `O.a.b.greet` is the
ordinary function `greet`, `greet.apply(inner)` returns `"inner"`, yet
`P.a.b.greet.call(fake)` returns `"fake"`: `P.a.b` is `inner` itself and `greet`
runs with the caller's receiver. (2) `mid` frozen: the same call throws a
`TypeError`. -/
theorem nested_method_unrestricted_fails :
    (deepBareHeap.lookup 4 = some (.ordinary recMid) ∧ recMid.call = none ∧
      deepBareHeap.lookup 3 = some (.ordinary recBareInner) ∧ recBareInner.call = none ∧
      deepBareHeap.lookup 2 = some (.ordinary recGreet) ∧ recGreet.call = some 0 ∧
      readPath (methods thisName 3) ["a"] (.obj 5) deepBareHeap = .ret (.obj 4) deepBareHeap ∧
      readPath (methods thisName 3) ["a", "b"] (.obj 5) deepBareHeap
        = .ret (.obj 3) deepBareHeap ∧
      (methods thisName 3).get 3 (.str "greet") (.obj 3) deepBareHeap
        = .ret (.obj 2) deepBareHeap ∧
      Reflect.apply (methods thisName 3) 2 (.obj 3) [] deepBareHeap
        = .ret (.str "inner") deepBareHeap ∧
      ((proxy (.obj 5) "root" (.str "object") >>= fun P =>
          callAlongPath (methods thisName 4) P ["a", "b"] (.str "greet") (.obj 6) [])
        deepBareHeap).completion = .value (.str "fake")) ∧
    (readPath (methods thisName 3) ["a", "b"] (.obj 5) deepFrozenHeap
        = .ret (.obj 3) deepFrozenHeap ∧
      (methods thisName 3).get 3 (.str "greet") (.obj 3) deepFrozenHeap
        = .ret (.obj 2) deepFrozenHeap ∧
      Reflect.apply (methods thisName 3) 2 (.obj 3) [] deepFrozenHeap
        = .ret (.str "inner") deepFrozenHeap ∧
      ((proxy (.obj 5) "root" (.str "object") >>= fun P =>
          callAlongPath (methods thisName 4) P ["a", "b"] (.str "greet") (.obj 6) [])
        deepFrozenHeap).completion = .error .typeError) := by
  refine ⟨⟨rfl, rfl, rfl, rfl, rfl, rfl, rfl, rfl, rfl, rfl, rfl⟩, rfl, rfl, rfl, rfl⟩

end JsProxy
